import Mathlib

/-!
# Rail denizens: per-tick pose, lap bookkeeping, binding, events and export

A shallow embedding of `src/components/rail_denizen.cpp` and of
`TransformData::GetTransformMatrix` of `src/components/transform.h`.

Modelling conventions.

* The lap counter and the sample count of a rail are computed in float32:
  `Flt` carries a finite value or an IEEE special value, and every operation
  on it rounds the exact result to the nearest float32, ties to even, with
  gradual underflow and overflow to an infinity (`F32.round`).  Intermediate
  results are not held at a higher precision.  Signed zeros are not
  distinguished.
* Vector, quaternion and matrix components are exact rationals; the statements
  about them are identities between the same operations on both sides.
* `motive::MotiveTime` is a 32-bit `int`; it is modelled by `Int`, and the sum
  the component forms wraps around (`wrapInt32`).
* The component's data block list `component_data_` is a list of
  `(entity, data)` records.  `GetComponentData(iter->entity)` inside an
  iteration yields the data block of the iterated record.  The entity library
  gives an entity at most one data block; statements that depend on it carry
  the hypothesis `(entities w).Nodup`.
* `ParseAction` is recorded as a call; what the action then does lies outside
  the component.
* The motion engine, the transform component, the rail manager, the rail-node
  component, the binary schema and the entity factory are collaborators of the
  component; the world state records what the component reads from them and
  writes to them.
-/

namespace Zooshi

/-! ## mathfu vectors and quaternions -/

/-- The type `mathfu::vec3`. -/
structure Vec3 where
  x : ℚ
  y : ℚ
  z : ℚ
deriving DecidableEq

namespace Vec3

/-- Vector sum (`operator+=`). -/
def add (a b : Vec3) : Vec3 := ⟨a.x + b.x, a.y + b.y, a.z + b.z⟩

/-- Component-wise product (`operator*=` with a vector operand). -/
def hadamard (a b : Vec3) : Vec3 := ⟨a.x * b.x, a.y * b.y, a.z * b.z⟩

/-- Product with a scalar. -/
def smul (k : ℚ) (a : Vec3) : Vec3 := ⟨k * a.x, k * a.y, k * a.z⟩

/-- Negation. -/
def neg (a : Vec3) : Vec3 := ⟨-a.x, -a.y, -a.z⟩

/-- Dot product. -/
def dot (a b : Vec3) : ℚ := a.x * b.x + a.y * b.y + a.z * b.z

/-- Cross product. -/
def cross (a b : Vec3) : Vec3 :=
  ⟨a.y * b.z - a.z * b.y, a.z * b.x - a.x * b.z, a.x * b.y - a.y * b.x⟩

end Vec3

/-- The constant `mathfu::kZeros3f`. -/
def kZeros3f : Vec3 := ⟨0, 0, 0⟩

/-- The constant `mathfu::kOnes3f`. -/
def kOnes3f : Vec3 := ⟨1, 1, 1⟩

/-- The constant `mathfu::kAxisY3f`. -/
def kAxisY3f : Vec3 := ⟨0, 1, 0⟩

/-- The type `mathfu::quat`: scalar part `s`, vector part `v`. -/
structure Quat where
  s : ℚ
  v : Vec3
deriving DecidableEq

namespace Quat

/-- The constant `mathfu::quat::identity`. -/
def identity : Quat := ⟨1, kZeros3f⟩

/-- The method `Quaternion::Inverse`: the conjugate. -/
def Inverse (q : Quat) : Quat := ⟨q.s, q.v.neg⟩

/-- Quaternion product (`operator*` with a quaternion operand). -/
def mul (q r : Quat) : Quat :=
  ⟨q.s * r.s - Vec3.dot q.v r.v,
   Vec3.add (Vec3.add (Vec3.smul q.s r.v) (Vec3.smul r.s q.v)) (Vec3.cross q.v r.v)⟩

/-- Rotation of a vector (`operator*` with a vector operand). -/
def rotate (q : Quat) (v1 : Vec3) : Vec3 :=
  let ss := q.s + q.s
  Vec3.add
    (Vec3.add (Vec3.smul ss (Vec3.cross q.v v1)) (Vec3.smul (ss * q.s - 1) v1))
    (Vec3.smul (2 * Vec3.dot q.v v1) q.v)

end Quat

/-- The transcendental quaternion constructors of mathfu that the component
calls; they are collaborators and are passed in. -/
structure MathFu where
  /-- The function `mathfu::quat::RotateFromTo(v1, v2)`. -/
  RotateFromTo : Vec3 → Vec3 → Quat
  /-- The function `mathfu::quat::FromEulerAngles`. -/
  FromEulerAngles : Vec3 → Quat
  /-- The method `Quaternion::ToEulerAngles`. -/
  ToEulerAngles : Quat → Vec3

/-! ## The lap counter's float values -/

/-- A `float` as held by `RailDenizenData::lap`: a finite value or one of the
IEEE special values. -/
inductive Flt where
  | fin (q : ℚ)
  | posInf
  | negInf
  | nan
deriving DecidableEq

/-! ### float32 rounding -/

namespace F32

/-- Rounding of a rational to the nearest integer, halves to the even one. -/
def roundHalfEven (r : ℚ) : ℤ :=
  if r - ⌊r⌋ < 1 / 2 then ⌊r⌋
  else if 1 / 2 < r - ⌊r⌋ then ⌊r⌋ + 1
  else if ⌊r⌋ % 2 = 0 then ⌊r⌋ else ⌊r⌋ + 1

/-- The binary exponent of the float32 binade of `x`: `⌊log₂ |x|⌋`, and -126
throughout the subnormal range. -/
def exponent (x : ℚ) : ℤ :=
  if x = 0 then -126 else max (Int.log 2 |x|) (-126)

/-- The unit in the last place of the binade of `x`: the significand has 24
bits. -/
def ulp (x : ℚ) : ℚ := (2 : ℚ) ^ (exponent x - 23)

/-- The float32 nearest to `x`, ties to even, before the overflow check. -/
def roundFin (x : ℚ) : ℚ := roundHalfEven (x / ulp x) * ulp x

/-- Rounding to float32: nearest, ties to even; a result of magnitude `2 ^ 128`
is an infinity. -/
def round (x : ℚ) : Flt :=
  if 2 ^ 128 ≤ roundFin x then Flt.posInf
  else if roundFin x ≤ -(2 ^ 128) then Flt.negInf
  else Flt.fin (roundFin x)

end F32

/-- The value of a 32-bit `int` after an addition that wraps around. -/
def wrapInt32 (x : Int) : Int := (x + 2 ^ 31) % 2 ^ 32 - 2 ^ 31

namespace Flt

/-- The function `floor` on a float. -/
def floor : Flt → Flt
  | fin q => fin (⌊q⌋ : ℤ)
  | posInf => posInf
  | negInf => negInf
  | nan => nan

/-- Float addition: the exact sum of two finite values is rounded to
float32. -/
def add : Flt → Flt → Flt
  | fin a, fin b => F32.round (a + b)
  | nan, _ => nan
  | _, nan => nan
  | posInf, negInf => nan
  | negInf, posInf => nan
  | posInf, _ => posInf
  | negInf, _ => negInf
  | fin _, posInf => posInf
  | fin _, negInf => negInf

/-- Float comparison `a < b`; false whenever an operand is NaN. -/
def lt : Flt → Flt → Bool
  | fin a, fin b => decide (a < b)
  | nan, _ => false
  | _, nan => false
  | negInf, negInf => false
  | negInf, _ => true
  | _, negInf => false
  | posInf, _ => false
  | fin _, posInf => true

/-- Float division: the exact quotient of two finite values is rounded to
float32; a zero divisor (taken as +0) gives NaN or an infinity. -/
def div : Flt → Flt → Flt
  | fin a, fin b =>
    if b = 0 then
      if a = 0 then nan else if 0 < a then posInf else negInf
    else F32.round (a / b)
  | nan, _ => nan
  | _, nan => nan
  | fin _, posInf => fin 0
  | fin _, negInf => fin 0
  | posInf, fin b => if 0 ≤ b then posInf else negInf
  | negInf, fin b => if 0 ≤ b then negInf else posInf
  | posInf, posInf => nan
  | posInf, negInf => nan
  | negInf, posInf => nan
  | negInf, negInf => nan

/-- The quotient `static_cast<float>(a) / b` of two `int` values: both are
converted to `float` and divided there. -/
def divInt (a b : Int) : Flt := div (F32.round (a : ℚ)) (F32.round (b : ℚ))

/-- Float multiplication: the exact product of two finite values is rounded to
float32; an infinity times zero is NaN. -/
def mul : Flt → Flt → Flt
  | fin a, fin b => F32.round (a * b)
  | nan, _ => nan
  | _, nan => nan
  | posInf, fin b => if b = 0 then nan else if 0 < b then posInf else negInf
  | negInf, fin b => if b = 0 then nan else if 0 < b then negInf else posInf
  | fin a, posInf => if a = 0 then nan else if 0 < a then posInf else negInf
  | fin a, negInf => if a = 0 then nan else if 0 < a then negInf else posInf
  | posInf, posInf => posInf
  | posInf, negInf => negInf
  | negInf, posInf => negInf
  | negInf, negInf => posInf

end Flt

/-! ## Data model -/

/-- Entity identity (`entity::EntityRef`). -/
abbrev EntityRef := Nat

/-- A serialized `ActionDef` table, opaque to the component. -/
structure ActionDef where
  bytes : List Nat
deriving DecidableEq

/-- The splines of a rail, owned by the motion library and identified here by
a handle. -/
structure RailSplines where
  handle : Nat
deriving DecidableEq

/-- The class `Rail`, as far as binding is concerned: the splines it owns. -/
structure Rail where
  splines_ : RailSplines
deriving DecidableEq

/-- The value `SplinePlayback3f(splines, start_x, repeat)` handed to
`Motivator::SetSpline`. -/
structure SplinePlayback3f where
  splines : RailSplines
  start_x : ℚ
  repeats : Bool
deriving DecidableEq

/-- What the component has set on its motivator handle. -/
structure Motivator3f where
  /-- Whether `Initialize(SmoothInit, engine)` attached it to the engine. -/
  valid : Bool
  /-- The argument of the last `SetSpline`. -/
  playback : Option SplinePlayback3f
  /-- The argument of the last `SetSplinePlaybackRate`. -/
  playback_rate : ℚ
deriving DecidableEq

/-- What the motion engine reports for a motivator at the current tick:
`Value()`, `Velocity()`, `SplineTime()` and `TargetTime()`.  The two times are
`motive::MotiveTime`, a 32-bit `int`: they lie in the int32 range and
arithmetic on them wraps (`wrapInt32`). -/
structure MotivatorReport where
  value : Vec3
  velocity : Vec3
  spline_time : Int
  target_time : Int
deriving DecidableEq

/-- The struct `RailDenizenData`. -/
structure RailDenizenData where
  motivator : Motivator3f
  rail_name : String
  start_time : ℚ
  spline_playback_rate : ℚ
  rail_offset : Vec3
  rail_orientation : Quat
  rail_scale : Vec3
  update_orientation : Bool
  inherit_transform_data : Bool
  lap : Flt
  on_new_lap : Option ActionDef
  on_new_lap_flatbuffer : List Nat
  enabled : Bool
deriving DecidableEq

/-- The struct `TransformData`. -/
structure TransformData where
  position : Vec3
  scale : Vec3
  orientation : Quat
deriving DecidableEq

/-- One call of `ParseAction(action, &context, ...)`, with the fields of the
`EventContext` it receives. -/
structure ActionCall where
  action : ActionDef
  source : EntityRef
  raft : EntityRef
deriving DecidableEq

/-- The binary schema of the component definitions: the names of the tables it
describes. -/
structure Schema where
  objects : List String
deriving DecidableEq

/-- The data of a rail node (`RailNodeData`), as far as the component reads
it. -/
structure RailNodeData where
  rail_name : String
deriving DecidableEq

/-- The state the component works on. -/
structure World where
  /-- The component's data blocks, in iteration order. -/
  component_data_ : List (EntityRef × RailDenizenData)
  /-- The transform component's data, by entity. -/
  transforms : EntityRef → TransformData
  /-- The motion engine's current reports, by entity. -/
  engine : EntityRef → MotivatorReport
  /-- The services component's `raft_entity()`. -/
  raft_entity : EntityRef
  /-- The calls of `ParseAction` made so far, oldest first. -/
  actions : List ActionCall
  /-- The messages passed to `LogError` so far, oldest first. -/
  errors : List String
  /-- The rail manager's `GetRailFromComponents`. -/
  rails : String → Rail
  /-- The rail-node component's data, by entity. -/
  rail_nodes : EntityRef → Option RailNodeData
  /-- The services component's `component_def_binary_schema()`. -/
  schema : Option Schema
  /-- The entity factory's `WillBeKeptInMemory`. -/
  kept_in_memory : ActionDef → Bool

/-- The lookup `GetComponentData(entity)`: the entity's data block, if any. -/
def GetComponentData (w : World) (e : EntityRef) : Option RailDenizenData :=
  (w.component_data_.find? (fun r => r.1 == e)).map Prod.snd

/-! ## `RailDenizenComponent::UpdateAllEntities` -/

/-- The transform written for an enabled denizen (lines 90-103). -/
def updateTransform (mf : MathFu) (d : RailDenizenData) (r : MotivatorReport)
    (t : TransformData) : TransformData :=
  let position := Quat.rotate d.rail_orientation.Inverse r.value
  let position := Vec3.hadamard position d.rail_scale
  let position := Vec3.add position d.rail_offset
  let t := { t with position := position }
  if d.update_orientation then
    let t := { t with orientation := mf.RotateFromTo r.velocity kAxisY3f }
    if d.inherit_transform_data then
      { t with orientation := Quat.mul d.rail_orientation t.orientation }
    else t
  else t

/-- The lap bookkeeping of an enabled denizen (lines 105-128): the new data
block and the `ParseAction` calls made. -/
def updateLap (raft : EntityRef) (e : EntityRef) (d : RailDenizenData)
    (r : MotivatorReport) : RailDenizenData × List ActionCall :=
  let previous_lap := d.lap
  let total := wrapInt32 (r.spline_time + r.target_time)
  let percent := Flt.divInt r.spline_time total
  let d := { d with lap := Flt.add (Flt.floor previous_lap) percent }
  if Flt.lt d.lap previous_lap then
    let d := { d with lap := Flt.add d.lap (Flt.fin 1) }
    match d.on_new_lap with
    | some a => (d, [⟨a, e, raft⟩])
    | none => (d, [])
  else (d, [])

/-- The loop of `UpdateAllEntities` over the data blocks, threading the
transform data and the `ParseAction` calls. -/
def updateLoop (mf : MathFu) (engine : EntityRef → MotivatorReport) (raft : EntityRef) :
    List (EntityRef × RailDenizenData) → (EntityRef → TransformData) → List ActionCall →
    List (EntityRef × RailDenizenData) × (EntityRef → TransformData) × List ActionCall
  | [], tr, acts => ([], tr, acts)
  | (e, d) :: rest, tr, acts =>
    if !d.enabled then
      let out := updateLoop mf engine raft rest tr acts
      ((e, d) :: out.1, out.2.1, out.2.2)
    else
      let tr := Function.update tr e (updateTransform mf d (engine e) (tr e))
      let step := updateLap raft e d (engine e)
      let out := updateLoop mf engine raft rest tr (acts ++ step.2)
      ((e, step.1) :: out.1, out.2.1, out.2.2)

/-- The method `RailDenizenComponent::UpdateAllEntities`. -/
def UpdateAllEntities (mf : MathFu) (w : World) : World :=
  let out := updateLoop mf w.engine w.raft_entity w.component_data_ w.transforms w.actions
  { w with component_data_ := out.1, transforms := out.2.1, actions := out.2.2 }

/-! ## Rail binding -/

/-- The method `Motivator::Initialize(SmoothInit, engine)`: the handle is
attached to the engine; a freshly attached motivator follows no spline. -/
def Motivator3f.Initialize (m : Motivator3f) : Motivator3f :=
  { m with valid := true, playback := none }

/-- The method `Motivator::SetSpline`. -/
def Motivator3f.SetSpline (m : Motivator3f) (s : SplinePlayback3f) : Motivator3f :=
  { m with playback := some s }

/-- The method `Motivator::SetSplinePlaybackRate`. -/
def Motivator3f.SetSplinePlaybackRate (m : Motivator3f) (rate : ℚ) : Motivator3f :=
  { m with playback_rate := rate }

/-- The method `RailDenizenData::Initialize(rail, start_time)`. -/
def RailDenizenData.Initialize (d : RailDenizenData) (rail : Rail) (start_time : ℚ) :
    RailDenizenData :=
  { d with motivator := d.motivator.SetSpline ⟨rail.splines_, start_time, true⟩ }

/-- The message `InitializeRail` passes to `LogError`. -/
def noRailNameError : String := "RailDenizen: Error, no rail name specified"

/-- The body of `RailDenizenComponent::InitializeRail` on the entity's data
block: the new block and the messages logged. -/
def initializeRailData (rails : String → Rail) (d : RailDenizenData) :
    RailDenizenData × List String :=
  let bound : RailDenizenData × List String :=
    if d.rail_name != "" then (d.Initialize (rails d.rail_name) d.start_time, [])
    else (d, [noRailNameError])
  ({ bound.1 with
      motivator := bound.1.motivator.SetSplinePlaybackRate bound.1.spline_playback_rate },
   bound.2)

/-- Replace the data block of the first record of entity `e`. -/
def setData (e : EntityRef) (d : RailDenizenData) :
    List (EntityRef × RailDenizenData) → List (EntityRef × RailDenizenData)
  | [] => []
  | r :: rest => if r.1 == e then (e, d) :: rest else r :: setData e d rest

/-- The method `RailDenizenComponent::InitializeRail(entity)`; `none` when the
entity has no data block (a null pointer is dereferenced). -/
def InitializeRail (w : World) (e : EntityRef) : Option World :=
  match GetComponentData w e with
  | none => none
  | some d =>
    let out := initializeRailData w.rails d
    some { w with component_data_ := setData e out.1 w.component_data_,
                  errors := w.errors ++ out.2 }

/-! ## Construction from raw data and export -/

/-- The flatbuffer table `RailDenizenDef`; absent optional fields are
`none`. -/
structure RailDenizenDef where
  rail_name : Option String
  start_time : ℚ
  on_new_lap : Option ActionDef
  initial_playback_rate : ℚ
  rail_offset : Option Vec3
  rail_orientation : Option Vec3
  rail_scale : Option Vec3
  update_orientation : Bool
  inherit_transform_data : Bool
  enabled : Bool
deriving DecidableEq

/-- The lookup `schema->objects()->LookupByKey("ActionDef")`: the table
definition's name when the schema has it. -/
def Schema.LookupActionDef (s : Schema) : Option String :=
  s.objects.find? (fun n => n == "ActionDef")

/-- The function `flatbuffers::CopyTable`: a copy with the same content. -/
def CopyTable (a : ActionDef) : ActionDef := ⟨a.bytes⟩

/-- The method `Component::AddEntity(entity)`: the entity's existing data
block, or a default-constructed one (`fresh`) added at the back. -/
def AddEntity (fresh : RailDenizenData) (w : World) (e : EntityRef) :
    RailDenizenData × World :=
  match GetComponentData w e with
  | some d => (d, w)
  | none => (fresh, { w with component_data_ := w.component_data_ ++ [(e, fresh)] })

/-- The field assignments of `AddFromRawData` (lines 137-191) on the data
block returned by `AddEntity`; `none` when the action has to be copied and the
schema or its `ActionDef` table is missing (a null pointer is dereferenced). -/
def loadRawData (mf : MathFu) (w : World) (data : RailDenizenData) (df : RailDenizenDef) :
    Option RailDenizenData :=
  let data := match df.rail_name with
    | some n => { data with rail_name := n }
    | none => data
  let data := { data with start_time := df.start_time }
  let loaded : Option RailDenizenData :=
    match df.on_new_lap with
    | some a =>
      if w.kept_in_memory a then some { data with on_new_lap := some a }
      else
        match w.schema with
        | none => none
        | some schema =>
          match schema.LookupActionDef with
          | none => none
          | some _ =>
            let table := CopyTable a
            some { data with on_new_lap_flatbuffer := table.bytes,
                             on_new_lap := some ⟨table.bytes⟩ }
    | none => some data
  match loaded with
  | none => none
  | some data =>
    let data := { data with spline_playback_rate := df.initial_playback_rate }
    let data := match df.rail_offset with
      | some v => { data with rail_offset := v }
      | none => data
    let data := match df.rail_orientation with
      | some v => { data with rail_orientation := mf.FromEulerAngles v }
      | none => data
    let data := match df.rail_scale with
      | some v => { data with rail_scale := v }
      | none => data
    let data := { data with update_orientation := if df.update_orientation then true else false }
    let data := { data with
      inherit_transform_data := if df.inherit_transform_data then true else false }
    let data := { data with enabled := if df.enabled then true else false }
    let data := { data with motivator := data.motivator.Initialize }
    some { data with
      motivator := data.motivator.SetSplinePlaybackRate data.spline_playback_rate }

/-- The method `RailDenizenComponent::AddFromRawData(entity, raw_data)`;
`fresh` is a default-constructed `RailDenizenData`. -/
def AddFromRawData (mf : MathFu) (fresh : RailDenizenData) (w : World) (e : EntityRef)
    (df : RailDenizenDef) : Option World :=
  let added := AddEntity fresh w e
  match loadRawData mf added.2 added.1 df with
  | none => none
  | some data =>
    InitializeRail { added.2 with component_data_ := setData e data added.2.component_data_ } e

/-- The method `RailDenizenComponent::ExportRawData(entity)`; `none` is the
null result for an entity without a data block. -/
def ExportRawData (mf : MathFu) (w : World) (e : EntityRef) : Option RailDenizenDef :=
  match GetComponentData w e with
  | none => none
  | some data =>
    let rail_offset : Vec3 := ⟨data.rail_offset.x, data.rail_offset.y, data.rail_offset.z⟩
    let euler := mf.ToEulerAngles data.rail_orientation
    let rail_orientation : Vec3 := ⟨euler.x, euler.y, euler.z⟩
    let rail_scale : Vec3 := ⟨data.rail_scale.x, data.rail_scale.y, data.rail_scale.z⟩
    let rail_name := if data.rail_name != "" then some data.rail_name else none
    let table_def := w.schema.bind Schema.LookupActionDef
    let on_new_lap :=
      match data.on_new_lap, table_def with
      | some a, some _ => some (CopyTable a)
      | _, _ => none
    some { rail_name := rail_name
           start_time := data.start_time
           on_new_lap := on_new_lap
           initial_playback_rate := data.spline_playback_rate
           rail_offset := some rail_offset
           rail_orientation := some rail_orientation
           rail_scale := some rail_scale
           update_orientation := data.update_orientation
           inherit_transform_data := data.inherit_transform_data
           enabled := data.enabled }

/-! ## `RailDenizenComponent::OnEvent` -/

/-- Modelled from the spec: the enumeration `Operation` of the event
definitions is not among the sources.  The spec names the operators of a
speed-change event as "an arithmetic operator (e.g., set/add/multiply)". -/
inductive Operation where
  | Set
  | Add
  | Multiply
deriving DecidableEq

/-- Modelled from the spec: `ApplyOperation` of `events/utilities.h` is not
among the sources.  The spec says the event "carries an entity reference, an
arithmetic operator (e.g., set/add/multiply), and a value", that the operator
is "applied to `spline_playback_rate`", and that "a multiply by k speed-change
event yields new rate `r*k`". -/
def ApplyOperation (value : ℚ) (op : Operation) (operand : ℚ) : ℚ :=
  match op with
  | Operation.Set => operand
  | Operation.Add => value + operand
  | Operation.Multiply => value * operand

/-- The editor's event actions: `EditorEventAction_EntityUpdated` and the
others. -/
inductive EditorEventAction where
  | EntityUpdated
  | Other (code : Nat)
deriving DecidableEq

/-- The event payloads delivered to the listener, by event id. -/
inductive EventPayload where
  | ChangeRailSpeed (entity : EntityRef) (op : Operation) (value : ℚ)
  | EditorEvent (action : EditorEventAction) (entity : Option EntityRef)
  | Unknown (id : Nat)

/-- The loop of the editor-event case (lines 291-297): every data block bound
to `rail_name` goes through `InitializeRail`. -/
def rebindLoop (rails : String → Rail) (rail_name : String) :
    List (EntityRef × RailDenizenData) → List String →
    List (EntityRef × RailDenizenData) × List String
  | [], errs => ([], errs)
  | (e, d) :: rest, errs =>
    if d.rail_name == rail_name then
      let step := initializeRailData rails d
      let out := rebindLoop rails rail_name rest (errs ++ step.2)
      ((e, step.1) :: out.1, out.2)
    else
      let out := rebindLoop rails rail_name rest errs
      ((e, d) :: out.1, out.2)

/-- The method `RailDenizenComponent::OnEvent`; `none` when `assert(0)` is
reached. -/
def OnEvent (w : World) : EventPayload → Option World
  | EventPayload.ChangeRailSpeed entity op value =>
    match GetComponentData w entity with
    | some d =>
      let d := { d with spline_playback_rate := ApplyOperation d.spline_playback_rate op value }
      let d := { d with motivator := d.motivator.SetSplinePlaybackRate d.spline_playback_rate }
      some { w with component_data_ := setData entity d w.component_data_ }
    | none => some w
  | EventPayload.EditorEvent action entity =>
    match action, entity with
    | EditorEventAction.EntityUpdated, some edited =>
      match w.rail_nodes edited with
      | some node_data =>
        let out := rebindLoop w.rails node_data.rail_name w.component_data_ w.errors
        some { w with component_data_ := out.1, errors := out.2 }
      | none => some w
    | _, _ => some w
  | EventPayload.Unknown _ => none

/-! ## Rail sampling -/

/-- What `Rail` reads from its splines: `EndTime()`, the end of the splines'
time domain (a `float`), and the point evaluator of the motion library, which
is a collaborator and is passed in. -/
structure SplineSampling where
  /-- The method `Rail::EndTime`. -/
  EndTime : Rail → Flt
  /-- The method `CompactSpline::YCalculatedSlowly(x)` of the spline of a
  dimension. -/
  YCalculatedSlowly : Rail → Nat → Flt → ℚ

/-- The constant `Rail::kDimensions`. -/
def kDimensions : Nat := 3

/-- The method `Rail::PositionCalculatedSlowly(time)` (lines 62-68). -/
def Rail.PositionCalculatedSlowly (sp : SplineSampling) (rail : Rail) (time : Flt) : Vec3 :=
  ⟨sp.YCalculatedSlowly rail 0 time, sp.YCalculatedSlowly rail 1 time,
   sp.YCalculatedSlowly rail 2 time⟩

/-- Modelled from the spec: the function
`CompactSpline::BulkYs<3>(splines, start_x, delta_x, num_ys, ys)` of the motion
library is not among the sources.  The spec describes it as the bulk evaluator
that gives evenly time-spaced points and is equivalent to calling point
sampling once per step: the point written to `ys[i]` is the point sample at
`start_x + i * delta_x`, evaluated in float32. -/
def BulkYs (sp : SplineSampling) (rail : Rail) (start_x delta_x : Flt) (_num_ys : Nat)
    (i : Nat) : Vec3 :=
  rail.PositionCalculatedSlowly sp
    (Flt.add start_x (Flt.mul (F32.round (i : ℚ)) delta_x))

/-- The count `num_positions` of `Rail::Positions` (line 55): the conversion
of the float `std::floor(EndTime() / delta_time) + 1` to `size_t`, taken as 64
bits wide; `none` when the value is not finite, is negative or does not fit
(the conversion is then undefined). -/
def Rail.numPositions (sp : SplineSampling) (rail : Rail) (delta_time : Flt) : Option Nat :=
  match Flt.add (Flt.floor (Flt.div (sp.EndTime rail) delta_time)) (Flt.fin 1) with
  | Flt.fin v => if 0 ≤ v ∧ v < 2 ^ 64 then some ⌊v⌋.toNat else none
  | _ => none

/-- The method `Rail::Positions(delta_time, positions)` (lines 53-60): the
content of `positions` afterwards; `none` when the count is undefined or zero
(line 58 takes the address of element 0 of the resized vector). -/
def Rail.Positions (sp : SplineSampling) (rail : Rail) (delta_time : Flt) :
    Option (List Vec3) :=
  match rail.numPositions sp delta_time with
  | none => none
  | some num_positions =>
    if num_positions = 0 then none
    else some ((List.range num_positions).map
      (BulkYs sp rail (Flt.fin 0) delta_time num_positions))

/-! ## `TransformData::GetTransformMatrix` (`src/components/transform.h`) -/

/-- The type `mathfu::vec4`. -/
structure Vec4 where
  x : ℚ
  y : ℚ
  z : ℚ
  w : ℚ
deriving DecidableEq

namespace Vec4

/-- Product with a scalar (`operator*=` with a scalar operand). -/
def smul (k : ℚ) (a : Vec4) : Vec4 := ⟨k * a.x, k * a.y, k * a.z, k * a.w⟩

/-- Vector sum. -/
def add (a b : Vec4) : Vec4 := ⟨a.x + b.x, a.y + b.y, a.z + b.z, a.w + b.w⟩

end Vec4

/-- The type `mathfu::mat3`: three column vectors, stored one after the
other. -/
structure Mat3 where
  c0 : Vec3
  c1 : Vec3
  c2 : Vec3
deriving DecidableEq

namespace Mat3

/-- The flat accessor `operator[](k)`: storage is column-major, so element `k`
is in column `k / 3`, row `k % 3`. -/
def get (m : Mat3) (k : Nat) : ℚ :=
  let column := if k / 3 = 0 then m.c0 else if k / 3 = 1 then m.c1 else m.c2
  if k % 3 = 0 then column.x else if k % 3 = 1 then column.y else column.z

/-- The transposed matrix. -/
def Transpose (m : Mat3) : Mat3 :=
  ⟨⟨m.c0.x, m.c1.x, m.c2.x⟩, ⟨m.c0.y, m.c1.y, m.c2.y⟩, ⟨m.c0.z, m.c1.z, m.c2.z⟩⟩

end Mat3

/-- The method `Quaternion::ToMatrix`: the rotation matrix of a unit
quaternion; the nine constructor arguments are the elements in storage
(column-major) order. -/
def Quat.ToMatrix (q : Quat) : Mat3 :=
  let x2 := q.v.x * q.v.x
  let y2 := q.v.y * q.v.y
  let z2 := q.v.z * q.v.z
  let sx := q.s * q.v.x
  let sy := q.s * q.v.y
  let sz := q.s * q.v.z
  let xz := q.v.x * q.v.z
  let yz := q.v.y * q.v.z
  let xy := q.v.x * q.v.y
  ⟨⟨1 - 2 * (y2 + z2), 2 * (xy + sz), 2 * (xz - sy)⟩,
   ⟨2 * (xy - sz), 1 - 2 * (x2 + z2), 2 * (sx + yz)⟩,
   ⟨2 * (sy + xz), 2 * (yz - sx), 1 - 2 * (x2 + y2)⟩⟩

/-- The type `mathfu::mat4`: four column vectors (the constructor
`mat4(c0, c1, c2, c3)` takes the columns). -/
structure Mat4 where
  c0 : Vec4
  c1 : Vec4
  c2 : Vec4
  c3 : Vec4
deriving DecidableEq

/-- The method `TransformData::GetTransformMatrix` (lines 40-62). -/
def TransformData.GetTransformMatrix (t : TransformData) : Mat4 :=
  let rot := t.orientation.ToMatrix
  let c0 : Vec4 := ⟨rot.get 0, rot.get 3, rot.get 6, 0⟩
  let c1 : Vec4 := ⟨rot.get 1, rot.get 4, rot.get 7, 0⟩
  let c2 : Vec4 := ⟨rot.get 2, rot.get 5, rot.get 8, 0⟩
  let c3 : Vec4 := ⟨0, 0, 0, 1⟩
  let c0 := Vec4.smul t.scale.x c0
  let c1 := Vec4.smul t.scale.y c1
  let c2 := Vec4.smul t.scale.z c2
  let c3 := { c3 with x := t.position.x }
  let c3 := { c3 with y := t.position.y }
  let c3 := { c3 with z := t.position.z }
  ⟨c0, c1, c2, c3⟩

namespace Mat4

/-- Product of a matrix with a column vector. -/
def mulVec (m : Mat4) (v : Vec4) : Vec4 :=
  Vec4.add (Vec4.add (Vec4.smul v.x m.c0) (Vec4.smul v.y m.c1))
    (Vec4.add (Vec4.smul v.z m.c2) (Vec4.smul v.w m.c3))

/-- Product of two 4x4 matrices. -/
def mul (a b : Mat4) : Mat4 := ⟨a.mulVec b.c0, a.mulVec b.c1, a.mulVec b.c2, a.mulVec b.c3⟩

/-- The translation matrix of a vector. -/
def Translation (p : Vec3) : Mat4 :=
  ⟨⟨1, 0, 0, 0⟩, ⟨0, 1, 0, 0⟩, ⟨0, 0, 1, 0⟩, ⟨p.x, p.y, p.z, 1⟩⟩

/-- The 4x4 matrix of a 3x3 rotation matrix. -/
def Rotation (r : Mat3) : Mat4 :=
  ⟨⟨r.c0.x, r.c0.y, r.c0.z, 0⟩, ⟨r.c1.x, r.c1.y, r.c1.z, 0⟩, ⟨r.c2.x, r.c2.y, r.c2.z, 0⟩,
   ⟨0, 0, 0, 1⟩⟩

/-- The scale matrix of a vector. -/
def Scale (s : Vec3) : Mat4 :=
  ⟨⟨s.x, 0, 0, 0⟩, ⟨0, s.y, 0, 0⟩, ⟨0, 0, s.z, 0⟩, ⟨0, 0, 0, 1⟩⟩

end Mat4

/-- The matrix the comment of `GetTransformMatrix` speaks of, by three 4x4
matrix multiplications: `Translation(p) * Rotation(q) * Scale(s)`, the
rotation built from `q.ToMatrix()`. -/
def composedTransformMatrix (t : TransformData) : Mat4 :=
  Mat4.mul (Mat4.mul (Mat4.Translation t.position) (Mat4.Rotation t.orientation.ToMatrix))
    (Mat4.Scale t.scale)

/-- The same composition with the transposed rotation matrix. -/
def transposedTransformMatrix (t : TransformData) : Mat4 :=
  Mat4.mul
    (Mat4.mul (Mat4.Translation t.position) (Mat4.Rotation t.orientation.ToMatrix.Transpose))
    (Mat4.Scale t.scale)

/-- A transform at position (1, 2, 3) with scale (2, 3, 4), turned about the
Z axis by the unit quaternion (3/5, (0, 0, 4/5)). -/
def turnedTransform : TransformData :=
  ⟨⟨1, 2, 3⟩, ⟨2, 3, 4⟩, ⟨3 / 5, ⟨0, 0, 4 / 5⟩⟩⟩

/-! ## Views of a tick used by the statements -/

/-- The record a data block turns into during one tick. -/
def tickRecord (raft : EntityRef) (engine : EntityRef → MotivatorReport)
    (r : EntityRef × RailDenizenData) : EntityRef × RailDenizenData :=
  (r.1, if r.2.enabled then (updateLap raft r.1 r.2 (engine r.1)).1 else r.2)

/-- The `ParseAction` calls one tick makes for a list of data blocks. -/
def tickCalls (raft : EntityRef) (engine : EntityRef → MotivatorReport) :
    List (EntityRef × RailDenizenData) → List ActionCall
  | [] => []
  | r :: rest =>
    (if r.2.enabled then (updateLap raft r.1 r.2 (engine r.1)).2 else [])
      ++ tickCalls raft engine rest

/-- The entities of the data blocks, in iteration order. -/
def entities (w : World) : List EntityRef := w.component_data_.map Prod.fst

/-- The number of `ParseAction` calls made so far on behalf of entity `e`. -/
def callsFor (w : World) (e : EntityRef) : Nat :=
  w.actions.countP (fun c => c.source == e)

/-- The lap a tick stores for a finite previous lap `L` and a finite quotient
`p`, when no sum overflows: `floor(L) + p` rounded, and after a dip that plus
1, rounded again. -/
def storedLap (L p : ℚ) : ℚ :=
  if F32.roundFin ((⌊L⌋ : ℚ) + p) < L then F32.roundFin (F32.roundFin ((⌊L⌋ : ℚ) + p) + 1)
  else F32.roundFin ((⌊L⌋ : ℚ) + p)

/-! ## Simulated ticks -/

/-- One simulated tick: the motion engine has advanced and now reports
`reports`, then the component updates all entities. -/
def tick (mf : MathFu) (reports : EntityRef → MotivatorReport) (w : World) : World :=
  UpdateAllEntities mf { w with engine := reports }

/-- A run of `k` simulated ticks; `reports j` is what the motion engine reports
at tick `j`, counted from 1. -/
def runTicks (mf : MathFu) (reports : Nat → EntityRef → MotivatorReport) : Nat → World → World
  | 0, w => w
  | k + 1, w => tick mf (reports (k + 1)) (runTicks mf reports k w)

/-- The reports of a motivator that stands at spline time `φ` on a loop of
length `T` and advances by `δ` per tick, wrapping at the end of the loop:
what it reports after `k` ticks. -/
def loopReport (T δ φ : Int) (k : Nat) : MotivatorReport :=
  ⟨kZeros3f, kZeros3f, (φ + k * δ) % T, T - (φ + k * δ) % T⟩

/-! ## Concrete instances -/

/-- A stand-in for the mathfu collaborators: `RotateFromTo` always gives the
half turn about the Z axis, `FromEulerAngles` the identity, `ToEulerAngles`
the zero triple. -/
def sampleMathFu : MathFu :=
  ⟨fun _ _ => ⟨0, ⟨0, 0, 1⟩⟩, fun _ => Quat.identity, fun _ => kZeros3f⟩

/-- A denizen of rail "loop", enabled, one and a half laps in. -/
def sampleDenizen : RailDenizenData :=
  { motivator := ⟨true, none, 1⟩
    rail_name := "loop"
    start_time := 0
    spline_playback_rate := 1
    rail_offset := ⟨10, 20, 30⟩
    rail_orientation := ⟨0, ⟨1, 0, 0⟩⟩
    rail_scale := ⟨2, 3, 4⟩
    update_orientation := true
    inherit_transform_data := true
    lap := Flt.fin (3 / 2)
    on_new_lap := some ⟨[7]⟩
    on_new_lap_flatbuffer := []
    enabled := true }

/-- A world with `sampleDenizen` as entity 1 and a disabled copy of it as
entity 2; the engine reports spline time 1 of a loop of length 4. -/
def sampleWorld : World :=
  { component_data_ := [(1, sampleDenizen), (2, { sampleDenizen with enabled := false })]
    transforms := fun _ => ⟨kZeros3f, kOnes3f, Quat.identity⟩
    engine := fun _ => ⟨⟨1, 2, 3⟩, ⟨0, 0, 1⟩, 1, 3⟩
    raft_entity := 0
    actions := []
    errors := []
    rails := fun _ => ⟨⟨5⟩⟩
    rail_nodes := fun e => if e = 9 then some ⟨"loop"⟩ else none
    schema := some ⟨["ActionDef"]⟩
    kept_in_memory := fun _ => false }

/-- The world `sampleWorld` with its first denizen at the start of its first
lap and the second one removed. -/
def startWorld : World :=
  { sampleWorld with component_data_ := [(1, { sampleDenizen with lap := Flt.fin 0 })] }

/-- The world `sampleWorld` with the motion engine reporting spline time 0
and target time 0 for every motivator. -/
def stalledWorld : World :=
  { sampleWorld with engine := fun _ => ⟨⟨1, 2, 3⟩, ⟨0, 0, 1⟩, 0, 0⟩ }

/-- A world whose rail nodes all carry the empty rail name and whose one
denizen has no rail name either. -/
def namelessWorld : World :=
  { sampleWorld with
    component_data_ := [(1, { sampleDenizen with rail_name := "", motivator := ⟨true, none, 3⟩ })]
    rail_nodes := fun _ => some ⟨""⟩ }

/-- The world `sampleWorld` without a binary schema. -/
def schemalessWorld : World :=
  { sampleWorld with schema := none }

/-- A default-constructed data block as taken for the examples. -/
def sampleFresh : RailDenizenData :=
  { motivator := ⟨false, none, 0⟩
    rail_name := ""
    start_time := 0
    spline_playback_rate := 0
    rail_offset := kZeros3f
    rail_orientation := Quat.identity
    rail_scale := kOnes3f
    update_orientation := false
    inherit_transform_data := false
    lap := Flt.fin 0
    on_new_lap := none
    on_new_lap_flatbuffer := []
    enabled := false }

/-- A raw-data record without a rail name. -/
def namelessDef : RailDenizenDef :=
  { rail_name := none
    start_time := 0
    on_new_lap := none
    initial_playback_rate := 1
    rail_offset := none
    rail_orientation := none
    rail_scale := none
    update_orientation := false
    inherit_transform_data := false
    enabled := true }

/-- The world `sampleWorld` with its first denizen at lap 16777216. -/
def highLapWorld : World :=
  { sampleWorld with
    component_data_ := [(1, { sampleDenizen with lap := Flt.fin 16777216 })] }

/-- A spline reader for the examples: every rail ends at time `E`, and the
spline of dimension `dim` has the value `(dim + 1) * x` at a finite time `x`. -/
def sampleSampling (E : ℚ) : SplineSampling :=
  { EndTime := fun _ => Flt.fin E
    YCalculatedSlowly := fun _ dim time =>
      match time with
      | Flt.fin x => (dim + 1 : ℚ) * x
      | _ => 0 }

/-! ## Lemmas on float32 rounding -/

namespace F32

theorem roundHalfEven_le (r : ℚ) : (roundHalfEven r : ℚ) ≤ r + 1 / 2 := by
  have h1 := Int.floor_le r
  unfold roundHalfEven
  split_ifs <;> push_cast <;> linarith

theorem le_roundHalfEven (r : ℚ) : r - 1 / 2 ≤ (roundHalfEven r : ℚ) := by
  have h2 := Int.lt_floor_add_one r
  unfold roundHalfEven
  split_ifs <;> push_cast <;> linarith

theorem roundHalfEven_intCast (n : ℤ) : roundHalfEven (n : ℚ) = n := by
  unfold roundHalfEven
  simp

theorem roundHalfEven_mono {r r' : ℚ} (h : r ≤ r') : roundHalfEven r ≤ roundHalfEven r' := by
  by_contra hlt
  push_neg at hlt
  have h1 : (roundHalfEven r' : ℚ) + 1 ≤ (roundHalfEven r : ℚ) := by exact_mod_cast hlt
  have h2 := roundHalfEven_le r
  have h3 := le_roundHalfEven r'
  have heq : r = r' := le_antisymm h (by linarith)
  rw [heq] at hlt
  exact lt_irrefl _ hlt

theorem roundHalfEven_eq_of_abs_sub_lt {r : ℚ} (n : ℤ) (h : |r - n| < 1 / 2) :
    roundHalfEven r = n := by
  have h2 := roundHalfEven_le r
  have h3 := le_roundHalfEven r
  rw [abs_lt] at h
  have h4 : (roundHalfEven r : ℚ) < (n : ℚ) + 1 := by linarith [h.2]
  have h5 : (n : ℚ) - 1 < (roundHalfEven r : ℚ) := by linarith [h.1]
  have h6 : roundHalfEven r < n + 1 := by exact_mod_cast h4
  have h7 : n - 1 < roundHalfEven r := by exact_mod_cast h5
  omega

theorem roundHalfEven_nonneg {r : ℚ} (h : 0 ≤ r) : 0 ≤ roundHalfEven r := by
  have := roundHalfEven_mono h
  rwa [show ((0 : ℚ)) = ((0 : ℤ) : ℚ) by simp, roundHalfEven_intCast] at this

theorem le_exponent (x : ℚ) : -126 ≤ exponent x := by
  unfold exponent
  split_ifs
  · exact le_refl _
  · exact le_max_right _ _

theorem ulp_pos (x : ℚ) : 0 < ulp x := zpow_pos (by norm_num) _

theorem abs_lt_two_zpow_exponent_succ (x : ℚ) : |x| < (2 : ℚ) ^ (exponent x + 1) := by
  unfold exponent
  split_ifs with h
  · rw [h]; simp; positivity
  · have h1 := Int.lt_zpow_succ_log_self (b := 2) (by norm_num) |x|
    have h2 : ((2 : ℕ) : ℚ) ^ (Int.log 2 |x| + 1)
        ≤ (2 : ℚ) ^ (max (Int.log 2 |x|) (-126) + 1) := by
      rw [Nat.cast_ofNat]
      exact zpow_le_zpow_right₀ (by norm_num) (by have := le_max_left (Int.log 2 |x|) (-126); omega)
    exact lt_of_lt_of_le h1 h2

theorem two_zpow_exponent_le {x : ℚ} (h : -126 < exponent x) :
    (2 : ℚ) ^ exponent x ≤ |x| := by
  unfold exponent at h ⊢
  split_ifs with h0
  · rw [if_pos h0] at h; exact absurd h (lt_irrefl _)
  · rw [if_neg h0] at h
    have hmax : max (Int.log 2 |x|) (-126) = Int.log 2 |x| := by
      rcases le_total (Int.log 2 |x|) (-126) with hle | hle
      · rw [max_eq_right hle] at h; exact absurd h (lt_irrefl _)
      · exact max_eq_left hle
    rw [hmax]
    have := Int.zpow_log_le_self (b := 2) (r := |x|) (by norm_num) (abs_pos.mpr h0)
    rwa [Nat.cast_ofNat] at this

theorem exponent_le_of_abs_lt {x : ℚ} {a : ℤ} (h : |x| < (2 : ℚ) ^ (a + 1)) (ha : -126 ≤ a) :
    exponent x ≤ a := by
  unfold exponent
  split_ifs with h0
  · exact ha
  · apply max_le _ ha
    have := (Int.lt_zpow_iff_log_lt (b := 2) (by norm_num) (abs_pos.mpr h0) (x := a + 1)).mp
      (by rwa [Nat.cast_ofNat])
    omega

theorem le_exponent_of_le_abs {x : ℚ} {a : ℤ} (h : (2 : ℚ) ^ a ≤ |x|) : a ≤ exponent x := by
  have h0 : x ≠ 0 := by
    intro hx
    rw [hx, abs_zero] at h
    exact absurd h (not_le.mpr (zpow_pos (by norm_num) _))
  unfold exponent
  rw [if_neg h0]
  apply le_max_of_le_left
  exact (Int.zpow_le_iff_le_log (b := 2) (by norm_num) (abs_pos.mpr h0)).mp
    (by rwa [Nat.cast_ofNat])

theorem exponent_mono {x y : ℚ} (h : |x| ≤ |y|) : exponent x ≤ exponent y := by
  apply exponent_le_of_abs_lt _ (le_exponent y)
  exact lt_of_le_of_lt h (abs_lt_two_zpow_exponent_succ y)

theorem two_zpow_24_mul_ulp (x : ℚ) : (2 : ℚ) ^ (24 : ℕ) * ulp x = (2 : ℚ) ^ (exponent x + 1) := by
  unfold ulp
  rw [← zpow_natCast, ← zpow_add₀ (by norm_num : (2 : ℚ) ≠ 0)]
  congr 1
  push_cast
  ring

theorem two_zpow_23_mul_ulp (x : ℚ) : (2 : ℚ) ^ (23 : ℕ) * ulp x = (2 : ℚ) ^ exponent x := by
  unfold ulp
  rw [← zpow_natCast, ← zpow_add₀ (by norm_num : (2 : ℚ) ≠ 0)]
  congr 1
  push_cast
  ring

theorem roundFin_zero : roundFin 0 = 0 := by
  unfold roundFin
  rw [zero_div]
  have : roundHalfEven 0 = 0 := by
    have := roundHalfEven_intCast 0
    simpa using this
  rw [this]
  simp

theorem roundFin_nonneg {x : ℚ} (hx : 0 ≤ x) : 0 ≤ roundFin x := by
  unfold roundFin
  have h1 : 0 ≤ roundHalfEven (x / ulp x) := roundHalfEven_nonneg (div_nonneg hx (ulp_pos x).le)
  have h2 : (0 : ℚ) ≤ (roundHalfEven (x / ulp x) : ℚ) := by exact_mod_cast h1
  exact mul_nonneg h2 (ulp_pos x).le

theorem roundFin_le_two_zpow {x : ℚ} (hx : 0 ≤ x) : roundFin x ≤ (2 : ℚ) ^ (exponent x + 1) := by
  have hu := ulp_pos x
  have hlt := abs_lt_two_zpow_exponent_succ x
  rw [abs_of_nonneg hx, ← two_zpow_24_mul_ulp] at hlt
  have h1 : x / ulp x ≤ (((2 : ℤ) ^ (24 : ℕ) : ℤ) : ℚ) := by
    rw [div_le_iff₀ hu]
    push_cast
    exact hlt.le
  have h2 := roundHalfEven_mono h1
  rw [roundHalfEven_intCast] at h2
  have h3 : (roundHalfEven (x / ulp x) : ℚ) ≤ (2 : ℚ) ^ (24 : ℕ) := by exact_mod_cast h2
  unfold roundFin
  rw [← two_zpow_24_mul_ulp]
  exact mul_le_mul_of_nonneg_right h3 hu.le

theorem two_zpow_le_roundFin {x : ℚ} (hx : 0 ≤ x) (h : -126 < exponent x) :
    (2 : ℚ) ^ exponent x ≤ roundFin x := by
  have hu := ulp_pos x
  have hle := two_zpow_exponent_le h
  rw [abs_of_nonneg hx, ← two_zpow_23_mul_ulp] at hle
  have h1 : (((2 : ℤ) ^ (23 : ℕ) : ℤ) : ℚ) ≤ x / ulp x := by
    rw [le_div_iff₀ hu]
    push_cast
    exact hle
  have h2 := roundHalfEven_mono h1
  rw [roundHalfEven_intCast] at h2
  have h3 : (2 : ℚ) ^ (23 : ℕ) ≤ (roundHalfEven (x / ulp x) : ℚ) := by exact_mod_cast h2
  unfold roundFin
  rw [← two_zpow_23_mul_ulp]
  exact mul_le_mul_of_nonneg_right h3 hu.le

/-- Rounding is monotone on the non-negative rationals. -/
theorem roundFin_mono {x y : ℚ} (hx : 0 ≤ x) (hxy : x ≤ y) : roundFin x ≤ roundFin y := by
  have hy : 0 ≤ y := le_trans hx hxy
  have hexp : exponent x ≤ exponent y :=
    exponent_mono (by rwa [abs_of_nonneg hx, abs_of_nonneg hy])
  rcases eq_or_lt_of_le hexp with heq | hlt
  · have hulp : ulp x = ulp y := by unfold ulp; rw [heq]
    unfold roundFin
    rw [hulp]
    have h1 : x / ulp y ≤ y / ulp y := div_le_div_of_nonneg_right hxy (ulp_pos y).le
    have h2 : (roundHalfEven (x / ulp y) : ℚ) ≤ (roundHalfEven (y / ulp y) : ℚ) := by
      exact_mod_cast roundHalfEven_mono h1
    exact mul_le_mul_of_nonneg_right h2 (ulp_pos y).le
  · have h1 := roundFin_le_two_zpow hx
    have h2 := two_zpow_le_roundFin hy (lt_of_le_of_lt (le_exponent x) hlt)
    have h3 : (2 : ℚ) ^ (exponent x + 1) ≤ (2 : ℚ) ^ exponent y :=
      zpow_le_zpow_right₀ (by norm_num) (by omega)
    linarith

/-- Rounding moves a value by at most half a unit in the last place. -/
theorem abs_roundFin_sub_le (x : ℚ) : |roundFin x - x| ≤ ulp x / 2 := by
  have hu := ulp_pos x
  have h1 := roundHalfEven_le (x / ulp x)
  have h2 := le_roundHalfEven (x / ulp x)
  have hx : x = x / ulp x * ulp x := by field_simp
  unfold roundFin
  rw [abs_le]
  constructor
  · have := mul_le_mul_of_nonneg_right h2 hu.le
    nlinarith
  · have := mul_le_mul_of_nonneg_right h1 hu.le
    nlinarith

/-- A value `m * 2 ^ j` with a significand of less than 24 bits and an exponent
in range is not moved by rounding. -/
theorem roundFin_of_grid (m j : ℤ) (hm : |m| < 2 ^ 24) (hj : -149 ≤ j) :
    roundFin ((m : ℚ) * (2 : ℚ) ^ j) = (m : ℚ) * (2 : ℚ) ^ j := by
  have h2 : (0 : ℚ) < (2 : ℚ) ^ j := zpow_pos (by norm_num) _
  have habs : |(m : ℚ) * (2 : ℚ) ^ j| < (2 : ℚ) ^ (23 + j + 1) := by
    rw [abs_mul, abs_of_pos h2, show 23 + j + 1 = 24 + j by ring,
      zpow_add₀ (by norm_num : (2 : ℚ) ≠ 0)]
    apply mul_lt_mul_of_pos_right _ h2
    have : |(m : ℚ)| < ((2 ^ 24 : ℤ) : ℚ) := by exact_mod_cast hm
    rw [show (24 : ℤ) = ((24 : ℕ) : ℤ) by norm_num, zpow_natCast]
    exact_mod_cast this
  have hexp : exponent ((m : ℚ) * (2 : ℚ) ^ j) ≤ 23 + j :=
    exponent_le_of_abs_lt habs (by omega)
  obtain ⟨k, hk⟩ : ∃ k : ℕ, (k : ℤ) = j - (exponent ((m : ℚ) * (2 : ℚ) ^ j) - 23) :=
    ⟨(j - (exponent ((m : ℚ) * (2 : ℚ) ^ j) - 23)).toNat, Int.toNat_of_nonneg (by omega)⟩
  have hdiv : (m : ℚ) * (2 : ℚ) ^ j / ulp ((m : ℚ) * (2 : ℚ) ^ j)
      = ((m * 2 ^ k : ℤ) : ℚ) := by
    unfold ulp
    rw [mul_div_assoc, ← zpow_sub₀ (by norm_num : (2 : ℚ) ≠ 0), ← hk, zpow_natCast]
    push_cast
    ring
  unfold roundFin
  rw [hdiv, roundHalfEven_intCast]
  rw [← hdiv]
  field_simp [(ulp_pos _).ne']

theorem roundFin_intCast (k : ℤ) (hk : |k| ≤ 2 ^ 24) : roundFin (k : ℚ) = k := by
  rcases lt_or_eq_of_le hk with hlt | heq
  · have := roundFin_of_grid k 0 hlt (by norm_num)
    simpa using this
  · rcases abs_eq (by norm_num : (0 : ℤ) ≤ 2 ^ 24) |>.mp heq with h | h
    · have := roundFin_of_grid 1 24 (by norm_num) (by norm_num)
      rw [h]
      norm_num at this ⊢
      exact this
    · have := roundFin_of_grid (-1) 24 (by norm_num) (by norm_num)
      rw [h]
      norm_num at this ⊢
      exact this

/-- A finite float32 is below `2 ^ 23` or an integer. -/
theorem lt_or_intCast_of_roundFin_eq {L : ℚ} (hfloat : roundFin L = L) :
    |L| < 2 ^ 23 ∨ ∃ z : ℤ, (z : ℚ) = L := by
  rcases le_or_lt (exponent L) 22 with hle | hgt
  · left
    have := abs_lt_two_zpow_exponent_succ L
    have h2 : (2 : ℚ) ^ (exponent L + 1) ≤ (2 : ℚ) ^ (23 : ℤ) :=
      zpow_le_zpow_right₀ (by norm_num) (by omega)
    have h3 : (2 : ℚ) ^ (23 : ℤ) = 2 ^ 23 := by norm_num
    linarith
  · right
    obtain ⟨k, hk⟩ : ∃ k : ℕ, (k : ℤ) = exponent L - 23 :=
      ⟨(exponent L - 23).toNat, Int.toNat_of_nonneg (by omega)⟩
    refine ⟨roundHalfEven (L / ulp L) * 2 ^ k, ?_⟩
    have hu : ulp L = (2 : ℚ) ^ k := by
      unfold ulp
      rw [← hk, zpow_natCast]
    push_cast
    rw [← hu]
    exact hfloat

theorem roundFin_floor {L : ℚ} (hfloat : roundFin L = L) (h0 : 0 ≤ L) :
    roundFin (⌊L⌋ : ℚ) = (⌊L⌋ : ℚ) := by
  rcases lt_or_intCast_of_roundFin_eq hfloat with hlt | ⟨z, hz⟩
  · apply roundFin_intCast
    rw [abs_of_nonneg h0] at hlt
    have h1 : 0 ≤ ⌊L⌋ := Int.floor_nonneg.mpr h0
    have h2 : (⌊L⌋ : ℚ) ≤ L := Int.floor_le L
    have h3 : (⌊L⌋ : ℚ) < ((2 ^ 23 : ℤ) : ℚ) := by push_cast; linarith
    have h4 : ⌊L⌋ < 2 ^ 23 := by exact_mod_cast h3
    rw [abs_of_nonneg h1]
    omega
  · rw [← hz, Int.floor_intCast, hz]
    exact hfloat

/-- Adding less than half a unit in the last place to a positive float32 rounds
back to it. -/
theorem roundFin_add_of_lt_half_ulp {L p : ℚ} (hfloat : roundFin L = L) (h0 : 0 < L)
    (hp0 : 0 ≤ p) (hp : p < ulp L / 2) : roundFin (L + p) = L := by
  have hu := ulp_pos L
  have hn24 : L < (2 : ℚ) ^ (24 : ℕ) * ulp L := by
    rw [two_zpow_24_mul_ulp]
    have := abs_lt_two_zpow_exponent_succ L
    rwa [abs_of_pos h0] at this
  have hLn : L = (roundHalfEven (L / ulp L) : ℚ) * ulp L := hfloat.symm
  have hn : (roundHalfEven (L / ulp L) : ℚ) < (2 : ℚ) ^ (24 : ℕ) := by
    by_contra hge
    push_neg at hge
    have := mul_le_mul_of_nonneg_right hge hu.le
    linarith
  have hn' : roundHalfEven (L / ulp L) < 2 ^ 24 := by exact_mod_cast hn
  have hn1 : (roundHalfEven (L / ulp L) : ℚ) + 1 ≤ (2 : ℚ) ^ (24 : ℕ) := by
    have : roundHalfEven (L / ulp L) + 1 ≤ 2 ^ 24 := by omega
    exact_mod_cast this
  have hLu : L + ulp L ≤ (2 : ℚ) ^ (exponent L + 1) := by
    rw [← two_zpow_24_mul_ulp]
    have := mul_le_mul_of_nonneg_right hn1 hu.le
    linarith
  have hexp : exponent (L + p) = exponent L := by
    apply le_antisymm
    · apply exponent_le_of_abs_lt _ (le_exponent L)
      rw [abs_of_nonneg (by linarith)]
      linarith
    · apply exponent_mono
      rw [abs_of_pos h0, abs_of_nonneg (by linarith)]
      linarith
  have hulp : ulp (L + p) = ulp L := by unfold ulp; rw [hexp]
  have hrhe : roundHalfEven ((L + p) / ulp L) = roundHalfEven (L / ulp L) := by
    apply roundHalfEven_eq_of_abs_sub_lt
    have h1 : (L + p) / ulp L - (roundHalfEven (L / ulp L) : ℚ) = p / ulp L := by
      field_simp
      linarith
    rw [h1, abs_of_nonneg (div_nonneg hp0 hu.le), div_lt_iff₀ hu]
    linarith
  unfold roundFin
  rw [hulp, hrhe]
  exact hLn.symm

theorem two_le_ulp {L : ℚ} (h : 2 ^ 24 ≤ L) : 2 ≤ ulp L := by
  have hexp : 24 ≤ exponent L := by
    apply le_exponent_of_le_abs
    rw [abs_of_nonneg (by linarith)]
    have : (2 : ℚ) ^ (24 : ℤ) = 2 ^ 24 := by norm_num
    linarith
  unfold ulp
  have : (2 : ℚ) ^ (1 : ℤ) ≤ (2 : ℚ) ^ (exponent L - 23) :=
    zpow_le_zpow_right₀ (by norm_num) (by omega)
  simpa using this

/-- A float32 below `2 ^ 23` that is not an integer is at least one unit in the
last place below the next integer. -/
theorem add_ulp_le_floor_add_one {L : ℚ} (hfloat : roundFin L = L) (h0 : 0 ≤ L)
    (hlt : L < 2 ^ 23) : L + ulp L ≤ (⌊L⌋ : ℚ) + 1 := by
  have hu := ulp_pos L
  have hexp : exponent L ≤ 22 := by
    apply exponent_le_of_abs_lt _ (by norm_num)
    rw [abs_of_nonneg h0]
    have : (2 : ℚ) ^ ((22 : ℤ) + 1) = 2 ^ 23 := by norm_num
    linarith
  obtain ⟨k, hk⟩ : ∃ k : ℕ, (k : ℤ) = 23 - exponent L :=
    ⟨(23 - exponent L).toNat, Int.toNat_of_nonneg (by omega)⟩
  have hinv : (2 : ℚ) ^ k * ulp L = 1 := by
    unfold ulp
    rw [← zpow_natCast, hk, ← zpow_add₀ (by norm_num : (2 : ℚ) ≠ 0)]
    have : 23 - exponent L + (exponent L - 23) = 0 := by ring
    rw [this, zpow_zero]
  have hLn : L = (roundHalfEven (L / ulp L) : ℚ) * ulp L := hfloat.symm
  have hfl : L < (⌊L⌋ : ℚ) + 1 := Int.lt_floor_add_one L
  have h1 : (roundHalfEven (L / ulp L) : ℚ) < (((⌊L⌋ + 1) * 2 ^ k : ℤ) : ℚ) := by
    push_cast
    by_contra hge
    push_neg at hge
    have := mul_le_mul_of_nonneg_right hge hu.le
    rw [mul_assoc, hinv, mul_one] at this
    linarith
  have h2 : roundHalfEven (L / ulp L) + 1 ≤ (⌊L⌋ + 1) * 2 ^ k := by
    have : roundHalfEven (L / ulp L) < (⌊L⌋ + 1) * 2 ^ k := by exact_mod_cast h1
    omega
  have h3 : (roundHalfEven (L / ulp L) : ℚ) + 1 ≤ ((⌊L⌋ : ℚ) + 1) * 2 ^ k := by
    exact_mod_cast h2
  have h4 := mul_le_mul_of_nonneg_right h3 hu.le
  rw [mul_assoc, hinv, mul_one] at h4
  linarith

end F32

/-- The rounded sum `floor(L) + p` for a float32 `L ≥ 0` and `0 ≤ p < 1`. -/
theorem newLap_bounds {L p : ℚ} (hL0 : 0 ≤ L) (hfloat : F32.roundFin L = L)
    (hp0 : 0 ≤ p) (hp1 : p < 1) :
    (⌊L⌋ : ℚ) ≤ F32.roundFin ((⌊L⌋ : ℚ) + p)
      ∧ (L < 2 ^ 24 → F32.roundFin ((⌊L⌋ : ℚ) + p) ≤ (⌊L⌋ : ℚ) + 1)
      ∧ (2 ^ 24 ≤ L → F32.roundFin ((⌊L⌋ : ℚ) + p) = L) := by
  have hn0 : 0 ≤ ⌊L⌋ := Int.floor_nonneg.mpr hL0
  have hn0' : (0 : ℚ) ≤ (⌊L⌋ : ℚ) := by exact_mod_cast hn0
  have hfl : (⌊L⌋ : ℚ) ≤ L := Int.floor_le L
  refine ⟨?_, ?_, ?_⟩
  · have := F32.roundFin_mono hn0' (by linarith : (⌊L⌋ : ℚ) ≤ (⌊L⌋ : ℚ) + p)
    rwa [F32.roundFin_floor hfloat hL0] at this
  · intro hlt
    have h1 : (⌊L⌋ : ℚ) < ((2 ^ 24 : ℤ) : ℚ) := by push_cast; linarith
    have h2 : ⌊L⌋ < 2 ^ 24 := by exact_mod_cast h1
    have h3 : F32.roundFin (((⌊L⌋ + 1 : ℤ) : ℚ)) = ((⌊L⌋ + 1 : ℤ) : ℚ) := by
      apply F32.roundFin_intCast
      rw [abs_of_nonneg (by omega)]
      omega
    have := F32.roundFin_mono (x := (⌊L⌋ : ℚ) + p) (y := ((⌊L⌋ + 1 : ℤ) : ℚ))
      (by linarith) (by push_cast; linarith)
    rw [h3] at this
    push_cast at this
    exact this
  · intro hge
    have hint : (⌊L⌋ : ℚ) = L := by
      rcases F32.lt_or_intCast_of_roundFin_eq hfloat with hlt | ⟨z, hz⟩
      · rw [abs_of_nonneg hL0] at hlt
        linarith
      · rw [← hz, Int.floor_intCast]
    rw [hint]
    apply F32.roundFin_add_of_lt_half_ulp hfloat (by linarith) hp0
    have := F32.two_le_ulp hge
    linarith

/-- After a dip the lap is promoted into the next integer interval. -/
theorem promoted_bounds {L y : ℚ} (hL0 : 0 ≤ L) (hfloat : F32.roundFin L = L)
    (hy : (⌊L⌋ : ℚ) ≤ y) (hdip : y < L) :
    (⌊L⌋ : ℚ) + 1 ≤ F32.roundFin (y + 1) ∧ F32.roundFin (y + 1) < (⌊L⌋ : ℚ) + 2 := by
  have hn0 : 0 ≤ ⌊L⌋ := Int.floor_nonneg.mpr hL0
  have hn0' : (0 : ℚ) ≤ (⌊L⌋ : ℚ) := by exact_mod_cast hn0
  have hfl1 : L < (⌊L⌋ : ℚ) + 1 := Int.lt_floor_add_one L
  have hsmall : L < 2 ^ 23 := by
    rcases F32.lt_or_intCast_of_roundFin_eq hfloat with hlt | ⟨z, hz⟩
    · rwa [abs_of_nonneg hL0] at hlt
    · exfalso
      rw [← hz, Int.floor_intCast] at hy
      rw [← hz] at hdip
      linarith
  have h1 : (⌊L⌋ : ℚ) < ((2 ^ 23 : ℤ) : ℚ) := by
    have := Int.floor_le L
    push_cast
    linarith
  have h2 : ⌊L⌋ < 2 ^ 23 := by exact_mod_cast h1
  constructor
  · have h3 : F32.roundFin (((⌊L⌋ + 1 : ℤ) : ℚ)) = ((⌊L⌋ + 1 : ℤ) : ℚ) := by
      apply F32.roundFin_intCast
      rw [abs_of_nonneg (by omega)]
      omega
    have := F32.roundFin_mono (x := ((⌊L⌋ + 1 : ℤ) : ℚ)) (y := y + 1)
      (by push_cast; linarith) (by push_cast; linarith)
    rw [h3] at this
    push_cast at this
    exact this
  · rcases lt_or_le L (1 / 2) with hhalf | hhalf
    · have hn : ⌊L⌋ = 0 := Int.floor_eq_zero_iff.mpr ⟨hL0, by linarith⟩
      have h3 : F32.roundFin (3 / 2) = 3 / 2 := by
        have := F32.roundFin_of_grid 3 (-1) (by norm_num) (by norm_num)
        norm_num at this
        exact this
      have := F32.roundFin_mono (x := y + 1) (y := 3 / 2) (by linarith) (by linarith)
      rw [h3] at this
      rw [hn]
      norm_num
      linarith
    · have hexpL : -1 ≤ F32.exponent L := by
        apply F32.le_exponent_of_le_abs
        rw [abs_of_nonneg hL0]
        norm_num
        linarith
      have hgap := F32.add_ulp_le_floor_add_one hfloat hL0 hsmall
      have herr := F32.abs_roundFin_sub_le (y + 1)
      rw [abs_le] at herr
      obtain ⟨k, hk⟩ : ∃ k : ℕ, (k : ℤ) = F32.exponent L + 1 :=
        ⟨(F32.exponent L + 1).toNat, Int.toNat_of_nonneg (by omega)⟩
      have hpow : (2 : ℚ) ^ (F32.exponent L + 1) = (((2 : ℤ) ^ k : ℤ) : ℚ) := by
        rw [← hk, zpow_natCast]
        push_cast
        rfl
      have hLlt := F32.abs_lt_two_zpow_exponent_succ L
      rw [abs_of_nonneg hL0, hpow] at hLlt
      have hnlt : ⌊L⌋ < (2 : ℤ) ^ k := by
        have : (⌊L⌋ : ℚ) < (((2 : ℤ) ^ k : ℤ) : ℚ) := lt_of_le_of_lt (Int.floor_le L) hLlt
        exact_mod_cast this
      have hone : (1 : ℤ) ≤ (2 : ℤ) ^ k := one_le_pow₀ (by norm_num)
      have hn2 : (⌊L⌋ : ℚ) + 2 ≤ (2 : ℚ) ^ (F32.exponent L + 1 + 1) := by
        rw [zpow_add₀ (by norm_num : (2 : ℚ) ≠ 0), hpow]
        have : ⌊L⌋ + 2 ≤ (2 : ℤ) ^ k * 2 := by omega
        have h' : ((⌊L⌋ + 2 : ℤ) : ℚ) ≤ (((2 : ℤ) ^ k * 2 : ℤ) : ℚ) := by exact_mod_cast this
        push_cast at h' ⊢
        simpa using h'
      have hexpy : F32.exponent (y + 1) ≤ F32.exponent L + 1 := by
        apply F32.exponent_le_of_abs_lt _ (by omega)
        rw [abs_of_nonneg (by linarith)]
        linarith
      have hulp : F32.ulp (y + 1) ≤ 2 * F32.ulp L := by
        unfold F32.ulp
        have h5 : (2 : ℚ) ^ (F32.exponent (y + 1) - 23)
            ≤ (2 : ℚ) ^ (F32.exponent L + 1 - 23) :=
          zpow_le_zpow_right₀ (by norm_num) (by omega)
        have h6 : (2 : ℚ) ^ (F32.exponent L + 1 - 23) = 2 * (2 : ℚ) ^ (F32.exponent L - 23) := by
          rw [show F32.exponent L + 1 - 23 = 1 + (F32.exponent L - 23) by ring,
            zpow_add₀ (by norm_num : (2 : ℚ) ≠ 0)]
          norm_num
        linarith
      linarith [herr.2]

/-- The lap a tick stores never falls below the previous lap, and its integer
part is the previous one or the next. -/
theorem storedLap_spec {L p : ℚ} (hL0 : 0 ≤ L) (hfloat : F32.roundFin L = L)
    (hp0 : 0 ≤ p) (hp1 : p < 1) :
    L ≤ storedLap L p ∧ (⌊storedLap L p⌋ = ⌊L⌋ ∨ ⌊storedLap L p⌋ = ⌊L⌋ + 1) := by
  obtain ⟨hlow, hsmall, hbig⟩ := newLap_bounds hL0 hfloat hp0 hp1
  unfold storedLap
  by_cases hdip : F32.roundFin ((⌊L⌋ : ℚ) + p) < L
  · rw [if_pos hdip]
    obtain ⟨h1, h2⟩ := promoted_bounds hL0 hfloat hlow hdip
    have hfl1 : L < (⌊L⌋ : ℚ) + 1 := Int.lt_floor_add_one L
    refine ⟨by linarith, Or.inr ?_⟩
    rw [Int.floor_eq_iff]
    push_cast
    exact ⟨h1, by linarith⟩
  · rw [if_neg hdip]
    push_neg at hdip
    refine ⟨hdip, ?_⟩
    rcases lt_or_le L (2 ^ 24) with hlt | hge
    · have hup := hsmall hlt
      have h3 : ⌊L⌋ ≤ ⌊F32.roundFin ((⌊L⌋ : ℚ) + p)⌋ := Int.floor_mono hdip
      have h4 : ⌊F32.roundFin ((⌊L⌋ : ℚ) + p)⌋ ≤ ⌊L⌋ + 1 := by
        rw [← Int.floor_intCast (α := ℚ) (⌊L⌋ + 1)]
        apply Int.floor_mono
        push_cast
        exact hup
      omega
    · rw [hbig hge]
      exact Or.inl rfl

/-! ## Lemmas on the update loop -/

theorem updateLoop_data (mf : MathFu) (engine : EntityRef → MotivatorReport) (raft : EntityRef)
    (l : List (EntityRef × RailDenizenData)) (tr : EntityRef → TransformData)
    (acts : List ActionCall) :
    (updateLoop mf engine raft l tr acts).1 = l.map (tickRecord raft engine) := by
  induction l generalizing tr acts with
  | nil => rfl
  | cons r rest ih =>
    obtain ⟨e, d⟩ := r
    cases hen : d.enabled <;> simp [updateLoop, tickRecord, hen, ih]

theorem updateLoop_actions (mf : MathFu) (engine : EntityRef → MotivatorReport) (raft : EntityRef)
    (l : List (EntityRef × RailDenizenData)) (tr : EntityRef → TransformData)
    (acts : List ActionCall) :
    (updateLoop mf engine raft l tr acts).2.2 = acts ++ tickCalls raft engine l := by
  induction l generalizing tr acts with
  | nil => simp [updateLoop, tickCalls]
  | cons r rest ih =>
    obtain ⟨e, d⟩ := r
    cases hen : d.enabled <;> simp [updateLoop, tickCalls, hen, ih]

theorem find_tickRecord (raft : EntityRef) (engine : EntityRef → MotivatorReport)
    (l : List (EntityRef × RailDenizenData)) (e : EntityRef) :
    (l.map (tickRecord raft engine)).find? (fun r => r.1 == e)
      = (l.find? (fun r => r.1 == e)).map (tickRecord raft engine) := by
  rw [List.find?_map]
  rfl

/-- The data block of an entity after a tick is the tick's image of its data
block before. -/
theorem GetComponentData_UpdateAllEntities (mf : MathFu) (w : World) (e : EntityRef) :
    GetComponentData (UpdateAllEntities mf w) e
      = (GetComponentData w e).map
          (fun d => if d.enabled then (updateLap w.raft_entity e d (w.engine e)).1 else d) := by
  unfold GetComponentData UpdateAllEntities
  simp only [updateLoop_data, find_tickRecord]
  cases h : w.component_data_.find? (fun r => r.1 == e) with
  | none => rfl
  | some r =>
    have hk : r.1 = e := by simpa using List.find?_some h
    simp [tickRecord, hk]

theorem round_eq_fin {x : ℚ} (h0 : 0 ≤ F32.roundFin x) (h : F32.roundFin x < 2 ^ 128) :
    F32.round x = Flt.fin (F32.roundFin x) := by
  unfold F32.round
  rw [if_neg (not_le.mpr h), if_neg (by linarith)]

/-- The lap bookkeeping on a finite previous lap and a finite quotient, when
the sums stay finite. -/
theorem updateLap_fin (raft e : EntityRef) (d : RailDenizenData) (r : MotivatorReport)
    (L p : ℚ) (hlap : d.lap = Flt.fin L)
    (hpercent : Flt.divInt r.spline_time (wrapInt32 (r.spline_time + r.target_time))
      = Flt.fin p)
    (hy0 : 0 ≤ F32.roundFin ((⌊L⌋ : ℚ) + p)) (hy : F32.roundFin ((⌊L⌋ : ℚ) + p) < 2 ^ 128)
    (hR : F32.roundFin ((⌊L⌋ : ℚ) + p) < L →
      0 ≤ F32.roundFin (F32.roundFin ((⌊L⌋ : ℚ) + p) + 1)
        ∧ F32.roundFin (F32.roundFin ((⌊L⌋ : ℚ) + p) + 1) < 2 ^ 128) :
    (updateLap raft e d r).1 = { d with lap := Flt.fin (storedLap L p) }
      ∧ (updateLap raft e d r).2
        = if F32.roundFin ((⌊L⌋ : ℚ) + p) < L then
            (match d.on_new_lap with
              | some a => [⟨a, e, raft⟩]
              | none => [])
          else [] := by
  unfold updateLap storedLap
  simp only [hlap, hpercent, Flt.floor, Flt.add, round_eq_fin hy0 hy, Flt.lt]
  by_cases hdip : F32.roundFin ((⌊L⌋ : ℚ) + p) < L
  · obtain ⟨hR0, hR1⟩ := hR hdip
    rw [if_pos hdip, if_pos hdip, if_pos (decide_eq_true hdip), round_eq_fin hR0 hR1]
    cases d.on_new_lap <;> exact ⟨rfl, rfl⟩
  · rw [if_neg hdip, if_neg hdip, if_neg (by simpa using hdip)]
    exact ⟨rfl, rfl⟩

/-- The bounds that keep the sums of the lap bookkeeping finite, for a float32
`L ≥ 0` and `0 ≤ p < 1`. -/
theorem lap_sums_finite {L p : ℚ} (hL0 : 0 ≤ L) (hfloat : F32.roundFin L = L)
    (hfin : L < 2 ^ 128) (hp0 : 0 ≤ p) (hp1 : p < 1) :
    0 ≤ F32.roundFin ((⌊L⌋ : ℚ) + p) ∧ F32.roundFin ((⌊L⌋ : ℚ) + p) < 2 ^ 128
      ∧ (F32.roundFin ((⌊L⌋ : ℚ) + p) < L →
        0 ≤ F32.roundFin (F32.roundFin ((⌊L⌋ : ℚ) + p) + 1)
          ∧ F32.roundFin (F32.roundFin ((⌊L⌋ : ℚ) + p) + 1) < 2 ^ 128) := by
  obtain ⟨hlow, hsmall, hbig⟩ := newLap_bounds hL0 hfloat hp0 hp1
  have hn0 : (0 : ℚ) ≤ (⌊L⌋ : ℚ) := by exact_mod_cast Int.floor_nonneg.mpr hL0
  have hfl : (⌊L⌋ : ℚ) ≤ L := Int.floor_le L
  refine ⟨by linarith, ?_, ?_⟩
  · rcases lt_or_le L (2 ^ 24) with hlt | hge
    · have := hsmall hlt
      have h24 : (2 : ℚ) ^ 24 + 1 < 2 ^ 128 := by norm_num
      linarith
    · rw [hbig hge]
      exact hfin
  · intro hdip
    obtain ⟨h1, h2⟩ := promoted_bounds hL0 hfloat hlow hdip
    have hsm : L < 2 ^ 24 := by
      by_contra hge
      push_neg at hge
      rw [hbig hge] at hdip
      exact lt_irrefl _ hdip
    have h24 : (2 : ℚ) ^ 24 + 2 < 2 ^ 128 := by norm_num
    exact ⟨by linarith, by linarith⟩

/-- The data block a tick leaves for an enabled denizen with a float32 lap
`L ≥ 0` and a quotient `0 ≤ p < 1`. -/
theorem tick_stores_storedLap (mf : MathFu) (w : World) (e : EntityRef)
    (d : RailDenizenData) (L p : ℚ) (hdata : GetComponentData w e = some d)
    (hen : d.enabled = true) (hlap : d.lap = Flt.fin L) (hL0 : 0 ≤ L)
    (hfloat : F32.roundFin L = L) (hfin : L < 2 ^ 128)
    (hpercent : Flt.divInt (w.engine e).spline_time
        (wrapInt32 ((w.engine e).spline_time + (w.engine e).target_time)) = Flt.fin p)
    (hp0 : 0 ≤ p) (hp1 : p < 1) :
    GetComponentData (UpdateAllEntities mf w) e
      = some { d with lap := Flt.fin (storedLap L p) } := by
  obtain ⟨hy0, hy, hR⟩ := lap_sums_finite hL0 hfloat hfin hp0 hp1
  rw [GetComponentData_UpdateAllEntities, hdata, Option.map_some', if_pos hen,
    (updateLap_fin w.raft_entity e d (w.engine e) L p hlap hpercent hy0 hy hR).1]

/-- C1 (as amended): for a previous lap `L ≥ 0` (a finite float32) and the
quotient `p` that the code computes in float32 from `SplineTime` and the
wrapped sum `SplineTime + TargetTime`, with `0 ≤ p < 1`, one tick of
`UpdateAllEntities` on an enabled denizen stores the float32 nearest to
`⌊L⌋ + p` when that is at least `L`, and otherwise that value plus 1, rounded
to float32 again, leaving every other field of the data block alone; the
stored lap is never smaller than `L` and its integer part is `⌊L⌋` or
`⌊L⌋ + 1`. -/
theorem lap_never_decreases (mf : MathFu) (w : World) (e : EntityRef) (d : RailDenizenData)
    (L p : ℚ) (hdata : GetComponentData w e = some d) (hen : d.enabled = true)
    (hlap : d.lap = Flt.fin L) (hL0 : 0 ≤ L) (hfloat : F32.roundFin L = L)
    (hfin : L < 2 ^ 128)
    (hpercent : Flt.divInt (w.engine e).spline_time
        (wrapInt32 ((w.engine e).spline_time + (w.engine e).target_time)) = Flt.fin p)
    (hp0 : 0 ≤ p) (hp1 : p < 1) :
    let newLap : ℚ := F32.roundFin ((⌊L⌋ : ℚ) + p)
    let L' : ℚ := if newLap < L then F32.roundFin (newLap + 1) else newLap
    GetComponentData (UpdateAllEntities mf w) e = some { d with lap := Flt.fin L' }
      ∧ L ≤ L' ∧ (⌊L'⌋ = ⌊L⌋ ∨ ⌊L'⌋ = ⌊L⌋ + 1) := by
  intro newLap L'
  have hL' : L' = storedLap L p := rfl
  obtain ⟨hy0, hy, hR⟩ := lap_sums_finite hL0 hfloat hfin hp0 hp1
  obtain ⟨h1, h2⟩ := storedLap_spec hL0 hfloat hp0 hp1
  refine ⟨?_, by rw [hL']; exact h1, by rw [hL']; exact h2⟩
  rw [GetComponentData_UpdateAllEntities, hdata, Option.map_some', if_pos hen,
    (updateLap_fin w.raft_entity e d (w.engine e) L p hlap hpercent hy0 hy hR).1]
  rfl

theorem lap_never_decreases_witness :
    GetComponentData sampleWorld 1 = some sampleDenizen
      ∧ GetComponentData (UpdateAllEntities sampleMathFu sampleWorld) 1
          = some { sampleDenizen with lap := Flt.fin (9 / 4) } := by
  have h := (lap_never_decreases sampleMathFu sampleWorld 1 sampleDenizen (3 / 2) (1 / 4)
    rfl rfl rfl (by norm_num) (by decide!) (by norm_num) (by decide!) (by norm_num)
    (by norm_num)).1
  refine ⟨rfl, ?_⟩
  rw [h]
  have hval : (if F32.roundFin ((⌊(3 / 2 : ℚ)⌋ : ℚ) + 1 / 4) < 3 / 2
      then F32.roundFin (F32.roundFin ((⌊(3 / 2 : ℚ)⌋ : ℚ) + 1 / 4) + 1)
      else F32.roundFin ((⌊(3 / 2 : ℚ)⌋ : ℚ) + 1 / 4)) = 9 / 4 := by decide!
  rw [hval]

/-- C1 (counterexample): an enabled denizen at lap 16777216 whose motivator
reports `SplineTime() = 1` and `TargetTime() = 3`, so `p = 1/4`: the tick
stores 16777216, the float32 nearest to 16777216.25, which is not `⌊L⌋ + p`
and whose fractional part is not `p`. -/
theorem lap_fraction_lost :
    GetComponentData highLapWorld 1 = some { sampleDenizen with lap := Flt.fin 16777216 }
      ∧ Flt.divInt (highLapWorld.engine 1).spline_time
          (wrapInt32 ((highLapWorld.engine 1).spline_time
            + (highLapWorld.engine 1).target_time)) = Flt.fin (1 / 4)
      ∧ GetComponentData (UpdateAllEntities sampleMathFu highLapWorld) 1
          = some { sampleDenizen with lap := Flt.fin 16777216 }
      ∧ (16777216 : ℚ) ≠ (⌊(16777216 : ℚ)⌋ : ℚ) + 1 / 4
      ∧ Int.fract (16777216 : ℚ) ≠ 1 / 4 := by
  have hfloat : F32.roundFin 16777216 = 16777216 := by
    have h := F32.roundFin_intCast 16777216 (by norm_num)
    exact_mod_cast h
  refine ⟨rfl, by decide!, ?_, by norm_num, by norm_num⟩
  have h := (tick_stores_storedLap sampleMathFu highLapWorld 1
    { sampleDenizen with lap := Flt.fin 16777216 } 16777216 (1 / 4)
    rfl rfl rfl (by norm_num) hfloat (by norm_num) (by decide!) (by norm_num)
    (by norm_num))
  rw [h]
  have hval : storedLap 16777216 (1 / 4) = 16777216 := by
    unfold storedLap
    rw [(newLap_bounds (L := 16777216) (p := 1 / 4) (by norm_num) hfloat (by norm_num)
      (by norm_num)).2.2 (by norm_num), if_neg (lt_irrefl _)]
  rw [hval]

/-! ## Laps over a run of ticks -/

theorem entities_UpdateAllEntities (mf : MathFu) (w : World) :
    entities (UpdateAllEntities mf w) = entities w := by
  unfold entities UpdateAllEntities
  simp only [updateLoop_data, List.map_map]
  rfl

theorem mem_of_GetComponentData {w : World} {e : EntityRef} {d : RailDenizenData}
    (h : GetComponentData w e = some d) : (e, d) ∈ w.component_data_ := by
  unfold GetComponentData at h
  cases hf : w.component_data_.find? (fun r => r.1 == e) with
  | none => simp [hf] at h
  | some r =>
    have hk : r.1 = e := by simpa using List.find?_some hf
    have hd : r.2 = d := by simpa [hf] using h
    have hm := List.mem_of_find?_eq_some hf
    rw [← hk, ← hd]
    exact hm

theorem updateLap_source (raft e : EntityRef) (d : RailDenizenData) (r : MotivatorReport)
    (c : ActionCall) (hc : c ∈ (updateLap raft e d r).2) : c.source = e := by
  unfold updateLap at hc
  simp only at hc
  split at hc
  · split at hc
    · simp at hc
      rw [hc]
    · simp at hc
  · simp at hc

theorem tickCalls_source (raft : EntityRef) (engine : EntityRef → MotivatorReport)
    (l : List (EntityRef × RailDenizenData)) (c : ActionCall)
    (hc : c ∈ tickCalls raft engine l) :
    ∃ r ∈ l, r.1 = c.source ∧ r.2.enabled = true := by
  induction l with
  | nil => simp [tickCalls] at hc
  | cons r rest ih =>
    simp only [tickCalls, List.mem_append] at hc
    rcases hc with hc | hc
    · cases hen : r.2.enabled with
      | false => simp [hen] at hc
      | true =>
        rw [hen] at hc
        exact ⟨r, List.mem_cons_self _ _, (updateLap_source _ _ _ _ _ hc).symm, hen⟩
    · obtain ⟨r', hr', h1, h2⟩ := ih hc
      exact ⟨r', List.mem_cons_of_mem _ hr', h1, h2⟩

theorem countP_tickCalls_absent (raft : EntityRef) (engine : EntityRef → MotivatorReport)
    (l : List (EntityRef × RailDenizenData)) (e : EntityRef)
    (habs : ∀ r ∈ l, r.1 = e → r.2.enabled = false) :
    (tickCalls raft engine l).countP (fun c => c.source == e) = 0 := by
  rw [List.countP_eq_zero]
  intro c hc hsrc
  obtain ⟨r, hr, h1, h2⟩ := tickCalls_source raft engine l c hc
  have hce : c.source = e := by simpa using hsrc
  have := habs r hr (h1.trans hce)
  rw [this] at h2
  exact Bool.false_ne_true h2

theorem countP_updateLap (raft e : EntityRef) (d : RailDenizenData) (r : MotivatorReport) :
    ((updateLap raft e d r).2).countP (fun c => c.source == e) = (updateLap raft e d r).2.length := by
  rw [List.countP_eq_length]
  intro c hc
  simpa using updateLap_source raft e d r c hc

theorem countP_tickCalls (raft : EntityRef) (engine : EntityRef → MotivatorReport)
    (l : List (EntityRef × RailDenizenData)) (e : EntityRef) (d : RailDenizenData)
    (hnodup : (l.map Prod.fst).Nodup) (hmem : (e, d) ∈ l) :
    (tickCalls raft engine l).countP (fun c => c.source == e)
      = if d.enabled then (updateLap raft e d (engine e)).2.length else 0 := by
  induction l with
  | nil => simp at hmem
  | cons r rest ih =>
    rw [List.map_cons, List.nodup_cons] at hnodup
    rw [tickCalls, List.countP_append]
    rcases List.mem_cons.mp hmem with hhead | htail
    · subst hhead
      have hrest : ∀ r' ∈ rest, r'.1 = e → r'.2.enabled = false := by
        intro r' hr' hk
        exact absurd (List.mem_map.mpr ⟨r', hr', hk⟩) hnodup.1
      rw [countP_tickCalls_absent raft engine rest e hrest, add_zero]
      cases hen : d.enabled
      · simp
      · simp only [if_true]
        exact countP_updateLap raft e d (engine e)
    · have hne : r.1 ≠ e := by
        intro hk
        exact hnodup.1 (List.mem_map.mpr ⟨(e, d), htail, hk.symm⟩)
      have hzero : (if r.2.enabled then (updateLap raft r.1 r.2 (engine r.1)).2 else []).countP
          (fun c => c.source == e) = 0 := by
        rw [List.countP_eq_zero]
        intro c hc hsrc
        have hce : c.source = e := by simpa using hsrc
        cases hen : r.2.enabled with
        | false => simp [hen] at hc
        | true =>
          rw [hen] at hc
          exact hne ((updateLap_source _ _ _ _ _ hc).symm.trans hce)
      rw [hzero, zero_add]
      exact ih hnodup.2 htail

/-- The `ParseAction` calls a tick adds on behalf of an entity. -/
theorem callsFor_UpdateAllEntities (mf : MathFu) (w : World) (e : EntityRef)
    (d : RailDenizenData) (hnodup : (entities w).Nodup) (hdata : GetComponentData w e = some d) :
    callsFor (UpdateAllEntities mf w) e
      = callsFor w e
        + if d.enabled then (updateLap w.raft_entity e d (w.engine e)).2.length else 0 := by
  unfold callsFor UpdateAllEntities
  simp only [updateLoop_actions, List.countP_append]
  rw [countP_tickCalls w.raft_entity w.engine w.component_data_ e d hnodup
    (mem_of_GetComponentData hdata)]

theorem floor_intCast_div (x T : ℤ) (hT : 0 < T) : ⌊(x : ℚ) / (T : ℚ)⌋ = x / T := by
  have hTq : (0 : ℚ) < (T : ℚ) := by exact_mod_cast hT
  have hx : (x : ℚ) = (T : ℚ) * ((x / T : ℤ) : ℚ) + ((x % T : ℤ) : ℚ) := by
    exact_mod_cast (Int.ediv_add_emod x T).symm
  have hr0 : (0 : ℚ) ≤ ((x % T : ℤ) : ℚ) := by exact_mod_cast Int.emod_nonneg x hT.ne'
  have hr1 : ((x % T : ℤ) : ℚ) < (T : ℚ) := by exact_mod_cast Int.emod_lt_of_pos x hT
  rw [Int.floor_eq_iff]
  constructor
  · rw [le_div_iff₀ hTq]
    nlinarith
  · rw [div_lt_iff₀ hTq]
    nlinarith

theorem ediv_advance (T δ x : ℤ) (hδ : 0 < δ) (hδT : δ < T) :
    ((x + δ) / T = x / T ∧ (x + δ) % T = x % T + δ)
      ∨ ((x + δ) / T = x / T + 1 ∧ (x + δ) % T = x % T + δ - T) := by
  have hT : 0 < T := lt_trans hδ hδT
  have h1 := Int.ediv_add_emod x T
  have h2 := Int.ediv_add_emod (x + δ) T
  have hr0 := Int.emod_nonneg x hT.ne'
  have hr1 := Int.emod_lt_of_pos x hT
  have hs0 := Int.emod_nonneg (x + δ) hT.ne'
  have hs1 := Int.emod_lt_of_pos (x + δ) hT
  have hmul : T * ((x + δ) / T - x / T) = x % T + δ - (x + δ) % T := by
    rw [mul_sub]; linarith
  have ha0 : 0 ≤ (x + δ) / T - x / T := by
    by_contra hneg
    have : (x + δ) / T - x / T ≤ -1 := by omega
    nlinarith
  have ha1 : (x + δ) / T - x / T ≤ 1 := by
    by_contra hbig
    have : 2 ≤ (x + δ) / T - x / T := by omega
    nlinarith
  rcases (by omega : (x + δ) / T - x / T = 0 ∨ (x + δ) / T - x / T = 1) with h | h
  · left
    rw [h] at hmul
    constructor <;> omega
  · right
    rw [h] at hmul
    constructor <;> omega

theorem abs_roundFin_sub_le_of_le {x B : ℚ} (hx : |x| ≤ B) (hB : (2 : ℚ) ^ (-126 : ℤ) ≤ B) :
    |F32.roundFin x - x| ≤ B / 2 ^ 24 := by
  have h := F32.abs_roundFin_sub_le x
  have h23 := F32.two_zpow_23_mul_ulp x
  have hexp : (2 : ℚ) ^ (F32.exponent x) ≤ B := by
    rcases eq_or_lt_of_le (F32.le_exponent x) with he | he
    · rw [← he]; exact hB
    · exact le_trans (F32.two_zpow_exponent_le he) hx
  have hu : F32.ulp x / 2 ≤ B / 2 ^ 24 := by
    rw [div_le_div_iff₀ (by norm_num) (by norm_num)]
    nlinarith
  linarith

theorem wrapInt32_of_lt {x : ℤ} (h0 : 0 ≤ x) (h : x < 2 ^ 31) : wrapInt32 x = x := by
  unfold wrapInt32
  norm_num at h ⊢
  omega

/-- The quotient the code computes for a spline time `0 ≤ s < T` on a loop of
length `T ≤ 2 ^ 24`: finite, non-negative and within `2 ^ -24` of `s / T`. -/
theorem divInt_loop (T s : ℤ) (hT24 : T ≤ 2 ^ 24) (hs0 : 0 ≤ s) (hs : s < T) :
    ∃ p : ℚ, Flt.divInt s (wrapInt32 (s + (T - s))) = Flt.fin p ∧ 0 ≤ p
      ∧ |p - (s : ℚ) / (T : ℚ)| ≤ 1 / 2 ^ 24 := by
  have hT : 0 < T := lt_of_le_of_lt hs0 hs
  have hTq : (0 : ℚ) < (T : ℚ) := by exact_mod_cast hT
  have hsq0 : (0 : ℚ) ≤ (s : ℚ) := by exact_mod_cast hs0
  have hsq : (s : ℚ) < (T : ℚ) := by exact_mod_cast hs
  have hsum : s + (T - s) = T := by ring
  have h24 : (2 : ℤ) ^ 24 < 2 ^ 31 := by norm_num
  rw [hsum, wrapInt32_of_lt hT.le (lt_of_le_of_lt hT24 h24)]
  have hrT : F32.roundFin (T : ℚ) = T :=
    F32.roundFin_intCast T (by rw [abs_of_pos hT]; exact hT24)
  have hrs : F32.roundFin (s : ℚ) = s :=
    F32.roundFin_intCast s (by rw [abs_of_nonneg hs0]; exact le_trans hs.le hT24)
  have hbig : ((2 : ℚ) ^ 24) < 2 ^ 128 := by norm_num
  have hT24q : (T : ℚ) ≤ 2 ^ 24 := by exact_mod_cast hT24
  have hfT : F32.round (T : ℚ) = Flt.fin (T : ℚ) := by
    rw [round_eq_fin (by rw [hrT]; exact hTq.le) (by rw [hrT]; linarith), hrT]
  have hfs : F32.round (s : ℚ) = Flt.fin (s : ℚ) := by
    rw [round_eq_fin (by rw [hrs]; exact hsq0) (by rw [hrs]; linarith), hrs]
  have hq0 : (0 : ℚ) ≤ (s : ℚ) / (T : ℚ) := div_nonneg hsq0 hTq.le
  have hq1 : (s : ℚ) / (T : ℚ) ≤ 1 := by rw [div_le_one hTq]; exact hsq.le
  have herr := abs_roundFin_sub_le_of_le (x := (s : ℚ) / (T : ℚ)) (B := 1)
    (by rw [abs_of_nonneg hq0]; exact hq1)
    (by rw [zpow_neg]; exact inv_le_one_of_one_le₀ (one_le_zpow₀ (by norm_num) (by norm_num)))
  have hp0 := F32.roundFin_nonneg hq0
  have hp1 : F32.roundFin ((s : ℚ) / (T : ℚ)) < 2 ^ 128 := by
    have := (abs_le.mp herr).2
    have h2 : (1 : ℚ) + 1 / 2 ^ 24 + 1 < 2 ^ 128 := by norm_num
    linarith
  refine ⟨F32.roundFin ((s : ℚ) / (T : ℚ)), ?_, hp0, herr⟩
  unfold Flt.divInt
  rw [hfT, hfs]
  unfold Flt.div
  simp only [hTq.ne', if_false]
  exact round_eq_fin hp0 hp1

/-- One step of the lap arithmetic along a loop of length `T`: the previous lap
`ℓ` tracks the position `x`, the quotient `p` tracks the fraction of the new
position `x + δ`; the dip occurs exactly when a loop completes, and the stored
lap tracks `x + δ`. -/
theorem storedLap_advance (N T δ x : ℤ) (ℓ p : ℚ) (hδ : 0 < δ) (hδT : δ < T)
    (hprec : (3 * N + 8) * T < 2 ^ 24) (hx0 : 0 ≤ x) (hxN : (x + δ) / T ≤ N)
    (hfl : ⌊ℓ⌋ = x / T) (hup : ℓ ≤ (x : ℚ) / (T : ℚ) + (2 * (N : ℚ) + 5) / 2 ^ 24)
    (hlow : (x + δ) / T = x / T + 1 → (x : ℚ) / (T : ℚ) - (2 * (N : ℚ) + 5) / 2 ^ 24 ≤ ℓ)
    (hp0 : 0 ≤ p) (hp : |p - (((x + δ) % T : ℤ) : ℚ) / (T : ℚ)| ≤ 1 / 2 ^ 24) :
    (F32.roundFin ((⌊ℓ⌋ : ℚ) + p) < ℓ ↔ (x + δ) / T = x / T + 1)
      ∧ ⌊storedLap ℓ p⌋ = (x + δ) / T
      ∧ |storedLap ℓ p - ((x + δ : ℤ) : ℚ) / (T : ℚ)| ≤ (2 * (N : ℚ) + 5) / 2 ^ 24
      ∧ 0 ≤ F32.roundFin ((⌊ℓ⌋ : ℚ) + p) ∧ F32.roundFin ((⌊ℓ⌋ : ℚ) + p) < 2 ^ 128
      ∧ (F32.roundFin ((⌊ℓ⌋ : ℚ) + p) < ℓ →
          0 ≤ F32.roundFin (F32.roundFin ((⌊ℓ⌋ : ℚ) + p) + 1)
          ∧ F32.roundFin (F32.roundFin ((⌊ℓ⌋ : ℚ) + p) + 1) < 2 ^ 128) := by
  have hT : 0 < T := lt_trans hδ hδT
  have hTq : (0 : ℚ) < (T : ℚ) := by exact_mod_cast hT
  have hn0 : 0 ≤ x / T := Int.ediv_nonneg hx0 hT.le
  have hs0 : 0 ≤ x % T := Int.emod_nonneg x hT.ne'
  have hs1 : x % T < T := Int.emod_lt_of_pos x hT
  have hs0' : 0 ≤ (x + δ) % T := Int.emod_nonneg (x + δ) hT.ne'
  have hs1' : (x + δ) % T < T := Int.emod_lt_of_pos (x + δ) hT
  have hxeq : (x : ℚ) / (T : ℚ) = ((x / T : ℤ) : ℚ) + ((x % T : ℤ) : ℚ) / (T : ℚ) := by
    have h : (x : ℚ) = (T : ℚ) * ((x / T : ℤ) : ℚ) + ((x % T : ℤ) : ℚ) := by
      exact_mod_cast (Int.ediv_add_emod x T).symm
    rw [h, add_div, mul_div_cancel_left₀ _ hTq.ne']
  have hxeq' : ((x + δ : ℤ) : ℚ) / (T : ℚ)
      = (((x + δ) / T : ℤ) : ℚ) + (((x + δ) % T : ℤ) : ℚ) / (T : ℚ) := by
    have h : ((x + δ : ℤ) : ℚ) = (T : ℚ) * (((x + δ) / T : ℤ) : ℚ) + (((x + δ) % T : ℤ) : ℚ) := by
      exact_mod_cast (Int.ediv_add_emod (x + δ) T).symm
    rw [h, add_div, mul_div_cancel_left₀ _ hTq.ne']
  -- the unit 1 / T and the precision
  obtain ⟨u, hu⟩ : ∃ u : ℚ, u = 1 / (T : ℚ) := ⟨_, rfl⟩
  have huT : u * (T : ℚ) = 1 := by rw [hu]; field_simp
  have hN0 : 0 ≤ N := by
    have : x / T ≤ (x + δ) / T := Int.ediv_le_ediv hT (by linarith)
    linarith
  have hNq0 : (0 : ℚ) ≤ (N : ℚ) := by exact_mod_cast hN0
  have hprecq : (3 * (N : ℚ) + 8) * (T : ℚ) < 2 ^ 24 := by exact_mod_cast hprec
  have hT1 : (1 : ℚ) ≤ (T : ℚ) := by exact_mod_cast hT
  have hprecu : (3 * (N : ℚ) + 8) / 2 ^ 24 < u := by
    rw [hu, div_lt_div_iff₀ (by norm_num) hTq]
    linarith
  have hN24 : N < 2 ^ 24 := by
    have h1 : (3 * N + 8) * 1 ≤ (3 * N + 8) * T :=
      mul_le_mul_of_nonneg_left hT (by linarith only [hN0])
    linarith only [h1, hprec, hN0]
  -- fractions
  obtain ⟨f, hf⟩ : ∃ f : ℚ, f = ((x % T : ℤ) : ℚ) / (T : ℚ) := ⟨_, rfl⟩
  obtain ⟨f', hf'⟩ : ∃ f' : ℚ, f' = (((x + δ) % T : ℤ) : ℚ) / (T : ℚ) := ⟨_, rfl⟩
  rw [← hf] at hxeq
  rw [← hf'] at hxeq' hp
  have hfT : f * (T : ℚ) = ((x % T : ℤ) : ℚ) := by rw [hf]; field_simp
  have hfT' : f' * (T : ℚ) = (((x + δ) % T : ℤ) : ℚ) := by rw [hf']; field_simp
  have hf0' : 0 ≤ f' := by rw [hf']; exact div_nonneg (by exact_mod_cast hs0') hTq.le
  have hf1' : f' ≤ 1 - u := by
    have h1 : (((x + δ) % T : ℤ) : ℚ) ≤ (T : ℚ) - 1 := by
      have : (x + δ) % T ≤ T - 1 := by omega
      exact_mod_cast this
    have : f' * (T : ℚ) ≤ (1 - u) * (T : ℚ) := by rw [hfT', sub_mul, huT, one_mul]; exact h1
    exact le_of_mul_le_mul_right this hTq
  obtain ⟨hpl, hpu⟩ := abs_le.mp hp
  have hu0 : 0 < u := by rw [hu]; positivity
  -- the rounded sum
  have hnq0 : (0 : ℚ) ≤ ((x / T : ℤ) : ℚ) := by exact_mod_cast hn0
  have hnN : x / T ≤ N := le_trans (Int.ediv_le_ediv hT (by linarith)) hxN
  have hnNq : ((x / T : ℤ) : ℚ) ≤ (N : ℚ) := by exact_mod_cast hnN
  have htiny : (2 : ℚ) ^ (-126 : ℤ) ≤ (N : ℚ) + 2 := by
    have : (2 : ℚ) ^ (-126 : ℤ) ≤ 1 := by
      rw [zpow_neg]
      exact inv_le_one_of_one_le₀ (one_le_zpow₀ (by norm_num) (by norm_num))
    linarith
  rw [hfl]
  obtain ⟨y, hy⟩ : ∃ y : ℚ, y = F32.roundFin (((x / T : ℤ) : ℚ) + p) := ⟨_, rfl⟩
  have hsum0 : 0 ≤ ((x / T : ℤ) : ℚ) + p := by linarith
  have herr := abs_roundFin_sub_le_of_le (x := ((x / T : ℤ) : ℚ) + p) (B := (N : ℚ) + 2)
    (by rw [abs_of_nonneg hsum0]; linarith) htiny
  rw [← hy] at herr
  obtain ⟨hyl, hyu⟩ := abs_le.mp herr
  have hrn : ∀ m : ℤ, 0 ≤ m → m ≤ N + 1 → F32.roundFin (m : ℚ) = m := by
    intro m hm0 hm1
    apply F32.roundFin_intCast
    rw [abs_of_nonneg hm0]
    omega
  have hyn : ((x / T : ℤ) : ℚ) ≤ y := by
    have := F32.roundFin_mono (x := ((x / T : ℤ) : ℚ)) (y := ((x / T : ℤ) : ℚ) + p) hnq0
      (by linarith)
    rw [hrn _ hn0 (by linarith)] at this
    rw [hy]
    exact this
  have hy0 : 0 ≤ y := le_trans hnq0 hyn
  have hN24q : (N : ℚ) < 2 ^ 24 := by exact_mod_cast hN24
  have hybig : y < 2 ^ 128 := by
    have h1 : y ≤ (N : ℚ) + 2 + ((N : ℚ) + 2) / 2 ^ 24 := by linarith
    have h2 : ((2 : ℚ) ^ 24 + 2 + (2 ^ 24 + 2) / 2 ^ 24) < 2 ^ 128 := by norm_num
    have h3 : ((N : ℚ) + 2) / 2 ^ 24 ≤ (2 ^ 24 + 2) / 2 ^ 24 := by
      apply div_le_div_of_nonneg_right _ (by norm_num)
      linarith
    linarith
  rw [← hy]
  unfold storedLap
  rw [hfl, ← hy]
  rcases ediv_advance T δ x hδ hδT with ⟨hq, hr⟩ | ⟨hq, hr⟩
  · -- no loop completed
    have hff : f' = f + (δ : ℚ) * u := by
      have : f' * (T : ℚ) = (f + (δ : ℚ) * u) * (T : ℚ) := by
        rw [hfT', add_mul, hfT, mul_assoc, huT, mul_one, hr]
        push_cast
        ring
      exact mul_right_cancel₀ hTq.ne' this
    have hδ1 : (1 : ℚ) ≤ (δ : ℚ) := by exact_mod_cast hδ
    have hδu : u ≤ (δ : ℚ) * u := by
      have := mul_le_mul_of_nonneg_right hδ1 hu0.le
      rw [one_mul] at this
      exact this
    have hnodip : ¬ y < ℓ := by
      rw [not_lt]
      rw [hxeq] at hup
      linarith only [hup, hyl, hpl, hff, hδu, hprecu]
    have hne : ¬ ((x + δ) / T = x / T + 1) := by rw [hq]; omega
    rw [if_neg hnodip]
    refine ⟨⟨fun h => absurd h hnodip, fun h => absurd h hne⟩, ?_, ?_, hy0, hybig,
      fun h => absurd h hnodip⟩
    · rw [hq, Int.floor_eq_iff]
      exact ⟨hyn, by linarith only [hyu, hpu, hf1', hprecu, hNq0]⟩
    · rw [hxeq', hq, abs_le]
      constructor
      · linarith only [hyl, hpl, hNq0]
      · linarith only [hyu, hpu, hNq0]
  · -- a loop completed
    have hff : f' = f + (δ : ℚ) * u - 1 := by
      have : f' * (T : ℚ) = (f + (δ : ℚ) * u - 1) * (T : ℚ) := by
        rw [hfT', sub_mul, add_mul, hfT, mul_assoc, huT, mul_one, hr]
        push_cast
        ring
      exact mul_right_cancel₀ hTq.ne' this
    have hδ1 : (δ : ℚ) ≤ (T : ℚ) - 1 := by
      have : δ ≤ T - 1 := by omega
      exact_mod_cast this
    have hδu : (δ : ℚ) * u ≤ 1 - u := by
      have := mul_le_mul_of_nonneg_right hδ1 hu0.le
      rw [sub_mul, mul_comm (T : ℚ) u, huT, one_mul] at this
      exact this
    have hlow' := hlow hq
    rw [hxeq] at hlow'
    have hdip : y < ℓ := by linarith only [hlow', hyu, hpu, hff, hδu, hprecu]
    have hℓ : ℓ < ((x / T : ℤ) : ℚ) + 1 := by
      have := Int.lt_floor_add_one ℓ
      rw [hfl] at this
      exact this
    have hsum1 : 0 ≤ y + 1 := by linarith
    have herr1 := abs_roundFin_sub_le_of_le (x := y + 1) (B := (N : ℚ) + 2)
      (by
        rw [abs_of_nonneg hsum1]
        have : (((x + δ) / T : ℤ) : ℚ) ≤ (N : ℚ) := by exact_mod_cast hxN
        rw [hq] at this
        push_cast at this
        linarith only [hdip, hℓ, this]) htiny
    obtain ⟨hzl, hzu⟩ := abs_le.mp herr1
    have hq' : (((x + δ) / T : ℤ) : ℚ) = ((x / T : ℤ) : ℚ) + 1 := by rw [hq]; push_cast; ring
    have hzn : ((x / T : ℤ) : ℚ) + 1 ≤ F32.roundFin (y + 1) := by
      have := F32.roundFin_mono (x := ((x / T + 1 : ℤ) : ℚ)) (y := y + 1)
        (by push_cast; linarith) (by push_cast; linarith)
      rw [hrn _ (by linarith) (by rw [← hq]; linarith)] at this
      push_cast at this
      exact this
    have hzbig : F32.roundFin (y + 1) < 2 ^ 128 := by
      have h2 : ((2 : ℚ) ^ 24 + 3 + (2 ^ 24 + 2) / 2 ^ 24) < 2 ^ 128 := by norm_num
      have h3 : ((N : ℚ) + 2) / 2 ^ 24 ≤ (2 ^ 24 + 2) / 2 ^ 24 := by
        apply div_le_div_of_nonneg_right _ (by norm_num)
        linarith only [hN24q]
      linarith only [hzu, hdip, hℓ, hnNq, hN24q, h2, h3]
    rw [if_pos hdip]
    refine ⟨⟨fun _ => hq, fun _ => hdip⟩, ?_, ?_, hy0, hybig, fun _ => ⟨by linarith, hzbig⟩⟩
    · rw [hq, Int.floor_eq_iff]
      refine ⟨by push_cast; exact hzn, ?_⟩
      push_cast
      linarith only [hzu, hyu, hpu, hf1', hprecu, hNq0]
    · rw [hxeq', hq', abs_le]
      constructor
      · linarith only [hzl, hyl, hpl]
      · linarith only [hzu, hyu, hpu]

/-- One simulated tick of an enabled denizen with an `on_new_lap` action, a
finite lap and a finite quotient, when the sums stay finite. -/
theorem tick_fin (mf : MathFu) (reports : EntityRef → MotivatorReport) (w : World)
    (e : EntityRef) (d : RailDenizenData) (L p : ℚ) (a : ActionDef)
    (hnodup : (entities w).Nodup) (hdata : GetComponentData w e = some d)
    (hen : d.enabled = true) (hlap : d.lap = Flt.fin L) (hact : d.on_new_lap = some a)
    (hpercent : Flt.divInt (reports e).spline_time
        (wrapInt32 ((reports e).spline_time + (reports e).target_time)) = Flt.fin p)
    (hy0 : 0 ≤ F32.roundFin ((⌊L⌋ : ℚ) + p)) (hy : F32.roundFin ((⌊L⌋ : ℚ) + p) < 2 ^ 128)
    (hR : F32.roundFin ((⌊L⌋ : ℚ) + p) < L →
      0 ≤ F32.roundFin (F32.roundFin ((⌊L⌋ : ℚ) + p) + 1)
        ∧ F32.roundFin (F32.roundFin ((⌊L⌋ : ℚ) + p) + 1) < 2 ^ 128) :
    GetComponentData (tick mf reports w) e = some { d with lap := Flt.fin (storedLap L p) }
      ∧ callsFor (tick mf reports w) e
        = callsFor w e + (if F32.roundFin ((⌊L⌋ : ℚ) + p) < L then 1 else 0)
      ∧ (entities (tick mf reports w)).Nodup := by
  have hdata' : GetComponentData { w with engine := reports } e = some d := hdata
  have hnodup' : (entities { w with engine := reports }).Nodup := hnodup
  obtain ⟨h1, h2⟩ := updateLap_fin w.raft_entity e d (reports e) L p hlap hpercent hy0 hy hR
  refine ⟨?_, ?_, ?_⟩
  · unfold tick
    rw [GetComponentData_UpdateAllEntities, hdata', Option.map_some', if_pos hen]
    exact congrArg some h1
  · unfold tick
    rw [callsFor_UpdateAllEntities mf _ e d hnodup' hdata', if_pos hen]
    have h2' : (updateLap w.raft_entity e d (reports e)).2.length
        = if F32.roundFin ((⌊L⌋ : ℚ) + p) < L then 1 else 0 := by
      rw [h2, hact]
      split_ifs <;> rfl
    rw [← h2']
    rfl
  · unfold tick
    rw [entities_UpdateAllEntities]
    exact hnodup'

/-- The state of an enabled denizen with an `on_new_lap` action after `k ≤ K`
ticks of a motivator that started at spline time `φ` and advances by `δ` per
tick on a loop of length `T`, the first tick completing no loop. -/
theorem runTicks_lap (mf : MathFu) (w : World) (e : EntityRef) (d : RailDenizenData)
    (a : ActionDef) (reports : Nat → EntityRef → MotivatorReport) (T δ φ : ℤ) (N K : ℕ)
    (hnodup : (entities w).Nodup) (hdata : GetComponentData w e = some d)
    (hen : d.enabled = true) (hact : d.on_new_lap = some a) (hlap : d.lap = Flt.fin 0)
    (hφ : 0 ≤ φ) (hδ : 0 < δ) (hfirst : φ + δ < T)
    (hprec : (3 * (N : ℤ) + 8) * T < 2 ^ 24)
    (hrep : ∀ k : ℕ, (reports k e).spline_time = (φ + (k : ℤ) * δ) % T
      ∧ (reports k e).target_time = T - (φ + (k : ℤ) * δ) % T)
    (hK : (K : ℤ) * δ = (N : ℤ) * T) (k : ℕ) (hk : k ≤ K) :
    ∃ ℓ : ℚ, GetComponentData (runTicks mf reports k w) e = some { d with lap := Flt.fin ℓ }
      ∧ ⌊ℓ⌋ = (φ + (k : ℤ) * δ) / T
      ∧ ℓ ≤ ((φ + (k : ℤ) * δ : ℤ) : ℚ) / (T : ℚ) + (2 * ((N : ℤ) : ℚ) + 5) / 2 ^ 24
      ∧ (1 ≤ k →
          ((φ + (k : ℤ) * δ : ℤ) : ℚ) / (T : ℚ) - (2 * ((N : ℤ) : ℚ) + 5) / 2 ^ 24 ≤ ℓ)
      ∧ (callsFor (runTicks mf reports k w) e : ℤ)
          = (callsFor w e : ℤ) + (φ + (k : ℤ) * δ) / T
      ∧ (entities (runTicks mf reports k w)).Nodup := by
  have hδT : δ < T := by linarith
  have hT : 0 < T := lt_trans hδ hδT
  have hTq : (0 : ℚ) < (T : ℚ) := by exact_mod_cast hT
  have hφT : φ < T := by linarith
  have hN0 : (0 : ℤ) ≤ (N : ℤ) := Int.natCast_nonneg N
  have hNq0 : (0 : ℚ) ≤ ((N : ℤ) : ℚ) := by exact_mod_cast hN0
  have hT24 : T ≤ 2 ^ 24 := by
    have h1 : 1 * T ≤ (3 * (N : ℤ) + 8) * T :=
      mul_le_mul_of_nonneg_right (by linarith only [hN0]) hT.le
    linarith only [h1, hprec]
  induction k with
  | zero =>
    refine ⟨0, ?_, ?_, ?_, fun h => absurd h (by decide), ?_, hnodup⟩
    · rw [runTicks, hdata]
      cases d
      simp only [Option.some.injEq, RailDenizenData.mk.injEq, true_and, and_true] at hlap ⊢
      rw [hlap]
    · rw [Int.floor_zero, Nat.cast_zero, zero_mul, add_zero, Int.ediv_eq_zero_of_lt hφ hφT]
    · have : (0 : ℚ) ≤ ((φ + ((0 : ℕ) : ℤ) * δ : ℤ) : ℚ) / (T : ℚ) := by
        apply div_nonneg _ hTq.le
        rw [Nat.cast_zero, zero_mul, add_zero]
        exact_mod_cast hφ
      have h5 : (0 : ℚ) ≤ (2 * ((N : ℤ) : ℚ) + 5) / 2 ^ 24 := by positivity
      linarith only [this, h5]
    · rw [runTicks, Nat.cast_zero, zero_mul, add_zero, Int.ediv_eq_zero_of_lt hφ hφT, add_zero]
  | succ k ih =>
    obtain ⟨ℓ, ihd, ihf, ihu, ihl, ihc, ihn⟩ := ih (Nat.le_of_succ_le hk)
    obtain ⟨hs, ht⟩ := hrep (k + 1)
    have hsucc : φ + ((k + 1 : ℕ) : ℤ) * δ = (φ + (k : ℤ) * δ) + δ := by push_cast; ring
    rw [hsucc] at hs ht ⊢
    have hx0 : 0 ≤ φ + (k : ℤ) * δ := by
      have : 0 ≤ (k : ℤ) * δ := mul_nonneg (Int.natCast_nonneg k) hδ.le
      linarith only [this, hφ]
    have hxN : (φ + (k : ℤ) * δ + δ) / T ≤ (N : ℤ) := by
      have h1 : φ + (k : ℤ) * δ + δ ≤ φ + (N : ℤ) * T := by
        rw [← hK, ← hsucc]
        have : ((k + 1 : ℕ) : ℤ) ≤ (K : ℤ) := by exact_mod_cast hk
        have := mul_le_mul_of_nonneg_right this hδ.le
        linarith only [this]
      have h2 := Int.ediv_le_ediv hT h1
      rw [Int.add_mul_ediv_right _ _ hT.ne', Int.ediv_eq_zero_of_lt hφ hφT, zero_add] at h2
      exact h2
    have hs0 := Int.emod_nonneg (φ + (k : ℤ) * δ + δ) hT.ne'
    have hs1 := Int.emod_lt_of_pos (φ + (k : ℤ) * δ + δ) hT
    obtain ⟨p, hp, hp0, hperr⟩ := divInt_loop T ((φ + (k : ℤ) * δ + δ) % T) hT24 hs0 hs1
    have hlow : (φ + (k : ℤ) * δ + δ) / T = (φ + (k : ℤ) * δ) / T + 1 →
        ((φ + (k : ℤ) * δ : ℤ) : ℚ) / (T : ℚ) - (2 * ((N : ℤ) : ℚ) + 5) / 2 ^ 24 ≤ ℓ := by
      intro hwrap
      rcases Nat.eq_zero_or_pos k with hk0 | hkpos
      · exfalso
        rw [hk0, Nat.cast_zero, zero_mul, add_zero, Int.ediv_eq_zero_of_lt hφ hφT,
          Int.ediv_eq_zero_of_lt (by linarith only [hφ, hδ]) hfirst] at hwrap
        exact absurd hwrap (by decide)
      · exact ihl hkpos
    obtain ⟨g1, g2, g3, g4, g5, g6⟩ := storedLap_advance (N : ℤ) T δ (φ + (k : ℤ) * δ) ℓ p hδ hδT
      hprec hx0 hxN ihf ihu hlow hp0 hperr
    rw [← hs] at ht hp
    rw [← ht] at hp
    obtain ⟨h1, h2, h3⟩ := tick_fin mf (reports (k + 1)) (runTicks mf reports k w) e
      { d with lap := Flt.fin ℓ } ℓ p a ihn ihd hen rfl hact hp g4 g5 g6
    obtain ⟨g3l, g3u⟩ := abs_le.mp g3
    refine ⟨storedLap ℓ p, ?_, g2, by linarith only [g3u], fun _ => by linarith only [g3l], ?_,
      h3⟩
    · rw [runTicks, h1]
    · rw [runTicks, h2]
      by_cases hdip : F32.roundFin ((⌊ℓ⌋ : ℚ) + p) < ℓ
      · rw [if_pos hdip, g1.mp hdip, Nat.cast_add, ihc, Nat.cast_one, add_assoc]
      · rw [if_neg hdip, add_zero, ihc]
        rcases ediv_advance T δ (φ + (k : ℤ) * δ) hδ hδT with ⟨hq, _⟩ | ⟨hq, _⟩
        · rw [hq]
        · exact absurd (g1.mpr hq) hdip

/-- C2 (as amended): for a loop of length `T > 0` and a motivator that stands
at spline time `φ ≥ 0` and advances by a fixed `δ > 0` per tick, wrapping at
the end of the loop, with `SplineTime + TargetTime = T` throughout, where the
first tick completes no loop (`φ + δ < T`, so less than one loop per tick) and
`(3 * N + 8) * T < 2 ^ 24` (the float32 lap resolves single time units): an
enabled denizen with an `on_new_lap` action that starts at lap 0 and is
ticked through `N * T` of spline time (`K` ticks, `K * δ = N * T`) has had the
action handed to `ParseAction` exactly `N` times and the integer part of its
lap is `N`; after every tick `k ≤ K` the integer part of its lap and the
number of calls made are both the number `⌊(φ + k * δ) / T⌋` of loops
completed so far, and from the first tick on the lap is within
`(2 * N + 5) / 2 ^ 24` of `(φ + k * δ) / T`. -/
theorem on_new_lap_once_per_loop (mf : MathFu) (w : World) (e : EntityRef)
    (d : RailDenizenData) (a : ActionDef) (reports : Nat → EntityRef → MotivatorReport)
    (T δ φ : ℤ) (N K : ℕ)
    (hnodup : (entities w).Nodup) (hdata : GetComponentData w e = some d)
    (hen : d.enabled = true) (hact : d.on_new_lap = some a) (hlap : d.lap = Flt.fin 0)
    (hφ : 0 ≤ φ) (hδ : 0 < δ) (hfirst : φ + δ < T)
    (hprec : (3 * (N : ℤ) + 8) * T < 2 ^ 24)
    (hrep : ∀ k : ℕ, (reports k e).spline_time = (φ + (k : ℤ) * δ) % T
      ∧ (reports k e).target_time = T - (φ + (k : ℤ) * δ) % T)
    (hK : (K : ℤ) * δ = (N : ℤ) * T) :
    callsFor (runTicks mf reports K w) e = callsFor w e + N
      ∧ (∃ ℓ : ℚ, GetComponentData (runTicks mf reports K w) e
            = some { d with lap := Flt.fin ℓ } ∧ ⌊ℓ⌋ = (N : ℤ))
      ∧ ∀ k : ℕ, k ≤ K →
          ∃ ℓ : ℚ, GetComponentData (runTicks mf reports k w) e
              = some { d with lap := Flt.fin ℓ }
            ∧ ⌊ℓ⌋ = (φ + (k : ℤ) * δ) / T
            ∧ (1 ≤ k → |ℓ - ((φ + (k : ℤ) * δ : ℤ) : ℚ) / (T : ℚ)|
                ≤ (2 * (N : ℚ) + 5) / 2 ^ 24)
            ∧ (callsFor (runTicks mf reports k w) e : ℤ)
              = (callsFor w e : ℤ) + (φ + (k : ℤ) * δ) / T := by
  have hT : 0 < T := by linarith
  have hφT : φ < T := by linarith
  have hall := runTicks_lap mf w e d a reports T δ φ N K hnodup hdata hen hact hlap hφ hδ
    hfirst hprec hrep hK
  have hend : (φ + (K : ℤ) * δ) / T = (N : ℤ) := by
    rw [hK, Int.add_mul_ediv_right _ _ hT.ne', Int.ediv_eq_zero_of_lt hφ hφT, zero_add]
  refine ⟨?_, ?_, ?_⟩
  · obtain ⟨ℓ, _, _, _, _, hc, _⟩ := hall K (le_refl K)
    rw [hend] at hc
    exact_mod_cast hc
  · obtain ⟨ℓ, hd, hf, _⟩ := hall K (le_refl K)
    exact ⟨ℓ, hd, by rw [hf, hend]⟩
  · intro k hk
    obtain ⟨ℓ, hd, hf, hu, hl, hc, _⟩ := hall k hk
    refine ⟨ℓ, hd, hf, fun h1 => ?_, hc⟩
    have hl' := hl h1
    rw [abs_le]
    push_cast at hu hl' ⊢
    constructor
    · linarith only [hl']
    · linarith only [hu]

theorem on_new_lap_once_per_loop_witness :
    callsFor (runTicks sampleMathFu (fun k _ => loopReport 10 3 5 k) 10 startWorld) 1
      = callsFor startWorld 1 + 3 :=
  (on_new_lap_once_per_loop sampleMathFu startWorld 1 { sampleDenizen with lap := Flt.fin 0 }
    ⟨[7]⟩ (fun k _ => loopReport 10 3 5 k) 10 3 5 3 10 (by decide) rfl rfl rfl rfl
    (by decide) (by decide) (by decide) (by decide) (fun _ => ⟨rfl, rfl⟩) (by decide)).1

theorem roundFin_of_binade {x : ℚ} (e : ℤ) (he : -126 ≤ e) (h1 : (2 : ℚ) ^ e ≤ |x|)
    (h2 : |x| < (2 : ℚ) ^ (e + 1)) :
    F32.roundFin x = (F32.roundHalfEven (x / (2 : ℚ) ^ (e - 23)) : ℚ) * (2 : ℚ) ^ (e - 23) := by
  have hexp : F32.exponent x = e :=
    le_antisymm (F32.exponent_le_of_abs_lt h2 he) (F32.le_exponent_of_le_abs h1)
  unfold F32.roundFin F32.ulp
  rw [hexp]

theorem round_67108863 : F32.round ((67108863 : ℤ) : ℚ) = Flt.fin 67108864 := by
  have h : F32.roundFin ((67108863 : ℤ) : ℚ) = 67108864 := by
    rw [roundFin_of_binade 25 (by norm_num) (by norm_num) (by norm_num)]
    have : F32.roundHalfEven (((67108863 : ℤ) : ℚ) / (2 : ℚ) ^ ((25 : ℤ) - 23)) = 16777216 := by
      norm_num
      decide!
    rw [this]
    norm_num
  rw [round_eq_fin (by rw [h]; norm_num) (by rw [h]; norm_num), h]

theorem round_33554431 : F32.round ((33554431 : ℤ) : ℚ) = Flt.fin 33554432 := by
  have h : F32.roundFin ((33554431 : ℤ) : ℚ) = 33554432 := by
    rw [roundFin_of_binade 24 (by norm_num) (by norm_num) (by norm_num)]
    have : F32.roundHalfEven (((33554431 : ℤ) : ℚ) / (2 : ℚ) ^ ((24 : ℤ) - 23)) = 16777216 := by
      norm_num
      decide!
    rw [this]
    norm_num
  rw [round_eq_fin (by rw [h]; norm_num) (by rw [h]; norm_num), h]

theorem round_67108864 : F32.round ((67108864 : ℤ) : ℚ) = Flt.fin 67108864 := by
  have h : F32.roundFin ((67108864 : ℤ) : ℚ) = 67108864 := by
    have := F32.roundFin_of_grid 1 26 (by norm_num) (by norm_num)
    norm_num at this ⊢
    exact this
  rw [round_eq_fin (by rw [h]; norm_num) (by rw [h]; norm_num), h]

/-- C2 (counterexample): three runs of a denizen with an `on_new_lap` action
that starts at lap 0, each through a whole number of loops.  (1) Loop length
10, 15 per tick from spline time 0: two ticks cover three loops, yet
`ParseAction` is called once and the lap stands at 1.  (2) Loop length 10, 5
per tick from spline time 5: two ticks cover one loop, which the first tick
completes, and `ParseAction` is not called; the lap stands at 1/2.  (3) Loop
length `2 ^ 26`, `2 ^ 25` per tick from spline time `2 ^ 25 - 1`: two ticks
cover one loop; float32 turns the quotient `(2 ^ 26 - 1) / 2 ^ 26` of the
first tick into 1, so the lap moves to 1 and then to 3/2 without a dip, and
`ParseAction` is not called. -/
theorem on_new_lap_missed :
    callsFor startWorld 1 = 0
      ∧ ((2 : ℕ) : ℤ) * 15 = ((3 : ℕ) : ℤ) * 10
      ∧ callsFor (runTicks sampleMathFu (fun k _ => loopReport 10 15 0 k) 2 startWorld) 1 = 1
      ∧ GetComponentData (runTicks sampleMathFu (fun k _ => loopReport 10 15 0 k) 2 startWorld) 1
          = some { sampleDenizen with lap := Flt.fin 1 }
      ∧ ((2 : ℕ) : ℤ) * 5 = ((1 : ℕ) : ℤ) * 10
      ∧ callsFor (runTicks sampleMathFu (fun k _ => loopReport 10 5 5 k) 2 startWorld) 1 = 0
      ∧ GetComponentData (runTicks sampleMathFu (fun k _ => loopReport 10 5 5 k) 2 startWorld) 1
          = some { sampleDenizen with lap := Flt.fin (1 / 2) }
      ∧ ((2 : ℕ) : ℤ) * 33554432 = ((1 : ℕ) : ℤ) * 67108864
      ∧ callsFor (runTicks sampleMathFu
            (fun k _ => loopReport 67108864 33554432 33554431 k) 2 startWorld) 1 = 0
      ∧ GetComponentData (runTicks sampleMathFu
            (fun k _ => loopReport 67108864 33554432 33554431 k) 2 startWorld) 1
          = some { sampleDenizen with lap := Flt.fin (3 / 2) } := by
  refine ⟨rfl, by decide, by decide!, by decide!, by decide, by decide!, by decide!, by decide,
    ?_⟩
  have hs1 : (loopReport 67108864 33554432 33554431 1).spline_time = 67108863 := by decide
  have ht1 : (loopReport 67108864 33554432 33554431 1).target_time = 1 := by decide
  have hs2 : (loopReport 67108864 33554432 33554431 2).spline_time = 33554431 := by decide
  have ht2 : (loopReport 67108864 33554432 33554431 2).target_time = 33554433 := by decide
  have hw1 : wrapInt32 (67108863 + 1) = 67108864 := by decide
  have hw2 : wrapInt32 (33554431 + 33554433) = 67108864 := by decide
  have hone : F32.round 1 = Flt.fin 1 := by decide!
  have hhalf : F32.round (1 / 2) = Flt.fin (1 / 2) := by decide!
  have hp1 : Flt.divInt (loopReport 67108864 33554432 33554431 1).spline_time
      (wrapInt32 ((loopReport 67108864 33554432 33554431 1).spline_time
        + (loopReport 67108864 33554432 33554431 1).target_time)) = Flt.fin 1 := by
    rw [hs1, ht1, hw1]
    unfold Flt.divInt
    rw [round_67108863, round_67108864]
    unfold Flt.div
    norm_num
    exact hone
  have hp2 : Flt.divInt (loopReport 67108864 33554432 33554431 2).spline_time
      (wrapInt32 ((loopReport 67108864 33554432 33554431 2).spline_time
        + (loopReport 67108864 33554432 33554431 2).target_time)) = Flt.fin (1 / 2) := by
    rw [hs2, ht2, hw2]
    unfold Flt.divInt
    rw [round_33554431, round_67108864]
    unfold Flt.div
    norm_num
    exact hhalf
  have hA : storedLap 0 1 = 1 := by decide!
  have hB : storedLap 1 (1 / 2) = 3 / 2 := by decide!
  obtain ⟨a1, a2, a3⟩ := tick_fin sampleMathFu
    (fun _ => loopReport 67108864 33554432 33554431 1) startWorld 1
    { sampleDenizen with lap := Flt.fin 0 } 0 1 ⟨[7]⟩ (by decide) rfl rfl rfl rfl hp1
    (by decide!) (by decide!) (by decide!)
  rw [hA] at a1
  obtain ⟨b1, b2, _⟩ := tick_fin sampleMathFu
    (fun _ => loopReport 67108864 33554432 33554431 2)
    (tick sampleMathFu (fun _ => loopReport 67108864 33554432 33554431 1) startWorld) 1 _ 1
    (1 / 2) ⟨[7]⟩ a3 a1 rfl rfl rfl hp2 (by decide!) (by decide!) (by decide!)
  rw [hB] at b1
  have hrun : runTicks sampleMathFu (fun k _ => loopReport 67108864 33554432 33554431 k) 2
      startWorld
      = tick sampleMathFu (fun _ => loopReport 67108864 33554432 33554431 2)
          (tick sampleMathFu (fun _ => loopReport 67108864 33554432 33554431 1) startWorld) :=
    rfl
  rw [hrun]
  refine ⟨?_, b1⟩
  rw [b2, a2]
  have hn1 : ¬ F32.roundFin ((⌊(0 : ℚ)⌋ : ℚ) + 1) < 0 := by decide!
  have hn2 : ¬ F32.roundFin ((⌊(1 : ℚ)⌋ : ℚ) + 1 / 2) < 1 := by decide!
  rw [if_neg hn1, if_neg hn2]
  rfl

/-! ## A zero loop length -/

/-- The lap bookkeeping when the motion engine reports spline time 0 and
target time 0: the quotient is NaN, NaN is stored, nothing is dispatched. -/
theorem updateLap_zero_total (raft e : EntityRef) (d : RailDenizenData) (r : MotivatorReport)
    (hs : r.spline_time = 0) (ht : r.target_time = 0) :
    updateLap raft e d r = ({ d with lap := Flt.nan }, []) := by
  have hadd : ∀ x : Flt, Flt.add x Flt.nan = Flt.nan := by
    intro x
    cases x <;> rfl
  have hlt : ∀ x : Flt, Flt.lt Flt.nan x = false := by
    intro x
    cases x <;> rfl
  have hw : wrapInt32 (0 + 0) = 0 := by decide
  have hzero : F32.round ((0 : ℤ) : ℚ) = Flt.fin 0 := by
    rw [Int.cast_zero, round_eq_fin (by rw [F32.roundFin_zero]) (by rw [F32.roundFin_zero]; norm_num),
      F32.roundFin_zero]
  have hdiv : Flt.divInt 0 0 = Flt.nan := by
    unfold Flt.divInt
    rw [hzero]
    rfl
  unfold updateLap
  simp only [hs, ht, hw, hdiv, hadd, hlt]
  rfl

/-- C3 (the code at the failing input): entity 1 of `stalledWorld` is enabled
and stands at lap 3/2 while its motivator reports `SplineTime() = 0` and
`TargetTime() = 0`; the tick makes no `ParseAction` call, but it does not
keep the lap: NaN is stored. -/
theorem zero_total_stores_nan :
    GetComponentData stalledWorld 1 = some sampleDenizen
      ∧ sampleDenizen.enabled = true
      ∧ sampleDenizen.lap = Flt.fin (3 / 2)
      ∧ (stalledWorld.engine 1).spline_time + (stalledWorld.engine 1).target_time = 0
      ∧ GetComponentData (UpdateAllEntities sampleMathFu stalledWorld) 1
          = some { sampleDenizen with lap := Flt.nan }
      ∧ (UpdateAllEntities sampleMathFu stalledWorld).actions = stalledWorld.actions := by
  refine ⟨rfl, rfl, rfl, rfl, ?_, ?_⟩
  · rw [GetComponentData_UpdateAllEntities]
    have h : GetComponentData stalledWorld 1 = some sampleDenizen := rfl
    have hen : sampleDenizen.enabled = true := rfl
    rw [h, Option.map_some', if_pos hen, updateLap_zero_total _ _ _ _ rfl rfl]
  · unfold UpdateAllEntities
    simp only [updateLoop_actions]
    have h : stalledWorld.component_data_
        = [(1, sampleDenizen), (2, { sampleDenizen with enabled := false })] := rfl
    rw [h]
    simp only [tickCalls]
    have hen : sampleDenizen.enabled = true := rfl
    rw [if_pos hen, updateLap_zero_total _ _ _ _ rfl rfl]
    simp

/-! ## Transforms written by a tick -/

theorem updateLoop_transforms_absent (mf : MathFu) (engine : EntityRef → MotivatorReport)
    (raft : EntityRef) (l : List (EntityRef × RailDenizenData)) (tr : EntityRef → TransformData)
    (acts : List ActionCall) (e : EntityRef)
    (habs : ∀ r ∈ l, r.1 = e → r.2.enabled = false) :
    (updateLoop mf engine raft l tr acts).2.1 e = tr e := by
  induction l generalizing tr acts with
  | nil => rfl
  | cons r rest ih =>
    obtain ⟨e', d'⟩ := r
    have hrest : ∀ r ∈ rest, r.1 = e → r.2.enabled = false :=
      fun r hr => habs r (List.mem_cons_of_mem _ hr)
    cases hen : d'.enabled with
    | false =>
      simp only [updateLoop, hen, Bool.not_false, if_true]
      exact ih tr acts hrest
    | true =>
      have hne : e' ≠ e := by
        intro hk
        have := habs (e', d') (List.mem_cons_self _ _) hk
        rw [hen] at this
        exact Bool.noConfusion this
      simp only [updateLoop, hen, Bool.not_true, Bool.false_eq_true, if_false]
      rw [ih _ _ hrest, Function.update_noteq (Ne.symm hne)]

theorem updateLoop_transforms (mf : MathFu) (engine : EntityRef → MotivatorReport)
    (raft : EntityRef) (l : List (EntityRef × RailDenizenData)) (tr : EntityRef → TransformData)
    (acts : List ActionCall) (e : EntityRef) (d : RailDenizenData)
    (hnodup : (l.map Prod.fst).Nodup) (hmem : (e, d) ∈ l) :
    (updateLoop mf engine raft l tr acts).2.1 e
      = if d.enabled then updateTransform mf d (engine e) (tr e) else tr e := by
  induction l generalizing tr acts with
  | nil => simp at hmem
  | cons r rest ih =>
    rw [List.map_cons, List.nodup_cons] at hnodup
    rcases List.mem_cons.mp hmem with hhead | htail
    · subst hhead
      have hrest : ∀ r' ∈ rest, r'.1 = e → r'.2.enabled = false := by
        intro r' hr' hk
        exact absurd (List.mem_map.mpr ⟨r', hr', hk⟩) hnodup.1
      cases hen : d.enabled with
      | false =>
        simp only [updateLoop, hen, Bool.not_false, if_true, Bool.false_eq_true, if_false]
        exact updateLoop_transforms_absent mf engine raft rest tr acts e hrest
      | true =>
        simp only [updateLoop, hen, Bool.not_true, Bool.false_eq_true, if_false, if_true]
        rw [updateLoop_transforms_absent mf engine raft rest _ _ e hrest, Function.update_same]
    · obtain ⟨e', d'⟩ := r
      have hne : e' ≠ e := by
        intro hk
        exact hnodup.1 (List.mem_map.mpr ⟨(e, d), htail, hk.symm⟩)
      cases hen : d'.enabled with
      | false =>
        simp only [updateLoop, hen, Bool.not_false, if_true]
        exact ih tr acts hnodup.2 htail
      | true =>
        simp only [updateLoop, hen, Bool.not_true, Bool.false_eq_true, if_false]
        rw [ih _ _ hnodup.2 htail, Function.update_noteq (Ne.symm hne)]

/-- The transform of an entity after a tick. -/
theorem transforms_UpdateAllEntities (mf : MathFu) (w : World) (e : EntityRef)
    (d : RailDenizenData) (hnodup : (entities w).Nodup) (hdata : GetComponentData w e = some d) :
    (UpdateAllEntities mf w).transforms e
      = if d.enabled then updateTransform mf d (w.engine e) (w.transforms e)
        else w.transforms e :=
  updateLoop_transforms mf w.engine w.raft_entity w.component_data_ w.transforms w.actions e d
    hnodup (mem_of_GetComponentData hdata)

/-- C4: for an enabled denizen with placement `rail_offset`,
`rail_orientation`, `rail_scale` whose motivator reports the rail-local
position `localPos`, one tick of `UpdateAllEntities` leaves
`rail_scale ⊙ (rail_orientation⁻¹ · localPos) + rail_offset` in the position of
the entity's transform and does not change the transform's scale. -/
theorem world_position_placement (mf : MathFu) (w : World) (e : EntityRef)
    (d : RailDenizenData) (hnodup : (entities w).Nodup)
    (hdata : GetComponentData w e = some d) (hen : d.enabled = true) :
    ((UpdateAllEntities mf w).transforms e).position
        = Vec3.add
            (Vec3.hadamard d.rail_scale (Quat.rotate d.rail_orientation.Inverse (w.engine e).value))
            d.rail_offset
      ∧ ((UpdateAllEntities mf w).transforms e).scale = (w.transforms e).scale := by
  rw [transforms_UpdateAllEntities mf w e d hnodup hdata, if_pos hen]
  unfold updateTransform
  constructor
  · have hcomm : ∀ a b : Vec3, Vec3.hadamard a b = Vec3.hadamard b a := by
      intro a b
      simp only [Vec3.hadamard, mul_comm]
    rw [hcomm d.rail_scale]
    cases d.update_orientation <;> cases d.inherit_transform_data <;> rfl
  · cases d.update_orientation <;> cases d.inherit_transform_data <;> rfl

theorem world_position_placement_witness :
    ((UpdateAllEntities sampleMathFu sampleWorld).transforms 1).position = ⟨12, 14, 18⟩ := by
  have h := (world_position_placement sampleMathFu sampleWorld 1 sampleDenizen (by decide)
    rfl rfl).1
  rw [h]
  norm_num [Vec3.add, Vec3.hadamard, Quat.rotate, Quat.Inverse, Vec3.smul, Vec3.cross,
    Vec3.dot, Vec3.neg, sampleDenizen, sampleWorld]

/-- C6: for an entity whose `enabled` flag is false, one tick of
`UpdateAllEntities` leaves its transform (position, orientation, scale) and
its data block, the lap included, as they were, and none of the `ParseAction`
calls the tick makes has it as source, whatever the motion engine reports and
whatever the other entities are. -/
theorem disabled_is_frozen (mf : MathFu) (w : World) (e : EntityRef)
    (d : RailDenizenData) (hnodup : (entities w).Nodup)
    (hdata : GetComponentData w e = some d) (hen : d.enabled = false) :
    (UpdateAllEntities mf w).transforms e = w.transforms e
      ∧ GetComponentData (UpdateAllEntities mf w) e = some d
      ∧ ∃ calls, (UpdateAllEntities mf w).actions = w.actions ++ calls
          ∧ ∀ c ∈ calls, c.source ≠ e := by
  refine ⟨?_, ?_, ?_⟩
  · rw [transforms_UpdateAllEntities mf w e d hnodup hdata, hen]
    rfl
  · rw [GetComponentData_UpdateAllEntities, hdata, Option.map_some', hen]
    rfl
  · refine ⟨tickCalls w.raft_entity w.engine w.component_data_, ?_, ?_⟩
    · unfold UpdateAllEntities
      simp only [updateLoop_actions]
    · intro c hc hsrc
      obtain ⟨r, hr, hk, hren⟩ := tickCalls_source _ _ _ c hc
      have hmem := mem_of_GetComponentData hdata
      have hkeys : r.1 = (e, d).1 := hk.trans hsrc
      have hinj : r = (e, d) := by
        have hnd : (w.component_data_.map Prod.fst).Nodup := hnodup
        exact List.inj_on_of_nodup_map hnd hr hmem hkeys
      rw [hinj] at hren
      rw [hen] at hren
      exact Bool.noConfusion hren

theorem disabled_is_frozen_witness :
    GetComponentData sampleWorld 2 = some { sampleDenizen with enabled := false }
      ∧ (UpdateAllEntities sampleMathFu sampleWorld).transforms 2 = sampleWorld.transforms 2
      ∧ GetComponentData (UpdateAllEntities sampleMathFu sampleWorld) 2
          = some { sampleDenizen with enabled := false } :=
  have h := disabled_is_frozen sampleMathFu sampleWorld 2 { sampleDenizen with enabled := false }
    (by decide) rfl rfl
  ⟨rfl, h.1, h.2.1⟩

/-! ## Binding and events -/

theorem initializeRailData_named (rails : String → Rail) (d : RailDenizenData)
    (hname : d.rail_name ≠ "") :
    initializeRailData rails d
      = ({ d with motivator := ⟨d.motivator.valid,
            some ⟨(rails d.rail_name).splines_, d.start_time, true⟩, d.spline_playback_rate⟩ },
         []) := by
  unfold initializeRailData
  have h : (d.rail_name != "") = true := by simpa using hname
  simp only [h, if_true]
  rfl

theorem initializeRailData_nameless (rails : String → Rail) (d : RailDenizenData)
    (hname : d.rail_name = "") :
    initializeRailData rails d
      = ({ d with motivator := { d.motivator with playback_rate := d.spline_playback_rate } },
         [noRailNameError]) := by
  unfold initializeRailData
  have h : (d.rail_name != "") = false := by simp [hname]
  simp only [h, Bool.false_eq_true, if_false]
  rfl

theorem find_setData_same (e : EntityRef) (d' : RailDenizenData)
    (l : List (EntityRef × RailDenizenData))
    (h : (l.find? (fun r => r.1 == e)).isSome = true) :
    (setData e d' l).find? (fun r => r.1 == e) = some (e, d') := by
  induction l with
  | nil => simp at h
  | cons r rest ih =>
    cases hk : (r.1 == e) with
    | true => simp [setData, hk]
    | false =>
      rw [List.find?_cons, hk] at h
      simp only [setData, hk, Bool.false_eq_true, if_false, List.find?_cons]
      exact ih h

theorem find_setData_other (e e' : EntityRef) (d' : RailDenizenData)
    (l : List (EntityRef × RailDenizenData)) (hne : e' ≠ e) :
    (setData e d' l).find? (fun r => r.1 == e') = l.find? (fun r => r.1 == e') := by
  induction l with
  | nil => rfl
  | cons r rest ih =>
    cases hk : (r.1 == e) with
    | true =>
      have hre : r.1 = e := by simpa using hk
      have h1 : (e == e') = false := by simpa using Ne.symm hne
      have h2 : (r.1 == e') = false := by rw [hre]; exact h1
      simp [setData, hk, List.find?_cons, h1, h2]
    | false =>
      simp only [setData, hk, Bool.false_eq_true, if_false, List.find?_cons]
      rw [ih]

theorem map_fst_setData (e : EntityRef) (d' : RailDenizenData)
    (l : List (EntityRef × RailDenizenData)) :
    (setData e d' l).map Prod.fst = l.map Prod.fst := by
  induction l with
  | nil => rfl
  | cons r rest ih =>
    cases hk : (r.1 == e) with
    | true =>
      have hre : r.1 = e := by simpa using hk
      simp [setData, hk, hre]
    | false => simp [setData, hk, ih]

theorem rebindLoop_data (rails : String → Rail) (R : String)
    (l : List (EntityRef × RailDenizenData)) (errs : List String) :
    (rebindLoop rails R l errs).1
      = l.map (fun r => (r.1, if r.2.rail_name == R then (initializeRailData rails r.2).1 else r.2)) := by
  induction l generalizing errs with
  | nil => rfl
  | cons r rest ih =>
    obtain ⟨e, d⟩ := r
    cases hk : (d.rail_name == R) with
    | false =>
      simp only [rebindLoop, hk, Bool.false_eq_true, if_false, List.map_cons, ih]
    | true =>
      simp only [rebindLoop, hk, if_true, List.map_cons, ih]

theorem find_rebind (rails : String → Rail) (R : String)
    (l : List (EntityRef × RailDenizenData)) (e : EntityRef) :
    ((rebindLoop rails R l []).1.find? (fun r => r.1 == e)).map Prod.snd
      = ((l.find? (fun r => r.1 == e)).map Prod.snd).map
          (fun d => if d.rail_name == R then (initializeRailData rails d).1 else d) := by
  rw [rebindLoop_data, List.find?_map]
  cases h : l.find? (fun r => r.1 == e) with
  | none =>
    have : List.find? ((fun r => r.1 == e) ∘ fun r : EntityRef × RailDenizenData =>
        (r.1, if r.2.rail_name == R then (initializeRailData rails r.2).1 else r.2)) l = none := h
    rw [this]
    rfl
  | some r =>
    have : List.find? ((fun r => r.1 == e) ∘ fun r : EntityRef × RailDenizenData =>
        (r.1, if r.2.rail_name == R then (initializeRailData rails r.2).1 else r.2)) l
        = some r := h
    rw [this]
    rfl

/-- C7 (counterexample): in `namelessWorld` the edited entity 9 is a rail node
with the empty rail name and denizen 1 has the same (empty) rail name; after
the `EntityUpdated` event the denizen's motivator still follows no spline. -/
theorem nameless_rail_not_rebound :
    namelessWorld.rail_nodes 9 = some ⟨""⟩
      ∧ (GetComponentData namelessWorld 1).map (fun d => d.rail_name) = some ""
      ∧ ((OnEvent namelessWorld
            (EventPayload.EditorEvent EditorEventAction.EntityUpdated (some 9))).bind
          (fun w => GetComponentData w 1)).map (fun d => d.motivator.playback) = some none := by
  refine ⟨rfl, rfl, ?_⟩
  simp only [OnEvent, namelessWorld, GetComponentData, rebindLoop_data]
  simp [initializeRailData_nameless]

/-- C7 (as amended): an `EntityUpdated` editor event whose edited entity is a
rail node with rail name `R` leaves every denizen whose `rail_name` differs
from `R` unchanged; when `R` is not empty, every denizen whose `rail_name` is
`R` gets its motivator set on the splines of rail `R` with start time
`start_time` and playback rate `spline_playback_rate`, nothing else of its
data block changing; when `R` is empty, such a denizen only has its stored
playback rate pushed to the motivator again.  An editor event with another
action, without an entity, or whose entity has no rail-node data changes
nothing. -/
theorem editor_event_rebinds (w : World) (action : EditorEventAction)
    (entity : Option EntityRef) :
    ((action ≠ EditorEventAction.EntityUpdated ∨ entity = none
          ∨ ∃ edited, entity = some edited ∧ w.rail_nodes edited = none) →
        OnEvent w (EventPayload.EditorEvent action entity) = some w)
      ∧ ∀ (edited : EntityRef) (R : String),
          action = EditorEventAction.EntityUpdated → entity = some edited →
          w.rail_nodes edited = some ⟨R⟩ →
          ∃ w', OnEvent w (EventPayload.EditorEvent action entity) = some w'
            ∧ entities w' = entities w ∧ w'.transforms = w.transforms ∧ w'.actions = w.actions
            ∧ ∀ (e : EntityRef) (d : RailDenizenData), GetComponentData w e = some d →
                (d.rail_name ≠ R → GetComponentData w' e = some d)
                ∧ (d.rail_name = R → R ≠ "" →
                    GetComponentData w' e
                      = some { d with motivator := ⟨d.motivator.valid,
                          some ⟨(w.rails R).splines_, d.start_time, true⟩,
                          d.spline_playback_rate⟩ })
                ∧ (d.rail_name = R → R = "" →
                    GetComponentData w' e
                      = some { d with motivator :=
                          { d.motivator with playback_rate := d.spline_playback_rate } }) := by
  constructor
  · intro h
    rcases h with h | h | ⟨edited, h1, h2⟩
    · cases action with
      | EntityUpdated => exact absurd rfl h
      | Other code => cases entity <;> rfl
    · subst h
      cases action <;> rfl
    · subst h1
      cases action with
      | EntityUpdated => simp only [OnEvent, h2]
      | Other code => rfl
  · intro edited R haction hentity hnode
    subst haction
    subst hentity
    refine ⟨{ w with component_data_ := (rebindLoop w.rails R w.component_data_ w.errors).1,
                     errors := (rebindLoop w.rails R w.component_data_ w.errors).2 },
      by simp only [OnEvent, hnode], ?_, rfl, rfl, ?_⟩
    · unfold entities
      simp only [rebindLoop_data, List.map_map]
      rfl
    · intro e d hdata
      have hfind : GetComponentData
          { w with component_data_ := (rebindLoop w.rails R w.component_data_ w.errors).1,
                   errors := (rebindLoop w.rails R w.component_data_ w.errors).2 } e
          = some (if d.rail_name == R then (initializeRailData w.rails d).1 else d) := by
        unfold GetComponentData at hdata ⊢
        have := find_rebind w.rails R w.component_data_ e
        rw [rebindLoop_data] at this
        simp only [rebindLoop_data]
        rw [this, hdata]
        rfl
      refine ⟨?_, ?_, ?_⟩
      · intro hne
        have hk : (d.rail_name == R) = false := by simpa using hne
        rw [hfind, hk]
        rfl
      · intro heq hR
        have hk : (d.rail_name == R) = true := by simpa using heq
        rw [hfind, hk, if_pos rfl, initializeRailData_named w.rails d (heq ▸ hR), heq]
      · intro heq hR
        have hk : (d.rail_name == R) = true := by simpa using heq
        rw [hfind, hk, if_pos rfl, initializeRailData_nameless w.rails d (heq.trans hR)]

theorem editor_event_rebinds_witness :
    ∃ w', OnEvent sampleWorld
          (EventPayload.EditorEvent EditorEventAction.EntityUpdated (some 9)) = some w'
      ∧ GetComponentData w' 1
          = some { sampleDenizen with motivator := ⟨true, some ⟨⟨5⟩, 0, true⟩, 1⟩ } := by
  obtain ⟨w', h1, _, _, _, h⟩ :=
    (editor_event_rebinds sampleWorld EditorEventAction.EntityUpdated (some 9)).2 9 "loop"
      rfl rfl rfl
  exact ⟨w', h1, (h 1 sampleDenizen rfl).2.1 rfl (by decide)⟩

theorem GetComponentData_setData_same (w w' : World) (e : EntityRef) (d d' : RailDenizenData)
    (hdata : GetComponentData w e = some d)
    (hw' : w'.component_data_ = setData e d' w.component_data_) :
    GetComponentData w' e = some d' := by
  unfold GetComponentData at hdata ⊢
  have hsome : (w.component_data_.find? (fun r => r.1 == e)).isSome = true := by
    cases h : w.component_data_.find? (fun r => r.1 == e) with
    | none => simp [h] at hdata
    | some r => rfl
  rw [hw', find_setData_same e d' w.component_data_ hsome]
  rfl

theorem GetComponentData_setData_other (w w' : World) (e e' : EntityRef) (d' : RailDenizenData)
    (hne : e' ≠ e) (hw' : w'.component_data_ = setData e d' w.component_data_) :
    GetComponentData w' e' = GetComponentData w e' := by
  unfold GetComponentData
  rw [hw', find_setData_other e e' d' w.component_data_ hne]

/-- What `InitializeRail` does on an entity with a data block: it logs the
configuration error exactly when the block's `rail_name` is empty; then it
sets no spline and the block changes only in that the stored playback rate is
pushed to the motivator.  With a non-empty `rail_name` nothing is logged and
the motivator is set on the splines of the named rail, starting at
`start_time`. -/
theorem InitializeRail_outcome (w : World) (e : EntityRef) (d : RailDenizenData)
    (hdata : GetComponentData w e = some d) :
    ∃ w', InitializeRail w e = some w'
      ∧ (w'.errors = w.errors ++ [noRailNameError] ↔ d.rail_name = "")
      ∧ (w'.errors = w.errors ↔ d.rail_name ≠ "")
      ∧ (d.rail_name = "" →
          GetComponentData w' e
            = some { d with motivator :=
                { d.motivator with playback_rate := d.spline_playback_rate } })
      ∧ (d.rail_name ≠ "" →
          GetComponentData w' e
            = some { d with motivator := ⟨d.motivator.valid,
                some ⟨(w.rails d.rail_name).splines_, d.start_time, true⟩,
                d.spline_playback_rate⟩ })
      ∧ (∀ e', e' ≠ e → GetComponentData w' e' = GetComponentData w e') := by
  refine ⟨{ w with
      component_data_ := setData e (initializeRailData w.rails d).1 w.component_data_,
      errors := w.errors ++ (initializeRailData w.rails d).2 }, ?_, ?_, ?_, ?_, ?_, ?_⟩
  · unfold InitializeRail
    rw [hdata]
  · by_cases hname : d.rail_name = ""
    · simp [initializeRailData_nameless w.rails d hname, hname]
    · simp [initializeRailData_named w.rails d hname, hname]
  · by_cases hname : d.rail_name = ""
    · simp [initializeRailData_nameless w.rails d hname, hname]
    · simp [initializeRailData_named w.rails d hname, hname]
  · intro hname
    rw [GetComponentData_setData_same w _ e d _ hdata rfl,
      initializeRailData_nameless w.rails d hname]
  · intro hname
    rw [GetComponentData_setData_same w _ e d _ hdata rfl,
      initializeRailData_named w.rails d hname]
  · intro e' hne
    exact GetComponentData_setData_other w _ e e' _ hne rfl

/-- C9: a speed-change event for entity `e` with operator `op` and value `v`:
when `e` has a data block with rate `r`, `OnEvent` stores `op` applied to
`(r, v)` as `spline_playback_rate` (`r * v` for the multiply operator) and
pushes the same rate to the motivator, changing no other field of the block,
no other entity's block, no transform, no log; when `e` has no data block,
`OnEvent` changes nothing. -/
theorem speed_change_applies_operator (w : World) (e : EntityRef) (op : Operation) (v : ℚ) :
    (GetComponentData w e = none →
        OnEvent w (EventPayload.ChangeRailSpeed e op v) = some w)
      ∧ ∀ d : RailDenizenData, GetComponentData w e = some d →
          ∃ w', OnEvent w (EventPayload.ChangeRailSpeed e op v) = some w'
            ∧ GetComponentData w' e
                = some { d with
                    spline_playback_rate := ApplyOperation d.spline_playback_rate op v,
                    motivator := { d.motivator with
                      playback_rate := ApplyOperation d.spline_playback_rate op v } }
            ∧ (op = Operation.Multiply →
                ApplyOperation d.spline_playback_rate op v = d.spline_playback_rate * v)
            ∧ (∀ e', e' ≠ e → GetComponentData w' e' = GetComponentData w e')
            ∧ entities w' = entities w ∧ w'.transforms = w.transforms
            ∧ w'.actions = w.actions ∧ w'.errors = w.errors := by
  constructor
  · intro hnone
    simp only [OnEvent, hnone]
  · intro d hdata
    refine ⟨{ w with
      component_data_ := setData e
        ({ d with
            spline_playback_rate := ApplyOperation d.spline_playback_rate op v,
            motivator := { d.motivator with
              playback_rate := ApplyOperation d.spline_playback_rate op v } })
        w.component_data_ }, ?_, ?_, ?_, ?_, ?_, rfl, rfl, rfl⟩
    · simp only [OnEvent, hdata]
      rfl
    · exact GetComponentData_setData_same w _ e d _ hdata rfl
    · intro hop
      rw [hop]
      rfl
    · intro e' hne
      exact GetComponentData_setData_other w _ e e' _ hne rfl
    · exact map_fst_setData e _ w.component_data_

theorem speed_change_applies_operator_witness :
    ∃ w', OnEvent sampleWorld (EventPayload.ChangeRailSpeed 1 Operation.Multiply 3) = some w'
      ∧ GetComponentData w' 1
          = some { sampleDenizen with spline_playback_rate := 3, motivator := ⟨true, none, 3⟩ } := by
  obtain ⟨w', h1, h2, _⟩ :=
    (speed_change_applies_operator sampleWorld 1 Operation.Multiply 3).2 sampleDenizen rfl
  refine ⟨w', h1, ?_⟩
  rw [h2]
  norm_num [ApplyOperation, sampleDenizen]

/-! ## Export and construction from raw data -/

theorem GetComponentData_AddEntity (fresh : RailDenizenData) (w : World) (e : EntityRef) :
    GetComponentData (AddEntity fresh w e).2 e = some (AddEntity fresh w e).1 := by
  unfold AddEntity
  cases h : GetComponentData w e with
  | some d => exact h
  | none =>
    unfold GetComponentData at h ⊢
    have hnone : w.component_data_.find? (fun r => r.1 == e) = none := by
      cases hf : w.component_data_.find? (fun r => r.1 == e) with
      | none => rfl
      | some r => simp [hf] at h
    simp [List.find?_append, hnone]

theorem AddEntity_services (fresh : RailDenizenData) (w : World) (e : EntityRef) :
    (AddEntity fresh w e).2.schema = w.schema
      ∧ (AddEntity fresh w e).2.kept_in_memory = w.kept_in_memory
      ∧ (AddEntity fresh w e).2.rails = w.rails := by
  unfold AddEntity
  cases GetComponentData w e <;> exact ⟨rfl, rfl, rfl⟩

/-- What `loadRawData` leaves in the data block, given that the action can be
taken over or copied. -/
theorem loadRawData_fields (mf : MathFu) (w : World) (data : RailDenizenData)
    (df : RailDenizenDef)
    (hcopy : df.on_new_lap.isSome = true →
      (w.schema.bind Schema.LookupActionDef).isSome = true) :
    ∃ data', loadRawData mf w data df = some data'
      ∧ data'.start_time = df.start_time
      ∧ data'.spline_playback_rate = df.initial_playback_rate
      ∧ (∀ v, df.rail_offset = some v → data'.rail_offset = v)
      ∧ (∀ v, df.rail_scale = some v → data'.rail_scale = v)
      ∧ data'.update_orientation = df.update_orientation
      ∧ data'.inherit_transform_data = df.inherit_transform_data
      ∧ data'.enabled = df.enabled
      ∧ (∀ n, df.rail_name = some n → data'.rail_name = n)
      ∧ (df.rail_name = none → data'.rail_name = data.rail_name)
      ∧ (∀ a, df.on_new_lap = some a → data'.on_new_lap = some a)
      ∧ (df.on_new_lap = none → data'.on_new_lap = data.on_new_lap) := by
  obtain ⟨rn, st, onl, ipr, ro, ror, rs, uo, itd, en⟩ := df
  have hb : ∀ b : Bool, (if b = true then true else false) = b := by
    intro b
    cases b <;> rfl
  cases onl with
  | none =>
    cases rn <;> cases ro <;> cases ror <;> cases rs <;>
      simp [loadRawData, hb, Motivator3f.Initialize, Motivator3f.SetSplinePlaybackRate]
  | some a =>
    have hs := hcopy rfl
    cases hsch : w.schema with
    | none => simp [hsch] at hs
    | some schema =>
      cases hl : schema.LookupActionDef with
      | none => simp [hsch, hl] at hs
      | some n =>
        cases hk : w.kept_in_memory a <;>
          cases rn <;> cases ro <;> cases ror <;> cases rs <;>
            simp [loadRawData, hb, hsch, hl, hk, CopyTable, Motivator3f.Initialize,
              Motivator3f.SetSplinePlaybackRate]

theorem initializeRailData_fields (rails : String → Rail) (d : RailDenizenData) :
    (initializeRailData rails d).1
      = { d with motivator := (initializeRailData rails d).1.motivator } := by
  by_cases hname : d.rail_name = ""
  · rw [initializeRailData_nameless rails d hname]
  · rw [initializeRailData_named rails d hname]

theorem AddFromRawData_data (mf : MathFu) (fresh : RailDenizenData) (w : World) (e : EntityRef)
    (df : RailDenizenDef) (data : RailDenizenData)
    (hload : loadRawData mf (AddEntity fresh w e).2 (AddEntity fresh w e).1 df = some data) :
    ∃ w3, AddFromRawData mf fresh w e df = some w3
      ∧ GetComponentData w3 e = some (initializeRailData w.rails data).1 := by
  have hrails := (AddEntity_services fresh w e).2.2
  have h1 : GetComponentData
      { (AddEntity fresh w e).2 with
        component_data_ := setData e data (AddEntity fresh w e).2.component_data_ } e
      = some data :=
    GetComponentData_setData_same (AddEntity fresh w e).2 _ e _ data
      (GetComponentData_AddEntity fresh w e) rfl
  unfold AddFromRawData
  simp only [hload]
  unfold InitializeRail
  rw [h1]
  refine ⟨_, rfl, ?_⟩
  have h2 := GetComponentData_setData_same
    { (AddEntity fresh w e).2 with
      component_data_ := setData e data (AddEntity fresh w e).2.component_data_ }
    { (AddEntity fresh w e).2 with
      component_data_ := setData e (initializeRailData (AddEntity fresh w e).2.rails data).1
        (setData e data (AddEntity fresh w e).2.component_data_),
      errors := (AddEntity fresh w e).2.errors
        ++ (initializeRailData (AddEntity fresh w e).2.rails data).2 }
    e data (initializeRailData (AddEntity fresh w e).2.rails data).1 h1 rfl
  rw [hrails] at h2
  rw [← h2]
  simp only [hrails]

/-! ## Binding at construction -/

theorem loadRawData_motivator (mf : MathFu) (w : World) (data data' : RailDenizenData)
    (df : RailDenizenDef) (h : loadRawData mf w data df = some data') :
    data'.motivator.valid = true ∧ data'.motivator.playback = none := by
  unfold loadRawData at h
  simp only at h
  split at h
  · exact absurd h (by simp)
  · injection h with h
    subst h
    exact ⟨rfl, rfl⟩

theorem AddEntity_errors (fresh : RailDenizenData) (w : World) (e : EntityRef) :
    (AddEntity fresh w e).2.errors = w.errors := by
  unfold AddEntity
  cases GetComponentData w e <;> rfl

/-- What `AddFromRawData` leaves for the entity it is called on: the motivator
is attached to the motion engine, the configuration error is logged exactly
when the entity ends up without a rail name, and a spline is set exactly
when it has one. -/
theorem AddFromRawData_outcome (mf : MathFu) (fresh : RailDenizenData) (w w3 : World)
    (e : EntityRef) (df : RailDenizenDef) (h : AddFromRawData mf fresh w e df = some w3) :
    ∃ d3, GetComponentData w3 e = some d3
      ∧ d3.motivator.valid = true
      ∧ d3.motivator.playback_rate = d3.spline_playback_rate
      ∧ (w3.errors = w.errors ++ [noRailNameError] ↔ d3.rail_name = "")
      ∧ (d3.rail_name = "" → d3.motivator.playback = none)
      ∧ (d3.rail_name ≠ "" →
          d3.motivator.playback
            = some ⟨(w.rails d3.rail_name).splines_, d3.start_time, true⟩) := by
  have hrails := (AddEntity_services fresh w e).2.2
  have herrors := AddEntity_errors fresh w e
  unfold AddFromRawData at h
  cases hload : loadRawData mf (AddEntity fresh w e).2 (AddEntity fresh w e).1 df with
  | none => simp [hload] at h
  | some data =>
    simp only [hload] at h
    obtain ⟨hvalid, hplay⟩ := loadRawData_motivator mf _ _ data df hload
    have h1 : GetComponentData
        { (AddEntity fresh w e).2 with
          component_data_ := setData e data (AddEntity fresh w e).2.component_data_ } e
        = some data :=
      GetComponentData_setData_same (AddEntity fresh w e).2 _ e _ data
        (GetComponentData_AddEntity fresh w e) rfl
    obtain ⟨w', g1, g2, _, g4, g5, _⟩ := InitializeRail_outcome _ e data h1
    rw [h] at g1
    have hw : w3 = w' := Option.some.inj g1
    subst hw
    have g2' : w3.errors = w.errors ++ [noRailNameError] ↔ data.rail_name = "" := by
      rw [← herrors]
      exact g2
    by_cases hname : data.rail_name = ""
    · exact ⟨_, g4 hname, hvalid, rfl, g2', fun _ => hplay, fun hne => absurd hname hne⟩
    · refine ⟨_, g5 hname, hvalid, rfl, g2', fun h0 => absurd h0 hname, fun _ => ?_⟩
      show some _ = some _
      rw [← hrails]

/-- C8 (as amended): `InitializeRail` on an entity with a data block logs the
configuration error exactly when the block's `rail_name` is empty.  With an
empty `rail_name` it sets no spline on the motivator and leaves the
motivator's attachment to the engine as it was: the block changes only in
that the stored playback rate is pushed to the motivator, so `rail_name`,
`start_time`, `spline_playback_rate` and `lap` are as before.  With a
non-empty `rail_name` nothing is logged and the motivator is set on the
splines of the named rail, starting at `start_time`.  On the construction
path, `AddFromRawData` attaches the motivator to the motion engine before it
calls `InitializeRail`: the entity it returns has a motion engine attached,
carrying the stored playback rate, also when its `rail_name` is empty, in
which case the error is logged and no spline is set. -/
theorem initialize_rail_error_iff_nameless (w : World) (e : EntityRef) :
    (∀ d, GetComponentData w e = some d →
      ∃ w', InitializeRail w e = some w'
        ∧ (w'.errors = w.errors ++ [noRailNameError] ↔ d.rail_name = "")
        ∧ (w'.errors = w.errors ↔ d.rail_name ≠ "")
        ∧ (d.rail_name = "" →
            GetComponentData w' e
              = some { d with motivator :=
                  { d.motivator with playback_rate := d.spline_playback_rate } })
        ∧ (d.rail_name ≠ "" →
            GetComponentData w' e
              = some { d with motivator := ⟨d.motivator.valid,
                  some ⟨(w.rails d.rail_name).splines_, d.start_time, true⟩,
                  d.spline_playback_rate⟩ })
        ∧ (∀ e', e' ≠ e → GetComponentData w' e' = GetComponentData w e'))
      ∧ (∀ (mf : MathFu) (fresh : RailDenizenData) (df : RailDenizenDef) (w3 : World),
          AddFromRawData mf fresh w e df = some w3 →
          ∃ d3, GetComponentData w3 e = some d3
            ∧ d3.motivator.valid = true
            ∧ d3.motivator.playback_rate = d3.spline_playback_rate
            ∧ (w3.errors = w.errors ++ [noRailNameError] ↔ d3.rail_name = "")
            ∧ (d3.rail_name = "" → d3.motivator.playback = none)
            ∧ (d3.rail_name ≠ "" →
                d3.motivator.playback
                  = some ⟨(w.rails d3.rail_name).splines_, d3.start_time, true⟩)) :=
  ⟨fun d hdata => InitializeRail_outcome w e d hdata,
    fun mf fresh df w3 h => AddFromRawData_outcome mf fresh w w3 e df h⟩

theorem initialize_rail_error_iff_nameless_witness :
    ∃ w', InitializeRail namelessWorld 1 = some w'
      ∧ w'.errors = namelessWorld.errors ++ [noRailNameError]
      ∧ GetComponentData w' 1
          = some { sampleDenizen with rail_name := "", motivator := ⟨true, none, 1⟩ } := by
  obtain ⟨w', h1, h2, _, h4, _⟩ := (initialize_rail_error_iff_nameless namelessWorld 1).1
    { sampleDenizen with rail_name := "", motivator := ⟨true, none, 3⟩ } rfl
  exact ⟨w', h1, h2.mpr rfl, h4 rfl⟩

/-- C8 (counterexample): `AddFromRawData` of a record without a rail name for
the new entity 5 logs the configuration error and sets no spline, yet the
entity's motivator is attached to the motion engine (line 190 runs before
`InitializeRail`) and has the playback rate. -/
theorem nameless_denizen_has_motivator :
    ((AddFromRawData sampleMathFu sampleFresh sampleWorld 5 namelessDef).bind
        (fun w => GetComponentData w 5)).map
        (fun d => (d.rail_name, d.motivator))
      = some ("", ⟨true, none, 1⟩)
      ∧ (AddFromRawData sampleMathFu sampleFresh sampleWorld 5 namelessDef).map
          (fun w => w.errors) = some [noRailNameError] := by
  constructor <;> decide!

/-! ## Export and construction: the round trip -/

/-- C10 (counterexample): entity 1 of `schemalessWorld` has an `on_new_lap`
action, yet its export carries none, the binary schema being absent. -/
theorem export_drops_action_without_schema :
    (GetComponentData schemalessWorld 1).map (fun d => d.on_new_lap) = some (some ⟨[7]⟩)
      ∧ (ExportRawData sampleMathFu schemalessWorld 1).map (fun df => df.on_new_lap)
          = some none := by
  constructor <;> rfl

/-- C10 (as amended): `ExportRawData` of an entity with data block `d` yields
a record in which `rail_name` is present exactly when `d.rail_name` is not
empty (and then equals it), and `on_new_lap` is present exactly when `d` has
an action and the binary schema is there and describes `ActionDef`;
`AddFromRawData` on that record, in a world with the same schema, succeeds and
gives a data block with the same `start_time`, `spline_playback_rate`,
`rail_offset`, `rail_scale`, `update_orientation`, `inherit_transform_data`
and `enabled`, the same `rail_name` when that is not empty, and the same
action when one was exported. -/
theorem export_import_roundtrip (mf : MathFu) (fresh : RailDenizenData) (w w2 : World)
    (e e2 : EntityRef) (d : RailDenizenData)
    (hdata : GetComponentData w e = some d) (hschema : w2.schema = w.schema) :
    ∃ df, ExportRawData mf w e = some df
      ∧ (df.rail_name.isSome = true ↔ d.rail_name ≠ "")
      ∧ df.rail_name ≠ some ""
      ∧ (df.on_new_lap.isSome = true
          ↔ d.on_new_lap.isSome = true ∧ (w.schema.bind Schema.LookupActionDef).isSome = true)
      ∧ ∃ w3 d3, AddFromRawData mf fresh w2 e2 df = some w3
          ∧ GetComponentData w3 e2 = some d3
          ∧ d3.start_time = d.start_time
          ∧ d3.spline_playback_rate = d.spline_playback_rate
          ∧ d3.rail_offset = d.rail_offset
          ∧ d3.rail_scale = d.rail_scale
          ∧ d3.update_orientation = d.update_orientation
          ∧ d3.inherit_transform_data = d.inherit_transform_data
          ∧ d3.enabled = d.enabled
          ∧ (d.rail_name ≠ "" → d3.rail_name = d.rail_name)
          ∧ (df.on_new_lap.isSome = true → d3.on_new_lap = d.on_new_lap) := by
  have hexp : ExportRawData mf w e = some
      { rail_name := if d.rail_name != "" then some d.rail_name else none
        start_time := d.start_time
        on_new_lap :=
          match d.on_new_lap, w.schema.bind Schema.LookupActionDef with
          | some a, some _ => some (CopyTable a)
          | _, _ => none
        initial_playback_rate := d.spline_playback_rate
        rail_offset := some ⟨d.rail_offset.x, d.rail_offset.y, d.rail_offset.z⟩
        rail_orientation := some ⟨(mf.ToEulerAngles d.rail_orientation).x,
          (mf.ToEulerAngles d.rail_orientation).y, (mf.ToEulerAngles d.rail_orientation).z⟩
        rail_scale := some ⟨d.rail_scale.x, d.rail_scale.y, d.rail_scale.z⟩
        update_orientation := d.update_orientation
        inherit_transform_data := d.inherit_transform_data
        enabled := d.enabled } := by
    unfold ExportRawData
    rw [hdata]
  have key : ∃ df, ExportRawData mf w e = some df
      ∧ df.rail_name = (if d.rail_name != "" then some d.rail_name else none)
      ∧ df.on_new_lap = (match d.on_new_lap, w.schema.bind Schema.LookupActionDef with
          | some a, some _ => some (CopyTable a)
          | _, _ => none)
      ∧ df.start_time = d.start_time
      ∧ df.initial_playback_rate = d.spline_playback_rate
      ∧ df.rail_offset = some d.rail_offset
      ∧ df.rail_scale = some d.rail_scale
      ∧ df.update_orientation = d.update_orientation
      ∧ df.inherit_transform_data = d.inherit_transform_data
      ∧ df.enabled = d.enabled := ⟨_, hexp, rfl, rfl, rfl, rfl, rfl, rfl, rfl, rfl, rfl⟩
  obtain ⟨df, hdf, hrn, honl, hst, hipr, hro, hrs, huo, hitd, hen⟩ := key
  have hpresent : df.on_new_lap.isSome = true
      ↔ d.on_new_lap.isSome = true ∧ (w.schema.bind Schema.LookupActionDef).isSome = true := by
    rw [honl]
    cases d.on_new_lap <;> cases w.schema.bind Schema.LookupActionDef <;> simp
  refine ⟨df, hdf, ?_, ?_, hpresent, ?_⟩
  · rw [hrn]
    by_cases hname : d.rail_name = "" <;> simp [hname]
  · rw [hrn]
    by_cases hname : d.rail_name = "" <;> simp [hname]
  · have hcopy : df.on_new_lap.isSome = true →
        ((AddEntity fresh w2 e2).2.schema.bind Schema.LookupActionDef).isSome = true := by
      intro h
      rw [(AddEntity_services fresh w2 e2).1, hschema]
      exact (hpresent.mp h).2
    obtain ⟨data, hload, f1, f2, f3, f4, f5, f6, f7, f8, _, f10, _⟩ :=
      loadRawData_fields mf (AddEntity fresh w2 e2).2 (AddEntity fresh w2 e2).1 df hcopy
    obtain ⟨w3, hadd, hget⟩ := AddFromRawData_data mf fresh w2 e2 df data hload
    refine ⟨w3, _, hadd, hget, ?_⟩
    rw [initializeRailData_fields]
    refine ⟨f1.trans hst, f2.trans hipr, f3 _ hro, f4 _ hrs, f5.trans huo, f6.trans hitd,
      f7.trans hen, ?_, ?_⟩
    · intro hname
      have hb : (d.rail_name != "") = true := by simpa using hname
      exact f8 d.rail_name (by rw [hrn]; simp only [hb, if_true])
    · intro hsome
      cases ha : d.on_new_lap with
      | none =>
        rw [honl, ha] at hsome
        simp at hsome
      | some a =>
        cases hl : w.schema.bind Schema.LookupActionDef with
        | none =>
          rw [honl, ha, hl] at hsome
          simp at hsome
        | some n =>
          exact f10 (CopyTable a) (by rw [honl, ha, hl])

theorem export_import_roundtrip_witness :
    ∃ df, ExportRawData sampleMathFu sampleWorld 1 = some df
      ∧ df.rail_name ≠ some ""
      ∧ ∃ w3 d3, AddFromRawData sampleMathFu sampleFresh sampleWorld 5 df = some w3
          ∧ GetComponentData w3 5 = some d3
          ∧ d3.rail_offset = sampleDenizen.rail_offset := by
  obtain ⟨df, h1, _, h3, _, w3, d3, h5, h6, _, _, h9, _⟩ :=
    export_import_roundtrip sampleMathFu sampleFresh sampleWorld sampleWorld 1 5 sampleDenizen
      rfl rfl
  exact ⟨df, h1, h3, w3, d3, h5, h6, h9⟩

/-! ## The transform matrix -/

/-- The columns of a rotation matrix are the images of the axes under the
quaternion, when the quaternion is a unit quaternion. -/
theorem ToMatrix_columns (q : Quat)
    (hunit : q.s * q.s + q.v.x * q.v.x + q.v.y * q.v.y + q.v.z * q.v.z = 1) :
    q.ToMatrix.c0 = Quat.rotate q ⟨1, 0, 0⟩
      ∧ q.ToMatrix.c1 = Quat.rotate q ⟨0, 1, 0⟩
      ∧ q.ToMatrix.c2 = Quat.rotate q ⟨0, 0, 1⟩ := by
  obtain ⟨s, ⟨x, y, z⟩⟩ := q
  simp only at hunit
  refine ⟨?_, ?_, ?_⟩ <;>
    simp only [Quat.ToMatrix, Quat.rotate, Vec3.add, Vec3.smul, Vec3.cross, Vec3.dot,
      Vec3.mk.injEq] <;>
    refine ⟨?_, ?_, ?_⟩ <;>
    first | linear_combination (-2 : ℚ) * hunit | linear_combination (0 : ℚ) * hunit

/-- What `GetTransformMatrix` returns, column by column: column `j` is row `j`
of the rotation matrix times the `j`-th scale, with 0 in the fourth row; the
fourth column is the position with 1 in the fourth row. -/
theorem GetTransformMatrix_columns (t : TransformData) :
    t.GetTransformMatrix
      = ⟨Vec4.smul t.scale.x
            ⟨t.orientation.ToMatrix.c0.x, t.orientation.ToMatrix.c1.x,
              t.orientation.ToMatrix.c2.x, 0⟩,
          Vec4.smul t.scale.y
            ⟨t.orientation.ToMatrix.c0.y, t.orientation.ToMatrix.c1.y,
              t.orientation.ToMatrix.c2.y, 0⟩,
          Vec4.smul t.scale.z
            ⟨t.orientation.ToMatrix.c0.z, t.orientation.ToMatrix.c1.z,
              t.orientation.ToMatrix.c2.z, 0⟩,
          ⟨t.position.x, t.position.y, t.position.z, 1⟩⟩ := by
  simp [TransformData.GetTransformMatrix, Mat3.get]

/-- The matrix `GetTransformMatrix` returns is
`Translation(p) * Rotation(q)ᵀ * Scale(s)`. -/
theorem GetTransformMatrix_eq_transposed (t : TransformData) :
    t.GetTransformMatrix = transposedTransformMatrix t := by
  rw [GetTransformMatrix_columns]
  simp [transposedTransformMatrix, Mat4.mul, Mat4.mulVec, Mat4.Translation, Mat4.Rotation,
    Mat4.Scale, Mat3.Transpose, Vec4.add, Vec4.smul, mul_comm]

/-- C12 (counterexample): for the transform `turnedTransform`
(position (1, 2, 3), scale (2, 3, 4), unit quaternion (3/5, (0, 0, 4/5))) the
first two columns of `GetTransformMatrix` are rows 0 and 1 of the rotation
matrix times the scale, not its columns 0 and 1 as in
`Translation(p) * Rotation(q) * Scale(s)`; the third and fourth columns
agree, the matrices do not. -/
theorem transform_matrix_takes_rows :
    turnedTransform.orientation.ToMatrix
        = ⟨⟨-7 / 25, 24 / 25, 0⟩, ⟨-24 / 25, -7 / 25, 0⟩, ⟨0, 0, 1⟩⟩
      ∧ turnedTransform.GetTransformMatrix
        = ⟨⟨-14 / 25, -48 / 25, 0, 0⟩, ⟨72 / 25, -21 / 25, 0, 0⟩, ⟨0, 0, 4, 0⟩, ⟨1, 2, 3, 1⟩⟩
      ∧ composedTransformMatrix turnedTransform
        = ⟨⟨-14 / 25, 48 / 25, 0, 0⟩, ⟨-72 / 25, -21 / 25, 0, 0⟩, ⟨0, 0, 4, 0⟩, ⟨1, 2, 3, 1⟩⟩
      ∧ turnedTransform.GetTransformMatrix ≠ composedTransformMatrix turnedTransform := by
  have hrot : turnedTransform.orientation.ToMatrix
      = ⟨⟨-7 / 25, 24 / 25, 0⟩, ⟨-24 / 25, -7 / 25, 0⟩, ⟨0, 0, 1⟩⟩ := by
    norm_num [turnedTransform, Quat.ToMatrix]
  have hcode : turnedTransform.GetTransformMatrix
      = ⟨⟨-14 / 25, -48 / 25, 0, 0⟩, ⟨72 / 25, -21 / 25, 0, 0⟩, ⟨0, 0, 4, 0⟩, ⟨1, 2, 3, 1⟩⟩ := by
    rw [GetTransformMatrix_columns, hrot]
    norm_num [turnedTransform, Vec4.smul]
  have hspec : composedTransformMatrix turnedTransform
      = ⟨⟨-14 / 25, 48 / 25, 0, 0⟩, ⟨-72 / 25, -21 / 25, 0, 0⟩, ⟨0, 0, 4, 0⟩, ⟨1, 2, 3, 1⟩⟩ := by
    unfold composedTransformMatrix
    rw [hrot]
    norm_num [turnedTransform, Mat4.mul, Mat4.mulVec, Mat4.Translation, Mat4.Rotation,
      Mat4.Scale, Vec4.add, Vec4.smul]
  refine ⟨hrot, hcode, hspec, ?_⟩
  rw [hcode, hspec]
  intro h
  have hy := congrArg (fun m : Mat4 => m.c0.y) h
  norm_num at hy

theorem ToMatrix_Inverse (q : Quat) : q.Inverse.ToMatrix = q.ToMatrix.Transpose := by
  simp only [Quat.ToMatrix, Quat.Inverse, Vec3.neg, Mat3.Transpose, Mat3.mk.injEq,
    Vec3.mk.injEq]
  refine ⟨⟨?_, ?_, ?_⟩, ⟨?_, ?_, ?_⟩, ⟨?_, ?_, ?_⟩⟩ <;> ring

/-- C12 (as amended): for every position `p`, scale `s` and orientation `q`,
`GetTransformMatrix` returns `Translation(p) * Rotation(q⁻¹) * Scale(s)`, the
product with the transpose of `q.ToMatrix()`: column `j` (`j = 0, 1, 2`) of
the result is row `j` of the rotation matrix of `q` multiplied by `s_j`, with
a 0 in the fourth row, and the fourth column is `(p.x, p.y, p.z, 1)`. -/
theorem transform_matrix_inverse_rotation (t : TransformData) :
    t.GetTransformMatrix
        = composedTransformMatrix { t with orientation := t.orientation.Inverse }
      ∧ t.GetTransformMatrix
        = Mat4.mul
            (Mat4.mul (Mat4.Translation t.position)
              (Mat4.Rotation t.orientation.ToMatrix.Transpose))
            (Mat4.Scale t.scale)
      ∧ t.GetTransformMatrix.c0
        = Vec4.smul t.scale.x
            ⟨t.orientation.ToMatrix.c0.x, t.orientation.ToMatrix.c1.x,
              t.orientation.ToMatrix.c2.x, 0⟩
      ∧ t.GetTransformMatrix.c1
        = Vec4.smul t.scale.y
            ⟨t.orientation.ToMatrix.c0.y, t.orientation.ToMatrix.c1.y,
              t.orientation.ToMatrix.c2.y, 0⟩
      ∧ t.GetTransformMatrix.c2
        = Vec4.smul t.scale.z
            ⟨t.orientation.ToMatrix.c0.z, t.orientation.ToMatrix.c1.z,
              t.orientation.ToMatrix.c2.z, 0⟩
      ∧ t.GetTransformMatrix.c3 = ⟨t.position.x, t.position.y, t.position.z, 1⟩ := by
  have hcols := GetTransformMatrix_columns t
  refine ⟨?_, GetTransformMatrix_eq_transposed t, ?_, ?_, ?_, ?_⟩
  · rw [GetTransformMatrix_eq_transposed]
    unfold composedTransformMatrix transposedTransformMatrix
    rw [ToMatrix_Inverse]
  · rw [hcols]
  · rw [hcols]
  · rw [hcols]
  · rw [hcols]

/-! ## Rail sampling -/

theorem roundFin_idem {x : ℚ} (hx : 0 ≤ x) : F32.roundFin (F32.roundFin x) = F32.roundFin x := by
  have hu := F32.ulp_pos x
  have hm0 : 0 ≤ F32.roundHalfEven (x / F32.ulp x) :=
    F32.roundHalfEven_nonneg (div_nonneg hx hu.le)
  have hle := F32.roundFin_le_two_zpow hx
  have h24 := F32.two_zpow_24_mul_ulp x
  have hexp := F32.le_exponent x
  have hm24 : F32.roundHalfEven (x / F32.ulp x) ≤ 2 ^ 24 := by
    have h : (F32.roundHalfEven (x / F32.ulp x) : ℚ) * F32.ulp x ≤ (2 : ℚ) ^ (24 : ℕ) * F32.ulp x := by
      rw [h24]
      exact hle
    have h' := le_of_mul_le_mul_right h hu
    exact_mod_cast h'
  rcases lt_or_eq_of_le hm24 with hlt | heq
  · have := F32.roundFin_of_grid (F32.roundHalfEven (x / F32.ulp x)) (F32.exponent x - 23)
      (by rw [abs_of_nonneg hm0]; exact hlt) (by linarith)
    unfold F32.roundFin at this ⊢
    unfold F32.ulp at this ⊢
    exact this
  · have h1 : F32.roundFin x = ((1 : ℤ) : ℚ) * (2 : ℚ) ^ (F32.exponent x + 1) := by
      rw [← h24]
      unfold F32.roundFin
      rw [heq]
      push_cast
      ring
    rw [h1]
    exact F32.roundFin_of_grid 1 (F32.exponent x + 1) (by norm_num) (by linarith)

theorem add_zero_round {x : ℚ} (hx : 0 ≤ x) :
    Flt.add (Flt.fin 0) (F32.round x) = F32.round x := by
  have h0 := F32.roundFin_nonneg hx
  unfold F32.round
  by_cases hbig : 2 ^ 128 ≤ F32.roundFin x
  · rw [if_pos hbig]
    rfl
  · rw [if_neg hbig, if_neg (by linarith)]
    show F32.round (0 + F32.roundFin x) = _
    rw [zero_add]
    unfold F32.round
    rw [roundFin_idem hx, if_neg hbig, if_neg (by linarith)]

/-- The count of `Rail::Positions` for a finite end time `E ≥ 0` and a finite
step `step > 0`, when the float32 value of `floor(E / step) + 1` is below
`2 ^ 64`. -/
theorem numPositions_fin (sp : SplineSampling) (rail : Rail) (E step : ℚ)
    (hE : sp.EndTime rail = Flt.fin E) (hend : 0 ≤ E) (hstep : 0 < step)
    (hrange : F32.roundFin ((⌊F32.roundFin (E / step)⌋ : ℚ) + 1) < 2 ^ 64) :
    rail.numPositions sp (Flt.fin step)
      = some ⌊F32.roundFin ((⌊F32.roundFin (E / step)⌋ : ℚ) + 1)⌋.toNat := by
  have hq0 : 0 ≤ E / step := div_nonneg hend hstep.le
  have hr0 := F32.roundFin_nonneg hq0
  have hn0 : (0 : ℚ) ≤ (⌊F32.roundFin (E / step)⌋ : ℚ) := by
    exact_mod_cast Int.floor_nonneg.mpr hr0
  have hv0 : 0 ≤ F32.roundFin ((⌊F32.roundFin (E / step)⌋ : ℚ) + 1) :=
    F32.roundFin_nonneg (by linarith)
  have h64 : (2 : ℚ) ^ 64 < 2 ^ 128 := by norm_num
  have hqfin : F32.roundFin (E / step) < 2 ^ 128 := by
    by_contra hbig
    rw [not_lt] at hbig
    have h3 : ((2 : ℚ) ^ 128) ≤ (⌊F32.roundFin (E / step)⌋ : ℚ) + 1 :=
      le_trans hbig (Int.lt_floor_add_one _).le
    have h4 := F32.roundFin_mono (by norm_num : (0 : ℚ) ≤ 2 ^ 128) h3
    have h5 : F32.roundFin ((2 : ℚ) ^ 128) = 2 ^ 128 := by
      have := F32.roundFin_of_grid 1 128 (by norm_num) (by norm_num)
      norm_num at this ⊢
      exact this
    rw [h5] at h4
    linarith
  unfold Rail.numPositions
  rw [hE]
  have hdiv : Flt.div (Flt.fin E) (Flt.fin step) = Flt.fin (F32.roundFin (E / step)) := by
    unfold Flt.div
    simp only [hstep.ne', if_false]
    exact round_eq_fin hr0 hqfin
  rw [hdiv]
  have hadd : Flt.add (Flt.floor (Flt.fin (F32.roundFin (E / step)))) (Flt.fin 1)
      = Flt.fin (F32.roundFin ((⌊F32.roundFin (E / step)⌋ : ℚ) + 1)) := by
    show F32.round _ = _
    exact round_eq_fin hv0 (by linarith)
  rw [hadd]
  simp only [hv0, hrange, and_self, if_true]

/-- C11 (as amended): for every rail with a finite `EndTime() = E ≥ 0` and
every finite step `step > 0`, let `c` be the float32 nearest to `⌊q⌋ + 1`,
where `q` is the float32 nearest to `E / step`.  When `c < 2 ^ 64`,
`Rail::Positions(step)` produces exactly `c` points (`c` is the value the
code's float expression `std::floor(EndTime() / step) + 1` has), at least
one, and for every index `i` below `c` the `i`-th point equals
`Rail::PositionCalculatedSlowly(i * step)`, the product `i * step` taken in
float32.  When `E / step` is itself a float32 and `⌊E / step⌋ < 2 ^ 24`, the
number of points is `⌊E / step⌋ + 1`. -/
theorem positions_match_point_samples (sp : SplineSampling) (rail : Rail) (E step : ℚ)
    (hE : sp.EndTime rail = Flt.fin E) (hend : 0 ≤ E) (hstep : 0 < step)
    (hrange : F32.roundFin ((⌊F32.roundFin (E / step)⌋ : ℚ) + 1) < 2 ^ 64) :
    ∃ positions : List Vec3, rail.Positions sp (Flt.fin step) = some positions
      ∧ positions.length = ⌊F32.roundFin ((⌊F32.roundFin (E / step)⌋ : ℚ) + 1)⌋.toNat
      ∧ (positions.length : ℚ) = F32.roundFin ((⌊F32.roundFin (E / step)⌋ : ℚ) + 1)
      ∧ 1 ≤ positions.length
      ∧ (∀ (i : ℕ) (h : i < positions.length),
          positions.get ⟨i, h⟩
            = rail.PositionCalculatedSlowly sp (Flt.mul (F32.round (i : ℚ)) (Flt.fin step)))
      ∧ (F32.roundFin (E / step) = E / step → ⌊E / step⌋ < 2 ^ 24 →
          (positions.length : ℤ) = ⌊E / step⌋ + 1) := by
  have hnum := numPositions_fin sp rail E step hE hend hstep hrange
  have hq0 : 0 ≤ E / step := div_nonneg hend hstep.le
  have hr0 := F32.roundFin_nonneg hq0
  have hn0 : 0 ≤ ⌊F32.roundFin (E / step)⌋ := Int.floor_nonneg.mpr hr0
  have hn0q : (0 : ℚ) ≤ (⌊F32.roundFin (E / step)⌋ : ℚ) := by exact_mod_cast hn0
  -- the count is an integer-valued float, at least 1
  have hone : (1 : ℚ) ≤ F32.roundFin ((⌊F32.roundFin (E / step)⌋ : ℚ) + 1) := by
    have h := F32.roundFin_mono (by norm_num : (0 : ℚ) ≤ ((1 : ℤ) : ℚ))
      (by push_cast; linarith : ((1 : ℤ) : ℚ) ≤ (⌊F32.roundFin (E / step)⌋ : ℚ) + 1)
    rw [F32.roundFin_intCast 1 (by norm_num)] at h
    exact_mod_cast h
  have hint : ((⌊F32.roundFin ((⌊F32.roundFin (E / step)⌋ : ℚ) + 1)⌋ : ℤ) : ℚ)
      = F32.roundFin ((⌊F32.roundFin (E / step)⌋ : ℚ) + 1) := by
    have hfl : F32.roundFin (F32.roundFin ((⌊F32.roundFin (E / step)⌋ : ℚ) + 1))
        = F32.roundFin ((⌊F32.roundFin (E / step)⌋ : ℚ) + 1) :=
      roundFin_idem (by linarith)
    rcases le_or_lt (⌊F32.roundFin (E / step)⌋ + 1) (2 ^ 24) with hle | hgt
    · have h := F32.roundFin_intCast (⌊F32.roundFin (E / step)⌋ + 1)
        (by rw [abs_of_nonneg (by linarith)]; exact hle)
      have hc : (⌊F32.roundFin (E / step)⌋ : ℚ) + 1
          = ((⌊F32.roundFin (E / step)⌋ + 1 : ℤ) : ℚ) := by push_cast; rfl
      rw [hc, h, Int.floor_intCast]
    · have hgt' : ((2 ^ 24 : ℤ) : ℚ) ≤ (⌊F32.roundFin (E / step)⌋ : ℚ) + 1 := by
        exact_mod_cast hgt.le
      have h := F32.roundFin_mono (by norm_num) hgt'
      rw [F32.roundFin_intCast (2 ^ 24) (by norm_num)] at h
      rcases F32.lt_or_intCast_of_roundFin_eq hfl with hsmall | ⟨c, hc⟩
      · exfalso
        have h1 := (abs_lt.mp hsmall).2
        push_cast at h
        linarith
      · rw [← hc, Int.floor_intCast]
  have hfloor1 : 1 ≤ ⌊F32.roundFin ((⌊F32.roundFin (E / step)⌋ : ℚ) + 1)⌋ :=
    Int.le_floor.mpr (by exact_mod_cast hone)
  have hpos : ⌊F32.roundFin ((⌊F32.roundFin (E / step)⌋ : ℚ) + 1)⌋.toNat ≠ 0 := by omega
  refine ⟨(List.range ⌊F32.roundFin ((⌊F32.roundFin (E / step)⌋ : ℚ) + 1)⌋.toNat).map
      (BulkYs sp rail (Flt.fin 0) (Flt.fin step)
        ⌊F32.roundFin ((⌊F32.roundFin (E / step)⌋ : ℚ) + 1)⌋.toNat), ?_, ?_, ?_, ?_, ?_, ?_⟩
  · unfold Rail.Positions
    rw [hnum]
    exact if_neg hpos
  · rw [List.length_map, List.length_range]
  · rw [List.length_map, List.length_range, ← hint]
    have : ((⌊F32.roundFin ((⌊F32.roundFin (E / step)⌋ : ℚ) + 1)⌋.toNat : ℤ) : ℚ)
        = ((⌊F32.roundFin ((⌊F32.roundFin (E / step)⌋ : ℚ) + 1)⌋ : ℤ) : ℚ) := by
      rw [Int.toNat_of_nonneg (by linarith)]
    exact_mod_cast this
  · rw [List.length_map, List.length_range]
    omega
  · intro i h
    rw [List.get_eq_getElem, List.getElem_map, List.getElem_range]
    unfold BulkYs
    have hi0 : (0 : ℚ) ≤ (i : ℚ) := Nat.cast_nonneg i
    have ha0 := F32.roundFin_nonneg hi0
    have htime : Flt.add (Flt.fin 0) (Flt.mul (F32.round (i : ℚ)) (Flt.fin step))
        = Flt.mul (F32.round (i : ℚ)) (Flt.fin step) := by
      unfold F32.round
      by_cases hbig : 2 ^ 128 ≤ F32.roundFin (i : ℚ)
      · rw [if_pos hbig]
        unfold Flt.mul
        simp only [hstep.ne', hstep, if_false, if_true]
        rfl
      · rw [if_neg hbig, if_neg (by linarith)]
        exact add_zero_round (mul_nonneg ha0 hstep.le)
    rw [htime]
  · intro hexact hsmall
    rw [List.length_map, List.length_range, hexact]
    have hk0 : 0 ≤ ⌊E / step⌋ := Int.floor_nonneg.mpr hq0
    have : F32.roundFin ((⌊E / step⌋ : ℚ) + 1) = ((⌊E / step⌋ + 1 : ℤ) : ℚ) := by
      have := F32.roundFin_intCast (⌊E / step⌋ + 1) (by rw [abs_of_nonneg (by linarith)]; omega)
      push_cast at this ⊢
      exact this
    rw [this, Int.floor_intCast, Int.toNat_of_nonneg (by linarith)]

theorem Positions_map_length (sp : SplineSampling) (rail : Rail) (delta_time : Flt) (n : ℕ)
    (hnum : rail.numPositions sp delta_time = some n) (hn : n ≠ 0) :
    (rail.Positions sp delta_time).map List.length = some n := by
  unfold Rail.Positions
  rw [hnum]
  simp only [hn, if_false, Option.map_some', List.length_map, List.length_range]

theorem positions_match_point_samples_witness :
    ∃ positions : List Vec3,
      Rail.Positions (sampleSampling 1) ⟨⟨5⟩⟩ (Flt.fin (1 / 4)) = some positions
        ∧ positions.length = 5
        ∧ ∀ (i : ℕ) (h : i < positions.length),
            positions.get ⟨i, h⟩
              = Rail.PositionCalculatedSlowly (sampleSampling 1) ⟨⟨5⟩⟩
                  (Flt.mul (F32.round (i : ℚ)) (Flt.fin (1 / 4))) := by
  obtain ⟨positions, h1, h2, _, _, h5, _⟩ :=
    positions_match_point_samples (sampleSampling 1) ⟨⟨5⟩⟩ 1 (1 / 4) rfl (by norm_num)
      (by norm_num) (by decide!)
  refine ⟨positions, h1, ?_, h5⟩
  rw [h2]
  decide!

/-- C11 (counterexample): (1) a rail with `EndTime() = 16777216` sampled with
step 1: `floor(EndTime() / step) + 1` is 16777217, but the float32 sum
`16777216 + 1` is 16777216, and `Positions` produces 16777216 points, so there
is no point of index `floor(EndTime() / step)`.  (2) A rail with
`EndTime() = 0.7f` sampled with step `0.1f` (the float32 values
11744051 / 2^24 and 13421773 / 2^27): the quotient is below 7 and
`floor(EndTime() / step) + 1` is 7, but the float32 quotient is 7 and
`Positions` produces 8 points. -/
theorem positions_count_differs :
    (Rail.Positions (sampleSampling 16777216) ⟨⟨5⟩⟩ (Flt.fin 1)).map List.length
        = some 16777216
      ∧ ⌊(16777216 : ℚ) / 1⌋ + 1 = 16777217
      ∧ (Rail.Positions (sampleSampling (11744051 / 16777216)) ⟨⟨5⟩⟩
            (Flt.fin (13421773 / 134217728))).map List.length = some 8
      ∧ ⌊(11744051 / 16777216 : ℚ) / (13421773 / 134217728)⌋ + 1 = 7 := by
  have hq1 : F32.roundFin ((16777216 : ℚ) / 1) = 16777216 := by
    have := F32.roundFin_intCast 16777216 (by norm_num)
    norm_num at this ⊢
    exact this
  have hf1 : ⌊(16777216 : ℚ)⌋ = 16777216 := by
    exact_mod_cast Int.floor_intCast (16777216 : ℤ)
  have hv1 : F32.roundFin (((16777216 : ℤ) : ℚ) + 1) = 16777216 := by
    rw [roundFin_of_binade 24 (by norm_num) (by norm_num) (by norm_num)]
    have : F32.roundHalfEven ((((16777216 : ℤ) : ℚ) + 1) / (2 : ℚ) ^ ((24 : ℤ) - 23))
        = 8388608 := by
      norm_num
      decide!
    rw [this]
    norm_num
  have hn1 : Rail.numPositions (sampleSampling 16777216) ⟨⟨5⟩⟩ (Flt.fin 1) = some 16777216 := by
    rw [numPositions_fin (sampleSampling 16777216) ⟨⟨5⟩⟩ 16777216 1 rfl (by norm_num)
      (by norm_num) (by rw [hq1, hf1, hv1]; norm_num), hq1, hf1, hv1, hf1]
    rfl
  have hq2 : F32.roundFin ((11744051 / 16777216 : ℚ) / (13421773 / 134217728)) = 7 := by
    rw [roundFin_of_binade 2 (by norm_num) (by rw [abs_of_pos (by norm_num)]; norm_num)
      (by rw [abs_of_pos (by norm_num)]; norm_num)]
    have : F32.roundHalfEven ((11744051 / 16777216 : ℚ) / (13421773 / 134217728)
        / (2 : ℚ) ^ ((2 : ℤ) - 23)) = 14680064 := by
      norm_num
      decide!
    rw [this]
    norm_num
  have hf2 : ⌊(7 : ℚ)⌋ = 7 := by
    exact_mod_cast Int.floor_intCast (7 : ℤ)
  have hv2 : F32.roundFin (((7 : ℤ) : ℚ) + 1) = 8 := by decide!
  have hf8 : ⌊(8 : ℚ)⌋ = 8 := by
    exact_mod_cast Int.floor_intCast (8 : ℤ)
  have hn2 : Rail.numPositions (sampleSampling (11744051 / 16777216)) ⟨⟨5⟩⟩
      (Flt.fin (13421773 / 134217728)) = some 8 := by
    rw [numPositions_fin (sampleSampling (11744051 / 16777216)) ⟨⟨5⟩⟩ (11744051 / 16777216)
      (13421773 / 134217728) rfl (by norm_num) (by norm_num)
      (by rw [hq2, hf2, hv2]; norm_num), hq2, hf2, hv2, hf8]
    rfl
  refine ⟨?_, ?_, ?_, ?_⟩
  · exact Positions_map_length _ _ _ _ hn1 (by norm_num)
  · rw [div_one, hf1]
    norm_num
  · exact Positions_map_length _ _ _ _ hn2 (by norm_num)
  · have : ⌊(11744051 / 16777216 : ℚ) / (13421773 / 134217728)⌋ = 6 := by
      rw [Int.floor_eq_iff]
      constructor <;> norm_num
    rw [this]
    rfl

end Zooshi
